import Mathlib

/-!
App framework scheduler of the Splunk operator.

A shallow embedding of `pkg/splunk/enterprise/afwscheduler.go`.

Pointers are modelled as addresses into two heaps (lists): a `*PipelineWorker`
is an index into `State.workers`, a `*AppDeploymentInfo` an index into
`State.infos`; allocation appends to the heap.  A phase queue
(`[]*PipelineWorker`) is a list of worker addresses, so that two queue slots
are the same worker exactly when the addresses are equal.  A run-time fault of
the Go code (nil dereference, lookup of a phase the map does not hold,
`make` with a negative length) is the result `none`.  Log statements have no
effect on the state and are left out.
-/

namespace enterpriseApi

/-- Modelled from the spec: the string type `AppPhaseType` of the API package
(not part of the sources at hand).  The three pipeline phases, and `unset` for
the empty string and any other value. -/
inductive AppPhaseType
  | PhaseDownload
  | PhasePodCopy
  | PhaseInstall
  | unset
  deriving DecidableEq, Repr

export AppPhaseType (PhaseDownload PhasePodCopy PhaseInstall)

/-- Modelled from the spec: the status constants of the API package, four per
phase, and `unset` for the zero value. -/
inductive AppPhaseStatusType
  | unset
  | AppPkgDownloadPending
  | AppPkgDownloadInProgress
  | AppPkgDownloadComplete
  | AppPkgDownloadError
  | AppPkgPodCopyPending
  | AppPkgPodCopyInProgress
  | AppPkgPodCopyComplete
  | AppPkgPodCopyError
  | AppPkgInstallPending
  | AppPkgInstallInProgress
  | AppPkgInstallComplete
  | AppPkgInstallError
  deriving DecidableEq, Repr

export AppPhaseStatusType (AppPkgDownloadPending AppPkgDownloadInProgress AppPkgDownloadComplete
  AppPkgDownloadError AppPkgPodCopyPending AppPkgPodCopyInProgress AppPkgPodCopyComplete
  AppPkgPodCopyError AppPkgInstallPending AppPkgInstallInProgress AppPkgInstallComplete
  AppPkgInstallError)

/-- Modelled from the spec: the triple (Phase, Status, RetryCount); RetryCount is an int32. -/
structure PhaseInfo where
  Phase : AppPhaseType
  Status : AppPhaseStatusType
  RetryCount : Int
  deriving DecidableEq, Repr

/-- Modelled from the spec: RepoState of an app package. -/
inductive AppRepoState
  | RepoStateActive
  | RepoStateDeleted
  deriving DecidableEq, Repr

/-- Modelled from the spec: DeployStatus of an app package. -/
inductive AppDeploymentStatus
  | DeployStatusPending
  | DeployStatusInProgress
  | DeployStatusComplete
  | DeployStatusError
  deriving DecidableEq, Repr

export AppDeploymentStatus (DeployStatusPending DeployStatusInProgress DeployStatusComplete
  DeployStatusError)

/-- Modelled from the spec: the per-package record; Size is a uint64 byte count. -/
structure AppDeploymentInfo where
  AppName : String
  ObjectHash : String
  Size : Nat
  RepoState : AppRepoState
  DeployStatus : AppDeploymentStatus
  PhaseInfo : enterpriseApi.PhaseInfo
  AuxPhaseInfo : List enterpriseApi.PhaseInfo
  deriving DecidableEq, Repr

/-- Modelled from the spec: the ordered sequence of packages of one app source. -/
structure AppSrcDeployInfo where
  AppDeploymentInfoList : List AppDeploymentInfo
  deriving DecidableEq, Repr

/-- Modelled from the spec: the scope of an app source; `unset` is the empty string. -/
inductive Scope
  | ScopeLocal
  | ScopeCluster
  | ScopeClusterWithPreConfig
  | unset
  deriving DecidableEq, Repr

export Scope (ScopeLocal ScopeCluster ScopeClusterWithPreConfig)

/-- Modelled from the spec: an app source of the manifest. -/
structure AppSourceSpec where
  Name : String
  Location : String
  VolName : String
  Scope : enterpriseApi.Scope
  deriving DecidableEq, Repr

/-- Modelled from the spec: the manifest; only the app sources matter to the scheduler core. -/
structure AppFrameworkSpec where
  AppSources : List AppSourceSpec
  deriving DecidableEq, Repr

/-- Modelled from the spec: the persisted status context.  The Go map
`AppsSrcDeployStatus` is a list of (source name, deploy info) pairs, visited in list order. -/
structure AppDeploymentContext where
  AppsSrcDeployStatus : List (String × AppSrcDeployInfo)
  AppsStatusMaxConcurrentAppDownloads : Nat
  deriving DecidableEq, Repr

end enterpriseApi

namespace enterprise

open enterpriseApi

/-- The part of `splcommon.MetaObject` the scheduler reads: kind, name, namespace. -/
structure MetaObject where
  Kind : String
  Name : String
  Namespace : String
  deriving DecidableEq, Repr

/-- The part of `appsv1.StatefulSet` the scheduler reads: `Spec.Replicas`, a `*int32`
(`none` is the nil pointer). -/
structure StatefulSet where
  Replicas : Option Int
  deriving DecidableEq, Repr

/-- One unit of work.  `appDeployInfo` is the address of the shared
`AppDeploymentInfo`; `afwConfig` is `none` for the nil `*AppFrameworkSpec`; `sts` is `none`
for the nil statefulset pointer; `waiter` is `none` for nil and `some p` for the address of
the worker-waiter of phase `p`.  `cr` is the custom resource behind the interface value (a
worker always carries one).  The field `client` is left out: it is read by Download alone,
before the key of the remote object is resolved, and createAndAddPipelineWorker stores the
address of its own parameter there. -/
structure PipelineWorker where
  appDeployInfo : Nat
  appSrcName : String
  targetPodName : String
  afwConfig : Option AppFrameworkSpec
  cr : MetaObject
  sts : Option StatefulSet
  isActive : Bool
  waiter : Option AppPhaseType
  deriving DecidableEq, Repr

/-- A stage of the pipeline: its queue of worker addresses. -/
structure PipelinePhase where
  q : List Nat
  deriving DecidableEq, Repr

/-- The pipeline: the Go map from phase to `*PipelinePhase` (`none` where the map
has no entry) and the available-disk-space cursor (uint64). -/
structure AppInstallPipeline where
  pplnPhases : AppPhaseType → Option PipelinePhase
  availableDiskSpace : Nat

/-- Program state: the two heaps and the pipeline. -/
structure State where
  workers : List PipelineWorker
  infos : List AppDeploymentInfo
  ppln : AppInstallPipeline

/-- The queue of a phase, empty where the pipeline has no such phase. -/
def AppInstallPipeline.queue (ppln : AppInstallPipeline) (phaseID : AppPhaseType) : List Nat :=
  match ppln.pplnPhases phaseID with
  | some phase => phase.q
  | none => []

/-- createPipelineWorker creates a pipeline worker for an app package -/
def createPipelineWorker (appDeployInfo : Nat) (appSrcName : String) (podName : String)
    (appFrameworkConfig : Option AppFrameworkSpec) (cr : MetaObject)
    (statefulSet : Option StatefulSet) : PipelineWorker :=
  { appDeployInfo := appDeployInfo
    appSrcName := appSrcName
    targetPodName := podName
    afwConfig := appFrameworkConfig
    cr := cr
    sts := statefulSet
    isActive := false
    waiter := none }

/-- getApplicablePodNameForWorker gets the Pod name relevant for the CR under work;
`podID` is a Go `int`, printed by `%d`. -/
def getApplicablePodNameForWorker (cr : MetaObject) (podID : Int) : String :=
  let podType : String :=
    match cr.Kind with
    | "Standalone" => "standalone"
    | "LicenseMaster" => "license-master"
    | "SearchHeadCluster" => "deployer"
    | "IndexerCluster" => ""
    | "ClusterMaster" => "cluster-master"
    | "MonitoringConsole" => "monitoring-console"
    | _ => ""
  "splunk-" ++ cr.Name ++ "-" ++ podType ++ "-" ++ toString podID

/-- addWorkersToPipelinePhase adds workers to a given pipeline phase (appends to its queue) -/
def addWorkersToPipelinePhase (ppln : AppInstallPipeline) (phaseID : AppPhaseType)
    (workers : List Nat) : Option AppInstallPipeline :=
  match ppln.pplnPhases phaseID with
  | none => none
  | some phase =>
    some { ppln with
      pplnPhases := Function.update ppln.pplnPhases phaseID (some { phase with q := phase.q ++ workers }) }

/-- The scan `for i, qWorker := range phaseQ` up to the first slot holding `worker`:
the index of that slot, counted from `i`. -/
def findWorker (worker : Nat) : List Nat → Nat → Option Nat
  | [], _ => none
  | qWorker :: rest, i => if worker = qWorker then some i else findWorker worker rest (i + 1)

/-- The slice surgery of deleteWorkerFromPipelinePhase at slot `i`: drop the head when
`i = 0`; otherwise overwrite slot `i` with the last worker (unless `i` is the last
slot) and cut the last slot off. -/
def removeSlot (phaseQ : List Nat) (i : Nat) : List Nat :=
  if i = 0 then phaseQ.drop 1
  else
    let moved :=
      if i ≠ phaseQ.length - 1 then phaseQ.set i (phaseQ.getD (phaseQ.length - 1) 0) else phaseQ
    moved.take (phaseQ.length - 1)

/-- deleteWorkerFromPipelinePhase deletes a given worker from a pipeline phase; the
Boolean is the Go return value. -/
def deleteWorkerFromPipelinePhase (ppln : AppInstallPipeline) (phaseID : AppPhaseType)
    (worker : Nat) : Option (Bool × AppInstallPipeline) :=
  match ppln.pplnPhases phaseID with
  | none => none
  | some phase =>
    match findWorker worker phase.q 0 with
    | some i =>
      some (true, { ppln with
        pplnPhases := Function.update ppln.pplnPhases phaseID (some { phase with q := removeSlot phase.q i }) })
    | none => some (false, ppln)

/-- The replica count read at the top of TransitionWorkerPhase: `*worker.sts.Spec.Replicas`
when the worker has a statefulset (a fault when that pointer is nil), else 1. -/
def replicaCountOf (w : PipelineWorker) : Option Int :=
  match w.sts with
  | some sts => sts.Replicas
  | none => some 1

/-- A fan-out copy of a worker for replica `i`: `*copy = *worker`, then the target pod
name is set and `isActive` and `waiter` are cleared. -/
def fanOutCopy (w : PipelineWorker) (i : Nat) : PipelineWorker :=
  { w with
    targetPodName := getApplicablePodNameForWorker w.cr (i : Int)
    isActive := false
    waiter := none }

/-- The loop of the branch "just finished the download phase", for the slots
`i, i+1, ..., i+n-1`: the AuxPhaseInfo entries written and the copies allocated. -/
def fanOutFresh (w : PipelineWorker) : Nat → Nat → List PhaseInfo × List PipelineWorker
  | 0, _ => ([], [])
  | n + 1, i =>
    let r := fanOutFresh w n (i + 1)
    ({ Phase := PhasePodCopy, Status := AppPkgPodCopyPending, RetryCount := 0 } :: r.1,
      fanOutCopy w i :: r.2)

/-- The loop of the branch "installation is already in progress", over the
AuxPhaseInfo slots from index `i` on: the copies allocated (the copy for slot `j` gets
address `base + j`), the addresses appended to copyWorkers and those appended to
installWorkers. -/
def fanOutResume (w : PipelineWorker) (base : Nat) :
    List PhaseInfo → Nat → List PipelineWorker × List Nat × List Nat
  | [], _ => ([], [], [])
  | phaseInfo :: rest, i =>
    let r := fanOutResume w base rest (i + 1)
    if phaseInfo.Phase = PhaseInstall ∧ phaseInfo.Status ≠ AppPkgInstallComplete then
      (fanOutCopy w i :: r.1, r.2.1, (base + i) :: r.2.2)
    else
      (fanOutCopy w i :: r.1, (base + i) :: r.2.1, r.2.2)

/-- The status written by the simple transition for the next phase; the zero value
when the next phase is none of the three. -/
def pendingStatusOf (nextPhase : AppPhaseType) : AppPhaseStatusType :=
  if nextPhase = PhaseDownload then AppPkgDownloadPending
  else if nextPhase = PhasePodCopy then AppPkgPodCopyPending
  else if nextPhase = PhaseInstall then AppPkgInstallPending
  else AppPhaseStatusType.unset

/-- The branch "Simple transition" of TransitionWorkerPhase. -/
def simpleTransition (s : State) (worker : Nat) (w : PipelineWorker)
    (appDeployInfo : AppDeploymentInfo) (nextPhase : AppPhaseType) : Option State :=
  let info1 : AppDeploymentInfo :=
    { appDeployInfo with
      PhaseInfo := { Phase := nextPhase, Status := pendingStatusOf nextPhase, RetryCount := 0 } }
  let w1 : PipelineWorker := { w with isActive := false, waiter := none }
  match addWorkersToPipelinePhase s.ppln nextPhase [worker] with
  | none => none
  | some ppln =>
    some { workers := s.workers.set worker w1
           infos := s.infos.set w.appDeployInfo info1
           ppln := ppln }

/-- The branch "Fan-out transition" of TransitionWorkerPhase. -/
def fanOutTransition (s : State) (w : PipelineWorker) (appDeployInfo : AppDeploymentInfo)
    (replicaCount : Int) : Option State :=
  let base := s.workers.length
  let alloc : Option (List PhaseInfo × List PipelineWorker × List Nat × List Nat) :=
    if appDeployInfo.AuxPhaseInfo.length = 0 then
      if replicaCount < 0 then none
      else
        let r := fanOutFresh w replicaCount.toNat 0
        some (r.1, r.2, (List.range replicaCount.toNat).map (fun i => base + i), [])
    else
      let r := fanOutResume w base appDeployInfo.AuxPhaseInfo 0
      some (appDeployInfo.AuxPhaseInfo, r.1, r.2.1, r.2.2)
  match alloc with
  | none => none
  | some (aux, copies, copyWorkers, installWorkers) =>
    match addWorkersToPipelinePhase s.ppln PhasePodCopy copyWorkers with
    | none => none
    | some ppln1 =>
      match addWorkersToPipelinePhase ppln1 PhaseInstall installWorkers with
      | none => none
      | some ppln2 =>
        let info1 : AppDeploymentInfo := { appDeployInfo with AuxPhaseInfo := aux }
        some { workers := s.workers ++ copies
               infos := s.infos.set w.appDeployInfo info1
               ppln := ppln2 }

/-- TransitionWorkerPhase transition a worker to new phase, and deletes from the current phase.
In the case of Standalone CR with multiple replicas, Fan-out `replicas` number of new workers -/
def TransitionWorkerPhase (s : State) (worker : Nat) (currentPhase nextPhase : AppPhaseType) :
    Option State :=
  match s.workers[worker]? with
  | none => none
  | some w =>
    match s.infos[w.appDeployInfo]? with
    | none => none
    | some appDeployInfo =>
      match replicaCountOf w with
      | none => none
      | some replicaCount =>
        let moved : Option State :=
          if replicaCount = 1 ∨ currentPhase ≠ PhaseDownload then
            simpleTransition s worker w appDeployInfo nextPhase
          else if currentPhase = PhaseDownload ∧ w.cr.Kind = "Standalone" then
            fanOutTransition s w appDeployInfo replicaCount
          else some s
        match moved with
        | none => none
        | some s1 =>
          match deleteWorkerFromPipelinePhase s1.ppln currentPhase worker with
          | none => none
          | some r => some { s1 with ppln := r.2 }

/-- Modelled from the spec: getAppSrcSpec (in util.go, not part of the sources at hand)
returns the app source of the given name, or an error (`none`) for an unknown app source. -/
def getAppSrcSpec (appSources : List AppSourceSpec) (appSrcName : String) : Option AppSourceSpec :=
  appSources.find? (fun appSrc => decide (appSrc.Name = appSrcName))

/-- The instance types afwGetReleventStatefulsetByKind asks for. -/
inductive InstanceType
  | SplunkStandalone
  | SplunkLicenseMaster
  | SplunkDeployer
  | SplunkClusterMaster
  | SplunkMonitoringConsole
  deriving DecidableEq, Repr

/-- The cluster as seen through `splcommon.ControllerClient`: the statefulset, if any,
found for an instance type, a CR name and a namespace. -/
structure ControllerClient where
  statefulSet : InstanceType → String → String → Option StatefulSet

/-- afwGetReleventStatefulsetByKind: the statefulset of the CR, nil for a kind without one. -/
def afwGetReleventStatefulsetByKind (cr : MetaObject) (client : ControllerClient) :
    Option StatefulSet :=
  match cr.Kind with
  | "Standalone" => client.statefulSet InstanceType.SplunkStandalone cr.Name cr.Namespace
  | "LicenseMaster" => client.statefulSet InstanceType.SplunkLicenseMaster cr.Name cr.Namespace
  | "SearchHeadCluster" => client.statefulSet InstanceType.SplunkDeployer cr.Name cr.Namespace
  | "ClusterMaster" => client.statefulSet InstanceType.SplunkClusterMaster cr.Name cr.Namespace
  | "MonitoringConsole" => client.statefulSet InstanceType.SplunkMonitoringConsole cr.Name cr.Namespace
  | _ => none

/-- createAndAddPipelineWorker used to add a worker to the pipeline on reconcile re-entry:
the new worker is allocated at the end of the worker heap. -/
def createAndAddPipelineWorker (s : State) (phase : AppPhaseType) (appDeployInfo : Nat)
    (appSrcName : String) (podName : String) (appFrameworkConfig : Option AppFrameworkSpec)
    (cr : MetaObject) (statefulSet : Option StatefulSet) : Option State :=
  let worker := createPipelineWorker appDeployInfo appSrcName podName appFrameworkConfig cr statefulSet
  match addWorkersToPipelinePhase s.ppln phase [s.workers.length] with
  | none => none
  | some ppln => some { s with workers := s.workers ++ [worker], ppln := ppln }

/-- The phase picked by the seeding loop of afwSchedulerEntry for a deploy info
(`unset` is the empty string: no phase); `maxRetry` is pipelinePhaseMaxRetryCount. -/
def seedPhase (maxRetry : Int) (deployInfo : AppDeploymentInfo) : AppPhaseType :=
  if deployInfo.PhaseInfo.Phase = PhaseDownload ∧ deployInfo.PhaseInfo.RetryCount < maxRetry then
    PhaseDownload
  else if deployInfo.PhaseInfo.Phase = PhasePodCopy ∧ deployInfo.PhaseInfo.RetryCount < maxRetry then
    PhasePodCopy
  else if deployInfo.PhaseInfo.Phase = PhaseInstall
      ∧ deployInfo.PhaseInfo.Status ≠ AppPkgInstallComplete
      ∧ deployInfo.PhaseInfo.RetryCount < maxRetry then
    PhaseInstall
  else AppPhaseType.unset

/-- The body of the seeding loop of afwSchedulerEntry for one entry of
AppDeploymentInfoList.  `deployInfo` is the per-iteration copy of the entry, allocated
at the end of the info heap; the second component is clusterScopedApps.
`appFrameworkConfig` is the manifest the pointer of that name refers to (the first
statement of the body reads its AppSources); the worker created stores that pointer. -/
def seedEntry (maxRetry : Int) (client : ControllerClient) (cr : MetaObject)
    (appFrameworkConfig : AppFrameworkSpec) (appSrcName : String)
    (entry : AppDeploymentInfo) (acc : State × List Nat) : Option (State × List Nat) :=
  let deployInfo := acc.1.infos.length
  let s : State := { acc.1 with infos := acc.1.infos ++ [entry] }
  match getAppSrcSpec appFrameworkConfig.AppSources appSrcName with
  | none => some (s, acc.2)
  | some appSrc =>
    let clusterScopedApps :=
      if appSrc.Scope = ScopeCluster ∧ entry.DeployStatus ≠ DeployStatusComplete then
        acc.2 ++ [deployInfo]
      else acc.2
    let pplnPhase := seedPhase maxRetry entry
    if pplnPhase ≠ AppPhaseType.unset then
      let podName := getApplicablePodNameForWorker cr 0
      let sts := afwGetReleventStatefulsetByKind cr client
      match createAndAddPipelineWorker s pplnPhase deployInfo appSrcName podName
          (some appFrameworkConfig) cr sts with
      | none => none
      | some s1 => some (s1, clusterScopedApps)
    else some (s, clusterScopedApps)

/-- The inner seeding loop: the entries of one app source, in order. -/
def seedAppSrc (maxRetry : Int) (client : ControllerClient) (cr : MetaObject)
    (appFrameworkConfig : AppFrameworkSpec) (appSrcName : String) :
    List AppDeploymentInfo → State × List Nat → Option (State × List Nat)
  | [], acc => some acc
  | entry :: rest, acc =>
    match seedEntry maxRetry client cr appFrameworkConfig appSrcName entry acc with
    | none => none
    | some acc1 => seedAppSrc maxRetry client cr appFrameworkConfig appSrcName rest acc1

/-- The seeding step of afwSchedulerEntry: the outer loop over AppsSrcDeployStatus. -/
def seedPipeline (maxRetry : Int) (client : ControllerClient) (cr : MetaObject)
    (appFrameworkConfig : AppFrameworkSpec) :
    List (String × AppSrcDeployInfo) → State × List Nat → Option (State × List Nat)
  | [], acc => some acc
  | src :: rest, acc =>
    match seedAppSrc maxRetry client cr appFrameworkConfig src.1 src.2.AppDeploymentInfoList acc with
    | none => none
    | some acc1 => seedPipeline maxRetry client cr appFrameworkConfig rest acc1

/-- One walk of the pod-copy phase manager over the queue as it was when the pass
began (`range` evaluates the slice once, and the in-place writes of
deleteWorkerFromPipelinePhase touch no slot after the one being visited).
Reading `podCopyWorker.afwConfig.AppSources` is a fault when afwConfig is nil.
`slots` is the number of non-blocking sends that find a receiver before the first
one that does not; the last component lists the workers sent on the channel. -/
def podCopyLoop (maxRetry : Int) :
    List Nat → Nat → State → List Nat → Option (State × List Nat)
  | [], _, s, sent => some (s, sent)
  | podCopyWorker :: rest, slots, s, sent =>
    match s.workers[podCopyWorker]? with
    | none => none
    | some w =>
      match s.infos[w.appDeployInfo]? with
      | none => none
      | some info =>
        let phaseInfo := info.PhaseInfo
        if phaseInfo.RetryCount < maxRetry ∧ w.isActive = false
            ∧ phaseInfo.Status ≠ AppPkgPodCopyComplete then
          match slots with
          | 0 =>
            let w1 : PipelineWorker := { w with waiter := none }
            some ({ s with workers := s.workers.set podCopyWorker w1 }, sent)
          | slots1 + 1 =>
            let w1 : PipelineWorker := { w with waiter := some PhasePodCopy, isActive := true }
            podCopyLoop maxRetry rest slots1
              { s with workers := s.workers.set podCopyWorker w1 } (sent ++ [podCopyWorker])
        else if phaseInfo.Status = AppPkgPodCopyComplete then
          match w.afwConfig with
          | none => none
          | some afwConfig =>
            match getAppSrcSpec afwConfig.AppSources w.appSrcName with
            | none => podCopyLoop maxRetry rest slots s sent
            | some appSrc =>
              if appSrc.Scope ≠ ScopeCluster then
                match TransitionWorkerPhase s podCopyWorker PhasePodCopy PhaseInstall with
                | none => none
                | some s1 => podCopyLoop maxRetry rest slots s1 sent
              else podCopyLoop maxRetry rest slots s sent
        else if phaseInfo.RetryCount ≥ maxRetry then
          let info1 : AppDeploymentInfo :=
            { info with PhaseInfo := { phaseInfo with Status := AppPkgPodCopyError } }
          let s1 : State := { s with infos := s.infos.set w.appDeployInfo info1 }
          match deleteWorkerFromPipelinePhase s1.ppln phaseInfo.Phase podCopyWorker with
          | none => none
          | some r => podCopyLoop maxRetry rest slots { s1 with ppln := r.2 } sent
        else podCopyLoop maxRetry rest slots s sent

/-- One pass of podCopyPhaseManager (the `default` arm of its select). -/
def podCopyPhaseManagerPass (maxRetry : Int) (s : State) (slots : Nat) :
    Option (State × List Nat) :=
  match s.ppln.pplnPhases PhasePodCopy with
  | none => none
  | some pplnPhase => podCopyLoop maxRetry pplnPhase.q slots s []

/-- initAppInstallPipeline, the case of a nil handle: a pipeline with the three
phases, each with an empty queue. -/
def newAppInstallPipeline : AppInstallPipeline :=
  { pplnPhases := fun p =>
      match p with
      | PhaseDownload => some { q := [] }
      | PhasePodCopy => some { q := [] }
      | PhaseInstall => some { q := [] }
      | AppPhaseType.unset => none
    availableDiskSpace := 0 }

/-- A pipeline with the three phases holding the given queues. -/
def pipelineOf (download podCopy install : List Nat) : AppInstallPipeline :=
  { pplnPhases := fun p =>
      match p with
      | PhaseDownload => some { q := download }
      | PhasePodCopy => some { q := podCopy }
      | PhaseInstall => some { q := install }
      | AppPhaseType.unset => none
    availableDiskSpace := 0 }

/-- An app package whose download has just completed, with the given AuxPhaseInfo. -/
def exDownloadedApp (aux : List PhaseInfo) : AppDeploymentInfo :=
  { AppName := "app0.tgz"
    ObjectHash := "abcd1234"
    Size := 1234
    RepoState := AppRepoState.RepoStateActive
    DeployStatus := DeployStatusPending
    PhaseInfo := { Phase := PhaseDownload, Status := AppPkgDownloadComplete, RetryCount := 0 }
    AuxPhaseInfo := aux }

/-- A dispatched worker of app source "adminApps" for the package at info address 0, for a
CR "stack1" of the given kind whose statefulset has the given replica count. -/
def exWorker (kind : String) (replicas : Option Int) : PipelineWorker :=
  { appDeployInfo := 0
    appSrcName := "adminApps"
    targetPodName := ""
    afwConfig := some { AppSources := [] }
    cr := { Kind := kind, Name := "stack1", Namespace := "test" }
    sts := some { Replicas := replicas }
    isActive := true
    waiter := some PhaseDownload }

/-- A state whose only worker (address 0) sits in the Download queue. -/
def exDownloadState (kind : String) (replicas : Option Int) (aux : List PhaseInfo) : State :=
  { workers := [exWorker kind replicas]
    infos := [exDownloadedApp aux]
    ppln := pipelineOf [0] [] [] }

/-- A LicenseMaster worker without a statefulset, dispatched by the pod-copy stage. -/
def exNoStatefulSetWorker : PipelineWorker :=
  { exWorker "LicenseMaster" none with sts := none, waiter := some PhasePodCopy }

/-- An app package whose pod copy has completed after two retries. -/
def exPodCopiedApp : AppDeploymentInfo :=
  { exDownloadedApp [] with
    PhaseInfo := { Phase := PhasePodCopy, Status := AppPkgPodCopyComplete, RetryCount := 2 } }

/-- A state whose only worker (address 0), without a statefulset, sits in the PodCopy queue. -/
def exNoStatefulSetState : State :=
  { workers := [exNoStatefulSetWorker]
    infos := [exPodCopiedApp]
    ppln := pipelineOf [] [0] [] }

/-- The AuxPhaseInfo of the test of the resumed fan-out: five replicas, the third one in
the Install phase, the others in PodCopy, every status the zero value. -/
def exResumeAux : List PhaseInfo :=
  [{ Phase := PhasePodCopy, Status := AppPhaseStatusType.unset, RetryCount := 0 },
   { Phase := PhasePodCopy, Status := AppPhaseStatusType.unset, RetryCount := 0 },
   { Phase := PhaseInstall, Status := AppPhaseStatusType.unset, RetryCount := 0 },
   { Phase := PhasePodCopy, Status := AppPhaseStatusType.unset, RetryCount := 0 },
   { Phase := PhasePodCopy, Status := AppPhaseStatusType.unset, RetryCount := 0 }]

/-- The seeding rule in the words of the specification: an entry is seeded, into the phase
its PhaseInfo names, when that phase is Download, PodCopy or Install, its RetryCount is
below the maximum, and (for Install) its Status is not InstallComplete; otherwise it is not
seeded. -/
def specSeedingRule (maxRetry : Int) (d : AppDeploymentInfo) : Option AppPhaseType :=
  if (d.PhaseInfo.Phase = PhaseDownload ∨ d.PhaseInfo.Phase = PhasePodCopy
        ∨ d.PhaseInfo.Phase = PhaseInstall)
      ∧ d.PhaseInfo.RetryCount < maxRetry
      ∧ (d.PhaseInfo.Phase ≠ PhaseInstall ∨ d.PhaseInfo.Status ≠ AppPkgInstallComplete) then
    some d.PhaseInfo.Phase
  else none

/-- A local-scoped app source. -/
def exAdminApps : AppSourceSpec :=
  { Name := "adminApps", Location := "adminAppsRepo", VolName := "msos_s2s3_vol",
    Scope := ScopeLocal }

/-- A cluster-scoped app source. -/
def exClusterApps : AppSourceSpec :=
  { Name := "clusterApps", Location := "clusterAppsRepo", VolName := "msos_s2s3_vol",
    Scope := ScopeCluster }

/-- A manifest with a local-scoped and a cluster-scoped app source. -/
def exConfig : AppFrameworkSpec :=
  { AppSources := [exAdminApps, exClusterApps] }

/-- A ClusterMaster CR. -/
def exCR : MetaObject :=
  { Kind := "ClusterMaster", Name := "stack1", Namespace := "test" }

/-- A cluster in which every statefulset asked for exists and has one replica. -/
def exClient : ControllerClient :=
  { statefulSet := fun _ _ _ => some { Replicas := some 1 } }

/-- The state at the start of the seeding step: empty heaps and a fresh pipeline. -/
def exFreshState : State :=
  { workers := [], infos := [], ppln := newAppInstallPipeline }

/-- A persisted entry whose download is pending. -/
def exDownloadPendingApp : AppDeploymentInfo :=
  { exDownloadedApp [] with
    PhaseInfo := { Phase := PhaseDownload, Status := AppPkgDownloadPending, RetryCount := 0 } }

/-- A persisted entry whose install is pending. -/
def exInstallPendingApp : AppDeploymentInfo :=
  { exDownloadedApp [] with
    PhaseInfo := { Phase := PhaseInstall, Status := AppPkgInstallPending, RetryCount := 0 } }

/-- A state whose only worker (address 0) belongs to the cluster-scoped app source and sits
in the PodCopy queue with Status PodCopyComplete. -/
def exClusterPodCopiedState : State :=
  { workers := [{ exWorker "ClusterMaster" (some 1) with
      appSrcName := "clusterApps", afwConfig := some exConfig, isActive := false, waiter := none }]
    infos := [exPodCopiedApp]
    ppln := pipelineOf [] [0] [] }

/-- isAppInstallationCompleteOnStandaloneReplicas confirms if an app package is installed on
all the Standalone Pods or not -/
def isAppInstallationCompleteOnStandaloneReplicas : List PhaseInfo → Bool
  | [] => true
  | phaseInfo :: rest =>
    if phaseInfo.Phase ≠ PhaseInstall ∨ phaseInfo.Status ≠ AppPkgInstallComplete then false
    else isAppInstallationCompleteOnStandaloneReplicas rest

/-- The state of a phase manager while it walks its queue: the program state, the number
of non-blocking sends that will still find a receiver, and the workers sent on the dispatch
channel so far. -/
structure Walk where
  s : State
  slots : Nat
  sent : List Nat

/-- The loop `for _, worker := range q` of a phase manager over the queue as it was when
the pass began: `body` returns the walk after one iteration and whether it left the loop by
`break`; `none` is a fault.  The Boolean of the result tells whether the walk was cut short. -/
def walkQueue (body : Nat → Walk → Option (Walk × Bool)) : List Nat → Walk → Option (Walk × Bool)
  | [], wk => some (wk, false)
  | worker :: rest, wk =>
    match body worker wk with
    | none => none
    | some r => if r.2 then some r else walkQueue body rest r.1

/-- The body of the loop of downloadPhaseManager.  The send on the dispatch channel is
blocking and is taken to complete (the download dispatcher receives the worker). -/
def downloadBody (maxRetry : Int) (downloadWorker : Nat) (wk : Walk) : Option (Walk × Bool) :=
  match wk.s.workers[downloadWorker]? with
  | none => none
  | some w =>
    match wk.s.infos[w.appDeployInfo]? with
    | none => none
    | some info =>
      let phaseInfo := info.PhaseInfo
      if w.isActive = false ∧ phaseInfo.RetryCount < maxRetry
          ∧ phaseInfo.Status ≠ AppPkgDownloadComplete then
        let w1 : PipelineWorker := { w with waiter := some PhaseDownload, isActive := true }
        let s1 : State := { wk.s with workers := wk.s.workers.set downloadWorker w1 }
        some ({ wk with s := s1, sent := wk.sent ++ [downloadWorker] }, false)
      else if info.PhaseInfo.Status = AppPkgDownloadComplete then
        match TransitionWorkerPhase wk.s downloadWorker PhaseDownload PhasePodCopy with
        | none => none
        | some s1 => some ({ wk with s := s1 }, false)
      else if phaseInfo.RetryCount ≥ maxRetry then
        let info1 : AppDeploymentInfo :=
          { info with PhaseInfo := { phaseInfo with Status := AppPkgDownloadError } }
        let s1 : State := { wk.s with infos := wk.s.infos.set w.appDeployInfo info1 }
        match deleteWorkerFromPipelinePhase s1.ppln phaseInfo.Phase downloadWorker with
        | none => none
        | some r => some ({ wk with s := { s1 with ppln := r.2 } }, false)
      else some (wk, false)

/-- The body of the loop of podCopyPhaseManager (the body of podCopyLoop, as a step of
walkQueue). -/
def podCopyBody (maxRetry : Int) (podCopyWorker : Nat) (wk : Walk) : Option (Walk × Bool) :=
  match wk.s.workers[podCopyWorker]? with
  | none => none
  | some w =>
    match wk.s.infos[w.appDeployInfo]? with
    | none => none
    | some info =>
      let phaseInfo := info.PhaseInfo
      if phaseInfo.RetryCount < maxRetry ∧ w.isActive = false
          ∧ phaseInfo.Status ≠ AppPkgPodCopyComplete then
        match wk.slots with
        | 0 =>
          let w1 : PipelineWorker := { w with waiter := none }
          let s1 : State := { wk.s with workers := wk.s.workers.set podCopyWorker w1 }
          some ({ wk with s := s1 }, true)
        | slots1 + 1 =>
          let w1 : PipelineWorker := { w with waiter := some PhasePodCopy, isActive := true }
          let s1 : State := { wk.s with workers := wk.s.workers.set podCopyWorker w1 }
          some ({ s := s1, slots := slots1, sent := wk.sent ++ [podCopyWorker] }, false)
      else if phaseInfo.Status = AppPkgPodCopyComplete then
        match w.afwConfig with
        | none => none
        | some afwConfig =>
          match getAppSrcSpec afwConfig.AppSources w.appSrcName with
          | none => some (wk, false)
          | some appSrc =>
            if appSrc.Scope ≠ ScopeCluster then
              match TransitionWorkerPhase wk.s podCopyWorker PhasePodCopy PhaseInstall with
              | none => none
              | some s1 => some ({ wk with s := s1 }, false)
            else some (wk, false)
      else if phaseInfo.RetryCount ≥ maxRetry then
        let info1 : AppDeploymentInfo :=
          { info with PhaseInfo := { phaseInfo with Status := AppPkgPodCopyError } }
        let s1 : State := { wk.s with infos := wk.s.infos.set w.appDeployInfo info1 }
        match deleteWorkerFromPipelinePhase s1.ppln phaseInfo.Phase podCopyWorker with
        | none => none
        | some r => some ({ wk with s := { s1 with ppln := r.2 } }, false)
      else some (wk, false)

/-- The body of the loop of installPhaseManager.  `phaseInfo` is the copy of PhaseInfo taken
at the top of the iteration: the deletions use its Phase. -/
def installBody (maxRetry : Int) (installWorker : Nat) (wk : Walk) : Option (Walk × Bool) :=
  match wk.s.workers[installWorker]? with
  | none => none
  | some w =>
    match wk.s.infos[w.appDeployInfo]? with
    | none => none
    | some info =>
      let phaseInfo := info.PhaseInfo
      if phaseInfo.RetryCount < maxRetry ∧ w.isActive = false
          ∧ phaseInfo.Status ≠ AppPkgInstallComplete then
        match wk.slots with
        | 0 =>
          let w1 : PipelineWorker := { w with waiter := none }
          let s1 : State := { wk.s with workers := wk.s.workers.set installWorker w1 }
          some ({ wk with s := s1 }, true)
        | slots1 + 1 =>
          let w1 : PipelineWorker := { w with waiter := some PhaseInstall, isActive := true }
          let s1 : State := { wk.s with workers := wk.s.workers.set installWorker w1 }
          some ({ s := s1, slots := slots1, sent := wk.sent ++ [installWorker] }, false)
      else if phaseInfo.Status = AppPkgInstallComplete then
        let phaseInfo1 : PhaseInfo :=
          if w.cr.Kind = "Standalone"
              ∧ isAppInstallationCompleteOnStandaloneReplicas info.AuxPhaseInfo = true then
            { phaseInfo with Phase := PhaseInstall, Status := AppPkgInstallComplete }
          else phaseInfo
        let info1 : AppDeploymentInfo :=
          { info with PhaseInfo := phaseInfo1, DeployStatus := DeployStatusComplete }
        let s1 : State := { wk.s with infos := wk.s.infos.set w.appDeployInfo info1 }
        match deleteWorkerFromPipelinePhase s1.ppln phaseInfo.Phase installWorker with
        | none => none
        | some r => some ({ wk with s := { s1 with ppln := r.2 } }, false)
      else if phaseInfo.RetryCount ≥ maxRetry then
        let info1 : AppDeploymentInfo :=
          { info with PhaseInfo := { phaseInfo with Status := AppPkgInstallError } }
        let s1 : State := { wk.s with infos := wk.s.infos.set w.appDeployInfo info1 }
        match deleteWorkerFromPipelinePhase s1.ppln phaseInfo.Phase installWorker with
        | none => none
        | some r => some ({ wk with s := { s1 with ppln := r.2 } }, false)
      else some (wk, false)

/-- One pass of downloadPhaseManager (the `default` arm of its select): the state after the
pass and the workers sent on the dispatch channel. -/
def downloadPhaseManagerPass (maxRetry : Int) (s : State) : Option (State × List Nat) :=
  match s.ppln.pplnPhases PhaseDownload with
  | none => none
  | some pplnPhase =>
    match walkQueue (downloadBody maxRetry) pplnPhase.q { s := s, slots := 0, sent := [] } with
    | none => none
    | some r => some (r.1.s, r.1.sent)

/-- One pass of installPhaseManager (the `default` arm of its select). -/
def installPhaseManagerPass (maxRetry : Int) (s : State) (slots : Nat) :
    Option (State × List Nat) :=
  match s.ppln.pplnPhases PhaseInstall with
  | none => none
  | some pplnPhase =>
    match walkQueue (installBody maxRetry) pplnPhase.q { s := s, slots := slots, sent := [] } with
    | none => none
    | some r => some (r.1.s, r.1.sent)

/-- One pass of the manager of a phase. -/
def phaseManagerPass (maxRetry : Int) (P : AppPhaseType) (s : State) (slots : Nat) :
    Option (State × List Nat) :=
  match P with
  | PhaseDownload => downloadPhaseManagerPass maxRetry s
  | PhasePodCopy => podCopyPhaseManagerPass maxRetry s slots
  | PhaseInstall => installPhaseManagerPass maxRetry s slots
  | AppPhaseType.unset => none

/-- The Complete status of a phase (the zero value for a value that is no phase). -/
def completeStatusOf (P : AppPhaseType) : AppPhaseStatusType :=
  match P with
  | PhaseDownload => AppPkgDownloadComplete
  | PhasePodCopy => AppPkgPodCopyComplete
  | PhaseInstall => AppPkgInstallComplete
  | AppPhaseType.unset => AppPhaseStatusType.unset

/-- The Error status of a phase (the zero value for a value that is no phase). -/
def errorStatusOf (P : AppPhaseType) : AppPhaseStatusType :=
  match P with
  | PhaseDownload => AppPkgDownloadError
  | PhasePodCopy => AppPkgPodCopyError
  | PhaseInstall => AppPkgInstallError
  | AppPhaseType.unset => AppPhaseStatusType.unset

/-- Addition of int32 values (two's complement wrap-around). -/
def int32Add (a b : Int) : Int :=
  (a + b + 2147483648) % 4294967296 - 2147483648

/-- Addition of uint64 values (wrap-around). -/
def uint64Add (a b : Nat) : Nat :=
  (a + b) % 18446744073709551616

/-- Subtraction of uint64 values (wrap-around). -/
def uint64Sub (a b : Nat) : Nat :=
  (a % 18446744073709551616 + 18446744073709551616 - b % 18446744073709551616)
    % 18446744073709551616

/-- updatePplnWorkerPhaseInfo updates the in-memory PhaseInfo -/
def updatePplnWorkerPhaseInfo (appDeployInfo : AppDeploymentInfo) (phaseType : AppPhaseType)
    (retryCount : Int) (statusType : AppPhaseStatusType) : AppDeploymentInfo :=
  { appDeployInfo with
    PhaseInfo := { Phase := phaseType, RetryCount := retryCount, Status := statusType } }

/-- Download API will do the actual work of downloading apps from remote storage.
`remoteFile` is the result of getRemoteObjectKey (`none` for an error) and `downloadOk`
tells whether DownloadApp succeeds; both are outcomes of calls made after
`*pplnWorker.client` has been read, so they stand for a run in which the worker has a
client (createAndAddPipelineWorker always stores one).  The deferred function decrements
`activeWorkers` (a uint64) and calls Done on the worker's waiter (a fault when the waiter is
nil).  The result is the new state and the new value of activeWorkers. -/
def Download (s : State) (activeWorkers : Nat) (pplnWorker : Nat) (remoteFile : Option String)
    (downloadOk : Bool) : Option (State × Nat) :=
  match s.workers[pplnWorker]? with
  | none => none
  | some w =>
    match s.infos[w.appDeployInfo]? with
    | none => none
    | some appDeployInfo =>
      let info1 : AppDeploymentInfo :=
        match remoteFile with
        | none =>
          updatePplnWorkerPhaseInfo appDeployInfo PhaseDownload
            (int32Add appDeployInfo.PhaseInfo.RetryCount 1) AppPkgDownloadPending
        | some _ =>
          if downloadOk = false then
            updatePplnWorkerPhaseInfo appDeployInfo PhaseDownload
              (int32Add appDeployInfo.PhaseInfo.RetryCount 1) AppPkgDownloadPending
          else
            updatePplnWorkerPhaseInfo appDeployInfo PhaseDownload 0 AppPkgDownloadComplete
      match w.waiter with
      | none => none
      | some _ =>
        some ({ s with infos := s.infos.set w.appDeployInfo info1 }, uint64Sub activeWorkers 1)

/-- The pieces of a path between the separators: the path split at every '/'. -/
def splitSlash : List Char → List (List Char)
  | [] => [[]]
  | c :: cs =>
    if c = '/' then [] :: splitSlash cs
    else
      match splitSlash cs with
      | [] => [[c]]
      | seg :: segs => (c :: seg) :: segs

/-- The element-wise rules of Go's `filepath.Clean`: empty and `.` elements are dropped, a
`..` element removes the element kept before it (it is dropped at the root and kept at the
start of a relative path).  `stack` holds the elements kept so far, last first. -/
def cleanElems (rooted : Bool) : List (List Char) → List (List Char) → List (List Char)
  | [], stack => stack.reverse
  | e :: es, stack =>
    if e = [] ∨ e = ['.'] then cleanElems rooted es stack
    else if e = ['.', '.'] then
      match stack with
      | [] => if rooted then cleanElems rooted es [] else cleanElems rooted es [e]
      | top :: below =>
        if top = ['.', '.'] then cleanElems rooted es (e :: stack)
        else cleanElems rooted es below
    else cleanElems rooted es (e :: stack)

/-- Go's `filepath.Clean` on Unix. -/
def filepathClean (path : List Char) : List Char :=
  let rooted : Bool := decide (path.head? = some '/')
  let out := (if rooted then ['/'] else [])
    ++ List.intercalate ['/'] (cleanElems rooted (splitSlash path) [])
  if out = [] then ['.'] else out

/-- Go's `filepath.Join` on Unix: leading empty elements are skipped, the rest is joined by
the separator and cleaned. -/
def filepathJoin : List (List Char) → List Char
  | [] => []
  | e :: es => if e = [] then filepathJoin es else filepathClean (List.intercalate ['/'] (e :: es))

/-- The directory scheduleDownloads computes for a worker:
`filepath.Join(AppDownloadVolume, "downloadedApps", namespace, kind, name, scope, appSrcName) + "/"`.
`stagingRoot` is splcommon.AppDownloadVolume and `scope` the result of getAppSrcScope. -/
def downloadDirOf (stagingRoot : String) (cr : MetaObject) (scope : String) (appSrcName : String) :
    String :=
  String.mk (filepathJoin [stagingRoot.data, "downloadedApps".data, cr.Namespace.data,
    cr.Kind.data, cr.Name.data, scope.data, appSrcName.data]) ++ "/"

/-- The state of scheduleDownloads: the program state (with the pipeline's
availableDiskSpace), the counter activeWorkers (a uint64), the workers put back on the
dispatch channel, and the download tasks started (worker and directory). -/
structure DownloadScheduler where
  s : State
  activeWorkers : Nat
  requeued : List Nat
  started : List (Nat × String)

/-- One turn of the loop of scheduleDownloads in which the dispatch channel offers
`downloadWorker`.  `alreadyDownloaded` is the result of isAppAlreadyDownloaded, `scope` that
of getAppSrcScope and `mkdirOk` tells whether createAppDownloadDir succeeds.  When
activeWorkers exceeds `maxWorkers` the worker is not received and nothing changes. -/
def scheduleDownloadsStep (stagingRoot : String) (maxWorkers : Nat) (d : DownloadScheduler)
    (downloadWorker : Nat) (alreadyDownloaded : Bool) (scope : String) (mkdirOk : Bool) :
    Option DownloadScheduler :=
  if d.activeWorkers ≤ maxWorkers then
    match d.s.workers[downloadWorker]? with
    | none => none
    | some w =>
      match d.s.infos[w.appDeployInfo]? with
      | none => none
      | some info =>
        -- isAppAlreadyDownloaded: the result is only logged
        let _logged := alreadyDownloaded
        if uint64Sub d.s.ppln.availableDiskSpace info.Size ≤ 0 then
          some { d with requeued := d.requeued ++ [downloadWorker] }
        else
          match w.waiter with
          | none => none
          | some _ =>
            let activeWorkers := uint64Add d.activeWorkers 1
            let ppln1 : AppInstallPipeline :=
              { d.s.ppln with
                availableDiskSpace := uint64Sub d.s.ppln.availableDiskSpace info.Size }
            let info1 := updatePplnWorkerPhaseInfo info PhaseDownload info.PhaseInfo.RetryCount
              AppPkgDownloadInProgress
            let localPath := downloadDirOf stagingRoot w.cr scope w.appSrcName
            if mkdirOk = false then
              let info2 : AppDeploymentInfo :=
                { info1 with PhaseInfo := { info1.PhaseInfo with Status := AppPkgDownloadError } }
              let info3 := updatePplnWorkerPhaseInfo info2 PhaseDownload
                (int32Add info2.PhaseInfo.RetryCount 1) AppPkgDownloadPending
              let s1 : State := { d.s with infos := d.s.infos.set w.appDeployInfo info3, ppln := ppln1 }
              some { d with s := s1, activeWorkers := activeWorkers }
            else
              let s1 : State := { d.s with infos := d.s.infos.set w.appDeployInfo info1, ppln := ppln1 }
              some { d with
                s := s1
                activeWorkers := activeWorkers
                started := d.started ++ [(downloadWorker, localPath)] }
  else some d

/-- initAppInstallPipeline creates the AFW scheduler pipeline: the pipeline returned and
the new value of the process-wide handle `afwPipeline`. -/
def initAppInstallPipeline (afwPipeline : Option AppInstallPipeline) :
    AppInstallPipeline × Option AppInstallPipeline :=
  match afwPipeline with
  | some ppln => (ppln, some ppln)
  | none => (newAppInstallPipeline, some newAppInstallPipeline)

/-- The return paths of afwSchedulerEntry, as far as the process-wide handle goes.
`diskSpace` is the result of getAvailableDiskSpace (`none` for an error) and `run` stands for
everything the phase managers, the seeding and the yield do to the pipeline before the
function returns.  The result is whether an error is returned and the handle left behind:
the function that resets the handle is deferred only after the early return. -/
def afwSchedulerEntry (afwPipeline : Option AppInstallPipeline) (diskSpace : Option Nat)
    (run : AppInstallPipeline → AppInstallPipeline) : Bool × Option AppInstallPipeline :=
  let r := initAppInstallPipeline afwPipeline
  match diskSpace with
  | none => (true, r.2)
  | some availableDiskSpace =>
    let _ppln := run { r.1 with availableDiskSpace := availableDiskSpace }
    (false, none)

/-- A download worker of the local-scoped app source for the package at the given info
address, dispatched by the download phase manager (so its waiter is set). -/
def exDownloadWorker (appDeployInfo : Nat) : PipelineWorker :=
  { appDeployInfo := appDeployInfo
    appSrcName := "adminApps"
    targetPodName := "splunk-stack1-cluster-master-0"
    afwConfig := some exConfig
    cr := exCR
    sts := some { Replicas := some 1 }
    isActive := true
    waiter := some PhaseDownload }

/-- A package of the given size whose download is pending, with the given retry count. -/
def exPendingApp (size : Nat) (retryCount : Int) : AppDeploymentInfo :=
  { AppName := "app.tgz"
    ObjectHash := "abcd1111"
    Size := size
    RepoState := AppRepoState.RepoStateActive
    DeployStatus := DeployStatusPending
    PhaseInfo := { Phase := PhaseDownload, Status := AppPkgDownloadPending, RetryCount := retryCount }
    AuxPhaseInfo := [] }

/-- The download dispatcher at its start, with three dispatched workers for three packages
of size 10 each and the given available disk space. -/
def exScheduler (availableDiskSpace : Nat) : DownloadScheduler :=
  { s :=
      { workers := [exDownloadWorker 0, exDownloadWorker 1, exDownloadWorker 2]
        infos := [exPendingApp 10 0, exPendingApp 10 0, exPendingApp 10 0]
        ppln := { pipelineOf [0, 1, 2] [] [] with availableDiskSpace := availableDiskSpace } }
    activeWorkers := 0
    requeued := []
    started := [] }

/-- The phase recorded in PhaseInfo of the package a worker refers to (`none` for an address
that is no worker). -/
def phaseOfWorker (s : State) (worker : Nat) : Option AppPhaseType :=
  match s.workers[worker]? with
  | none => none
  | some w =>
    match s.infos[w.appDeployInfo]? with
    | none => none
    | some info => some info.PhaseInfo.Phase

/-- Phase/queue agreement: every worker in the queue of a phase refers to a package whose
PhaseInfo.Phase is that phase. -/
def PhaseQueueAgreement (s : State) : Prop :=
  ∀ P, ∀ worker ∈ s.ppln.queue P, phaseOfWorker s worker = some P

/-- Two worker records for the same job: they differ at most in targetPodName, isActive and
waiter. -/
def SameJob (w w1 : PipelineWorker) : Prop :=
  w1.appDeployInfo = w.appDeployInfo ∧ w1.appSrcName = w.appSrcName
    ∧ w1.afwConfig = w.afwConfig ∧ w1.cr = w.cr ∧ w1.sts = w.sts

/-- A state on which the phase managers cannot fault: the pipeline has the three phases;
every worker refers to a package whose PhaseInfo.Phase is one of the three phases, has a
replica count that is set and not negative, and carries an app framework configuration; and
every queue holds worker addresses.  Package records no worker refers to are not
constrained. -/
def WellFormed (s : State) : Prop :=
  (s.ppln.pplnPhases PhaseDownload).isSome
    ∧ (s.ppln.pplnPhases PhasePodCopy).isSome
    ∧ (s.ppln.pplnPhases PhaseInstall).isSome
    ∧ (∀ w ∈ s.workers, w.appDeployInfo < s.infos.length
        ∧ (∃ R, replicaCountOf w = some R ∧ 0 ≤ R)
        ∧ w.afwConfig.isSome
        ∧ ∀ info, s.infos[w.appDeployInfo]? = some info →
            info.PhaseInfo.Phase ≠ AppPhaseType.unset)
    ∧ (∀ P, ∀ a ∈ s.ppln.queue P, a < s.workers.length)

/-- The package record with its PhaseInfo.Status overwritten. -/
def withStatus (info : AppDeploymentInfo) (status : AppPhaseStatusType) : AppDeploymentInfo :=
  { info with PhaseInfo := { info.PhaseInfo with Status := status } }

/-- The package record as the install phase manager leaves it for a worker whose Status is
InstallComplete. -/
def installedInfo (w : PipelineWorker) (info : AppDeploymentInfo) : AppDeploymentInfo :=
  { info with
    PhaseInfo :=
      if w.cr.Kind = "Standalone"
          ∧ isAppInstallationCompleteOnStandaloneReplicas info.AuxPhaseInfo = true then
        { info.PhaseInfo with Phase := PhaseInstall, Status := AppPkgInstallComplete }
      else info.PhaseInfo
    DeployStatus := DeployStatusComplete }

/-- The iterations a phase manager of phase `P` can make for the worker `b` of its queue,
as a relation between the walk before, the walk after and the `break` flag: the worker is
dispatched, the non-blocking send finds the channel full, the worker is moved to the next
phase, the install is recorded, the retries are exhausted, or nothing is done. -/
inductive ManagerStep (maxRetry : Int) (P : AppPhaseType) (b : Nat) (wk : Walk) :
    Walk → Bool → Prop
  | dispatch (w : PipelineWorker) (info : AppDeploymentInfo) (slots1 : Nat)
      (hw : wk.s.workers[b]? = some w) (hinfo : wk.s.infos[w.appDeployInfo]? = some info)
      (hretry : info.PhaseInfo.RetryCount < maxRetry) (hidle : w.isActive = false)
      (hstatus : info.PhaseInfo.Status ≠ completeStatusOf P)
      (hslots : (P = PhaseDownload ∧ slots1 = wk.slots)
        ∨ (P ≠ PhaseDownload ∧ wk.slots = slots1 + 1)) :
      ManagerStep maxRetry P b wk
        ⟨⟨wk.s.workers.set b { w with waiter := some P, isActive := true }, wk.s.infos, wk.s.ppln⟩,
          slots1, wk.sent ++ [b]⟩ false
  | blocked (w : PipelineWorker) (info : AppDeploymentInfo)
      (hw : wk.s.workers[b]? = some w) (hinfo : wk.s.infos[w.appDeployInfo]? = some info)
      (hretry : info.PhaseInfo.RetryCount < maxRetry) (hidle : w.isActive = false)
      (hstatus : info.PhaseInfo.Status ≠ completeStatusOf P)
      (hP : P ≠ PhaseDownload) (hslots : wk.slots = 0) :
      ManagerStep maxRetry P b wk
        ⟨⟨wk.s.workers.set b { w with waiter := none }, wk.s.infos, wk.s.ppln⟩,
          wk.slots, wk.sent⟩ true
  | transition (w : PipelineWorker) (info : AppDeploymentInfo) (next : AppPhaseType) (s1 : State)
      (hw : wk.s.workers[b]? = some w) (hinfo : wk.s.infos[w.appDeployInfo]? = some info)
      (hstatus : info.PhaseInfo.Status = completeStatusOf P)
      (hnext : (P = PhaseDownload ∧ next = PhasePodCopy)
        ∨ (P = PhasePodCopy ∧ next = PhaseInstall))
      (htr : TransitionWorkerPhase wk.s b P next = some s1) :
      ManagerStep maxRetry P b wk ⟨s1, wk.slots, wk.sent⟩ false
  | installed (w : PipelineWorker) (info : AppDeploymentInfo) (r : Bool × AppInstallPipeline)
      (hw : wk.s.workers[b]? = some w) (hinfo : wk.s.infos[w.appDeployInfo]? = some info)
      (hP : P = PhaseInstall)
      (hstatus : info.PhaseInfo.Status = AppPkgInstallComplete)
      (hdel : deleteWorkerFromPipelinePhase wk.s.ppln info.PhaseInfo.Phase b = some r) :
      ManagerStep maxRetry P b wk
        ⟨⟨wk.s.workers, wk.s.infos.set w.appDeployInfo (installedInfo w info), r.2⟩,
          wk.slots, wk.sent⟩ false
  | exhausted (w : PipelineWorker) (info : AppDeploymentInfo) (r : Bool × AppInstallPipeline)
      (hw : wk.s.workers[b]? = some w) (hinfo : wk.s.infos[w.appDeployInfo]? = some info)
      (hstatus : info.PhaseInfo.Status ≠ completeStatusOf P)
      (hretry : maxRetry ≤ info.PhaseInfo.RetryCount)
      (hdel : deleteWorkerFromPipelinePhase wk.s.ppln info.PhaseInfo.Phase b = some r) :
      ManagerStep maxRetry P b wk
        ⟨⟨wk.s.workers, wk.s.infos.set w.appDeployInfo (withStatus info (errorStatusOf P)), r.2⟩,
          wk.slots, wk.sent⟩ false
  | skip (w : PipelineWorker) (info : AppDeploymentInfo)
      (hw : wk.s.workers[b]? = some w) (hinfo : wk.s.infos[w.appDeployInfo]? = some info)
      (hskip : (info.PhaseInfo.Status = completeStatusOf P ∧ P = PhasePodCopy)
        ∨ (info.PhaseInfo.RetryCount < maxRetry
          ∧ info.PhaseInfo.Status ≠ completeStatusOf P)) :
      ManagerStep maxRetry P b wk wk false

/-- A walk of the manager of phase `P` over a queue, as a chain of ManagerStep: it ends
with the queue, or at the first iteration that leaves the loop by `break`. -/
inductive ManagerWalk (maxRetry : Int) (P : AppPhaseType) : List Nat → Walk → Walk → Bool → Prop
  | done (wk : Walk) : ManagerWalk maxRetry P [] wk wk false
  | stop (b : Nat) (rest : List Nat) (wk wk1 : Walk)
      (hstep : ManagerStep maxRetry P b wk wk1 true) :
      ManagerWalk maxRetry P (b :: rest) wk wk1 true
  | next (b : Nat) (rest : List Nat) (wk wk1 wk2 : Walk) (brk : Bool)
      (hstep : ManagerStep maxRetry P b wk wk1 false)
      (hrest : ManagerWalk maxRetry P rest wk1 wk2 brk) :
      ManagerWalk maxRetry P (b :: rest) wk wk2 brk

/-- A state whose only worker (address 0) sits in the Download queue with its retries used
up, for a package whose PhaseInfo.Phase is none of Download, PodCopy and Install. -/
def exUnknownPhaseState : State :=
  { workers := [{ exWorker "ClusterMaster" (some 1) with isActive := false, waiter := none }]
    infos := [{ exDownloadedApp [] with
      PhaseInfo := { Phase := AppPhaseType.unset, Status := AppPkgDownloadPending, RetryCount := 3 } }]
    ppln := pipelineOf [0] [] [] }

/-- A state whose PodCopy queue holds two idle ClusterMaster workers: worker 0, for the
package at address 0 whose pod copy is pending, and worker 1, for the package at address 1
whose pod copy is pending with three retries used. -/
def exExhaustedState : State :=
  { workers :=
      [{ exWorker "ClusterMaster" (some 1) with isActive := false, waiter := none },
       { exWorker "ClusterMaster" (some 1) with
          appDeployInfo := 1, isActive := false, waiter := none }]
    infos :=
      [{ exDownloadedApp [] with
          PhaseInfo := { Phase := PhasePodCopy, Status := AppPkgPodCopyPending, RetryCount := 0 } },
       { exDownloadedApp [] with
          PhaseInfo := { Phase := PhasePodCopy, Status := AppPkgPodCopyPending, RetryCount := 3 } }]
    ppln := pipelineOf [] [0, 1] [] }

/-- What a walk of the install phase manager can have made of a package record `info0`:
AuxPhaseInfo is as it was; Status is as it was or InstallError; DeployStatus is as it was,
or complete for a package whose Status was InstallComplete; PhaseInfo.Phase is as it was, or
Install for a package whose Status was InstallComplete and whose AuxPhaseInfo entries are all
Install/InstallComplete. -/
def InstallReport (info0 info : AppDeploymentInfo) : Prop :=
  info.AuxPhaseInfo = info0.AuxPhaseInfo
    ∧ (info.PhaseInfo.Status = info0.PhaseInfo.Status
      ∨ info.PhaseInfo.Status = AppPkgInstallError)
    ∧ (info.DeployStatus = info0.DeployStatus
      ∨ (info.DeployStatus = DeployStatusComplete
        ∧ info0.PhaseInfo.Status = AppPkgInstallComplete))
    ∧ (info.PhaseInfo.Phase = info0.PhaseInfo.Phase
      ∨ (info.PhaseInfo.Phase = PhaseInstall
        ∧ isAppInstallationCompleteOnStandaloneReplicas info0.AuxPhaseInfo = true
        ∧ info0.PhaseInfo.Status = AppPkgInstallComplete))

/-- A Standalone CR with two replicas: the fan-out copy for replica 0 (address 0) sits in the
Install queue; PhaseInfo of the package is Install/InstallComplete, the install is complete
on replica 0 and the pod copy is pending on replica 1. -/
def exPartlyInstalledState : State :=
  { workers :=
      [{ exWorker "Standalone" (some 2) with
          targetPodName := "splunk-stack1-standalone-0", isActive := false, waiter := none }]
    infos :=
      [{ exDownloadedApp
            [{ Phase := PhaseInstall, Status := AppPkgInstallComplete, RetryCount := 0 },
             { Phase := PhasePodCopy, Status := AppPkgPodCopyPending, RetryCount := 0 }] with
          PhaseInfo := { Phase := PhaseInstall, Status := AppPkgInstallComplete, RetryCount := 0 } }]
    ppln := pipelineOf [] [] [0] }

/-- A path component: not empty, without a separator, and neither `.` nor `..`. -/
@[reducible]
def PathComponent (e : List Char) : Prop :=
  e ≠ [] ∧ '/' ∉ e ∧ e ≠ ['.'] ∧ e ≠ ['.', '.']

/-- An absolute path in clean form: a separator followed by one or more path components
joined by the separator (no trailing separator). -/
def CleanAbsolutePath (p : List Char) : Prop :=
  ∃ elems : List (List Char), elems ≠ [] ∧ (∀ e ∈ elems, PathComponent e)
    ∧ p = '/' :: List.intercalate ['/'] elems

/-- isPipelineEmpty checks if the pipeline is empty or not.  The argument is the map
`ppln.pplnPhases`, `none` for a nil map; the loop over the map visits the phases the map
holds (its result does not depend on the order of the visit). -/
def isPipelineEmpty (pplnPhases : Option (AppPhaseType → Option PipelinePhase)) : Bool :=
  match pplnPhases with
  | none => false
  | some phases =>
    [PhaseDownload, PhasePodCopy, PhaseInstall, AppPhaseType.unset].all (fun phaseID =>
      match phases phaseID with
      | none => true
      | some phase => if phase.q.length > 0 then false else true)

/-- The AuxPhaseInfo of the test of isAppInstallationCompleteOnStandaloneReplicas: five
zero-valued entries, the fourth with Phase set to Download. -/
def exTestAux : List PhaseInfo :=
  [{ Phase := AppPhaseType.unset, Status := AppPhaseStatusType.unset, RetryCount := 0 },
   { Phase := AppPhaseType.unset, Status := AppPhaseStatusType.unset, RetryCount := 0 },
   { Phase := AppPhaseType.unset, Status := AppPhaseStatusType.unset, RetryCount := 0 },
   { Phase := PhaseDownload, Status := AppPhaseStatusType.unset, RetryCount := 0 },
   { Phase := AppPhaseType.unset, Status := AppPhaseStatusType.unset, RetryCount := 0 }]

/-- What the seeding step guarantees of a worker it creates for the CR `cr`: the worker
targets replica 0 of the CR, carries the CR and the statefulset found for it, and refers to a
package record allocated at or above the address `k`. -/
def SeededWorker (client : ControllerClient) (cr : MetaObject) (k : Nat) (w : PipelineWorker) :
    Prop :=
  w.targetPodName = getApplicablePodNameForWorker cr 0
    ∧ w.cr = cr
    ∧ w.sts = afwGetReleventStatefulsetByKind cr client
    ∧ k ≤ w.appDeployInfo
    ∧ w.isActive = false

/-- An IndexerCluster CR. -/
def exIndexerCR : MetaObject :=
  { Kind := "IndexerCluster", Name := "stack1", Namespace := "test" }

/-- The number a list of decimal digit characters stands for (most significant digit
first). -/
def decimalValue (digits : List Char) : Nat :=
  digits.foldl (fun v c => 10 * v + (c.toNat - 48)) 0

/-- The writes of an operation made through the worker at address `worker`: worker records
are only added, every other record is as it was, every record of the new state has the job
of a record of the old state, and no package record other than the one the worker refers to
is changed. -/
def WritesThrough (worker : Nat) (s s1 : State) : Prop :=
  ∃ w, s.workers[worker]? = some w
    ∧ s.workers.length ≤ s1.workers.length
    ∧ (∀ (a : Nat), a ≠ worker → a < s.workers.length → s1.workers[a]? = s.workers[a]?)
    ∧ (∀ w1 ∈ s1.workers, ∃ w2 ∈ s.workers, SameJob w2 w1)
    ∧ (∀ (i : Nat), i ≠ w.appDeployInfo → s1.infos[i]? = s.infos[i]?)
    ∧ s1.infos.length = s.infos.length

/-- The body of the loop of the manager of a phase. -/
def managerBody (maxRetry : Int) (P : AppPhaseType) : Nat → Walk → Option (Walk × Bool) :=
  match P with
  | PhaseDownload => downloadBody maxRetry
  | PhasePodCopy => podCopyBody maxRetry
  | PhaseInstall => installBody maxRetry
  | AppPhaseType.unset => fun _ _ => none

/-- Every worker sent on the dispatch channel so far by the manager of phase `P` has its
isActive flag set, and its package is still pending in that phase (retries left, Status not
the Complete status of the phase). -/
def SentActive (maxRetry : Int) (P : AppPhaseType) (wk : Walk) : Prop :=
  ∀ a ∈ wk.sent, ∃ w info, wk.s.workers[a]? = some w ∧ w.isActive = true
    ∧ wk.s.infos[w.appDeployInfo]? = some info
    ∧ info.PhaseInfo.RetryCount < maxRetry
    ∧ info.PhaseInfo.Status ≠ completeStatusOf P

/-- Every worker refers to a package record at or above the address `k`. -/
def WorkersAbove (k : Nat) (s : State) : Prop :=
  ∀ w ∈ s.workers, k ≤ w.appDeployInfo

/-- A run of the scheduler after the seeding step, as a sequence of the operations that
write through a worker: a pass of a phase manager, a call of TransitionWorkerPhase, a turn of
the download dispatcher and a download task. -/
inductive SchedulerRun (maxRetry : Int) : State → State → Prop
  | start (s : State) : SchedulerRun maxRetry s s
  | pass (s s1 : State) (P : AppPhaseType) (slots : Nat) (r : State × List Nat)
      (hrun : SchedulerRun maxRetry s s1)
      (hpass : phaseManagerPass maxRetry P s1 slots = some r) :
      SchedulerRun maxRetry s r.1
  | transition (s s1 s2 : State) (worker : Nat) (cur next : AppPhaseType)
      (hrun : SchedulerRun maxRetry s s1)
      (htr : TransitionWorkerPhase s1 worker cur next = some s2) :
      SchedulerRun maxRetry s s2
  | schedule (s : State) (d d1 : DownloadScheduler) (stagingRoot : String) (maxWorkers : Nat)
      (downloadWorker : Nat) (alreadyDownloaded : Bool) (scope : String) (mkdirOk : Bool)
      (hrun : SchedulerRun maxRetry s d.s)
      (hstep : scheduleDownloadsStep stagingRoot maxWorkers d downloadWorker alreadyDownloaded
        scope mkdirOk = some d1) :
      SchedulerRun maxRetry s d1.s
  | download (s s1 : State) (activeWorkers : Nat) (pplnWorker : Nat)
      (remoteFile : Option String) (downloadOk : Bool) (r : State × Nat)
      (hrun : SchedulerRun maxRetry s s1)
      (hdownload : Download s1 activeWorkers pplnWorker remoteFile downloadOk = some r) :
      SchedulerRun maxRetry s r.1

/-- The state at the start of the seeding step when the AppDeploymentContext holds one entry
whose download is pending: the entry is the package record at address 0, the pipeline is
fresh and there is no worker. -/
def exContextState : State :=
  { workers := [], infos := [exDownloadPendingApp], ppln := newAppInstallPipeline }

/-- What an operation made through a worker does to the pipeline and to the phases recorded
in the package records, whatever the state: the phases of the pipeline stay, the occurrences
of the other workers in every queue are untouched, a queue gains only worker addresses, and
no package record is set to a value that is no phase. -/
def QueuesThrough (worker : Nat) (s s1 : State) : Prop :=
  (∀ Q, (s1.ppln.pplnPhases Q).isSome = (s.ppln.pplnPhases Q).isSome)
    ∧ (∀ (Q : AppPhaseType) (c : Nat), c ≠ worker → c < s.workers.length →
        (s1.ppln.queue Q).count c = (s.ppln.queue Q).count c)
    ∧ (∀ Q, ∀ a ∈ s1.ppln.queue Q, a ∈ s.ppln.queue Q ∨ a < s1.workers.length)
    ∧ (∀ (i : Nat) (info1 : AppDeploymentInfo), s1.infos[i]? = some info1 →
        ∃ info, s.infos[i]? = some info
          ∧ (info.PhaseInfo.Phase ≠ AppPhaseType.unset →
              info1.PhaseInfo.Phase ≠ AppPhaseType.unset))

/-- What one iteration of a phase manager for the worker `b` leaves alone, whatever the
state: its writes go through the worker, the pipeline changes as QueuesThrough says, and no
other worker is sent on the dispatch channel. -/
def StepFrame (b : Nat) (wk wk1 : Walk) : Prop :=
  WritesThrough b wk.s wk1.s
    ∧ QueuesThrough b wk.s wk1.s
    ∧ (∀ (c : Nat), c ≠ b → (c ∈ wk1.sent ↔ c ∈ wk.sent))

/-- A state whose only worker (address 0) carries no app framework configuration (a nil
afwConfig) and sits in the PodCopy queue with Status PodCopyComplete. -/
def exNoConfigState : State :=
  { workers := [{ exWorker "ClusterMaster" (some 1) with
      afwConfig := none, isActive := false, waiter := none }]
    infos := [exPodCopiedApp]
    ppln := pipelineOf [] [0] [] }

/-- A persisted entry that needs no work: its PhaseInfo holds zero values (no phase). -/
def exIdleApp : AppDeploymentInfo :=
  { exDownloadedApp [] with
    AppName := "idle.tgz"
    PhaseInfo := { Phase := AppPhaseType.unset, Status := AppPhaseStatusType.unset, RetryCount := 0 } }

/-- The persisted entries of a context with one app source, "adminApps", holding an entry
that needs no work and an entry whose download is pending. -/
def exIdleContext : List (String × AppSrcDeployInfo) :=
  [("adminApps", { AppDeploymentInfoList := [exIdleApp, exDownloadPendingApp] })]

/-- The state the seeding step makes of exIdleContext on a fresh pipeline: both entries are
copied to package records, and one worker is created, for the entry whose download is
pending, and put into the Download queue. -/
def exSeededState : State :=
  { workers := [createPipelineWorker 1 "adminApps" (getApplicablePodNameForWorker exCR 0)
      (some exConfig) exCR (afwGetReleventStatefulsetByKind exCR exClient)]
    infos := [exIdleApp, exDownloadPendingApp]
    ppln :=
      { newAppInstallPipeline with
        pplnPhases :=
          Function.update newAppInstallPipeline.pplnPhases PhaseDownload (some { q := [0] }) } }

/-- A state whose PodCopy queue holds two ClusterMaster workers whose pod copy is pending:
worker 0, for the package at address 0, has been dispatched (isActive is set), and worker 1,
for the package at address 1, is idle and still holds the waiter of an earlier dispatch. -/
def exBusyState : State :=
  { workers :=
      [{ exWorker "ClusterMaster" (some 1) with waiter := some PhasePodCopy },
       { exWorker "ClusterMaster" (some 1) with
          appDeployInfo := 1, isActive := false, waiter := some PhasePodCopy }]
    infos :=
      [{ exDownloadedApp [] with
          PhaseInfo := { Phase := PhasePodCopy, Status := AppPkgPodCopyPending, RetryCount := 0 } },
       { exDownloadedApp [] with
          PhaseInfo := { Phase := PhasePodCopy, Status := AppPkgPodCopyPending, RetryCount := 0 } }]
    ppln := pipelineOf [] [0, 1] [] }

/-- The state exBusyState after worker 1 has been sent on the dispatch channel. -/
def exBusySentState : State :=
  { exBusyState with
    workers :=
      [{ exWorker "ClusterMaster" (some 1) with waiter := some PhasePodCopy },
       { exWorker "ClusterMaster" (some 1) with
          appDeployInfo := 1, isActive := true, waiter := some PhasePodCopy }] }

/-- The state exBusyState after the non-blocking send of worker 1 has found the channel
full. -/
def exBusyBlockedState : State :=
  { exBusyState with
    workers :=
      [{ exWorker "ClusterMaster" (some 1) with waiter := some PhasePodCopy },
       { exWorker "ClusterMaster" (some 1) with
          appDeployInfo := 1, isActive := false, waiter := none }] }

/-- The worker `a`, a worker for the package at address `i`, is an exhausted worker of the
manager of phase `P` at a point of its walk: the retries of the package are used up, the
Status of the package is not the Complete status of the phase, PhaseInfo.Phase is `ph`, and
the worker has not been sent on the dispatch channel; once the worker has been visited
(`visited`), the Status is the Error status of the phase. -/
def ExhaustedAt (maxRetry : Int) (P ph : AppPhaseType) (a i : Nat) (visited : Bool)
    (wk : Walk) : Prop :=
  ∃ w info, wk.s.workers[a]? = some w ∧ w.appDeployInfo = i ∧ wk.s.infos[i]? = some info
    ∧ maxRetry ≤ info.PhaseInfo.RetryCount
    ∧ info.PhaseInfo.Status ≠ completeStatusOf P
    ∧ info.PhaseInfo.Phase = ph
    ∧ a ∉ wk.sent
    ∧ (visited = true → info.PhaseInfo.Status = errorStatusOf P)

/-- A Standalone CR with two replicas after the fan-out: the copy for replica 0 (address 0)
sits in the PodCopy queue, idle; PhaseInfo of the package still names the Download phase
(the fan-out leaves it alone), with three retries used. -/
def exStrayPhaseState : State :=
  { workers :=
      [{ exWorker "Standalone" (some 2) with
          targetPodName := "splunk-stack1-standalone-0", isActive := false, waiter := none }]
    infos :=
      [{ exDownloadedApp
            [{ Phase := PhasePodCopy, Status := AppPkgPodCopyPending, RetryCount := 0 },
             { Phase := PhasePodCopy, Status := AppPkgPodCopyPending, RetryCount := 0 }] with
          PhaseInfo := { Phase := PhaseDownload, Status := AppPkgDownloadComplete, RetryCount := 3 } }]
    ppln := pipelineOf [] [0] [] }

/-- The state exExhaustedState after worker 0 has been sent on the dispatch channel. -/
def exExhaustedSentState : State :=
  { exExhaustedState with
    workers :=
      [{ exWorker "ClusterMaster" (some 1) with isActive := true, waiter := some PhasePodCopy },
       { exWorker "ClusterMaster" (some 1) with
          appDeployInfo := 1, isActive := false, waiter := none }] }

end enterprise

/-! ## Queues: adding and deleting workers -/

namespace enterprise

open enterpriseApi

theorem findWorker_eq_none_iff (w : Nat) (q : List Nat) (k : Nat) :
    findWorker w q k = none ↔ w ∉ q := by
  induction q generalizing k with
  | nil => simp [findWorker]
  | cons x xs ih =>
    by_cases h : w = x
    · simp [findWorker, h]
    · simp [findWorker, h, ih]

theorem findWorker_eq_some (w : Nat) (q : List Nat) (k i : Nat) (h : findWorker w q k = some i) :
    ∃ j, i = k + j ∧ q[j]? = some w ∧ ∀ j', j' < j → q[j']? ≠ some w := by
  induction q generalizing k with
  | nil => simp [findWorker] at h
  | cons x xs ih =>
    by_cases hx : w = x
    · simp [findWorker, hx] at h
      exact ⟨0, by omega, by simp [hx], by intro j' hj; omega⟩
    · simp [findWorker, hx] at h
      obtain ⟨j, hj, hget, hfirst⟩ := ih (k + 1) h
      refine ⟨j + 1, by omega, by simpa using hget, ?_⟩
      intro j' hj'
      cases j' with
      | zero => simpa using fun h' => hx h'.symm
      | succ n => simpa using hfirst n (by omega)

theorem removeSlot_head (x : Nat) (B : List Nat) : removeSlot (x :: B) 0 = B := by
  simp [removeSlot]

theorem removeSlot_last (A : List Nat) (x : Nat) (hA : A ≠ []) :
    removeSlot (A ++ [x]) A.length = A := by
  have hlen : A.length ≠ 0 := by simpa using hA
  simp [removeSlot, hlen]

theorem removeSlot_middle (A B : List Nat) (x z : Nat) (hA : A ≠ []) :
    removeSlot (A ++ x :: (B ++ [z])) A.length = A ++ z :: B := by
  have hlen : A.length ≠ 0 := by simpa using hA
  have h1 : ¬ (A.length = A.length + (B.length + 1 + 1) - 1) := by omega
  have h2 : A.length + (B.length + 1 + 1) - 1 = A.length + (B.length + 1) := by omega
  simp [removeSlot, hlen, h1, h2, List.getD_eq_getElem?_getD, List.getElem?_append_right,
    List.take_append_eq_append_take]
  rw [List.take_of_length_le (by omega)]
  have hz : (A ++ x :: (B ++ [z]))[A.length + (B.length + 1)]? = some z := by
    rw [List.getElem?_append_right (by omega)]
    have : A.length + (B.length + 1) - A.length = B.length + 1 := by omega
    rw [this]
    simp
  have hz2 := List.getElem?_eq_some_iff.mp hz
  obtain ⟨_, hz3⟩ := hz2
  rw [hz3]

theorem removeSlot_perm (q : List Nat) (j : Nat) (w : Nat) (h : q[j]? = some w) :
    (w :: removeSlot q j).Perm q := by
  obtain ⟨hj, hw⟩ := List.getElem?_eq_some_iff.mp h
  have hq : q = q.take j ++ w :: q.drop (j + 1) := by
    conv_lhs => rw [← List.take_append_drop j q, List.drop_eq_getElem_cons hj, hw]
  have hlen : (q.take j).length = j := by simp; omega
  generalize q.take j = A at hq hlen
  generalize q.drop (j + 1) = B at hq
  subst hlen
  subst hq
  by_cases hA : A = []
  · subst hA
    simp [removeSlot_head]
  · rcases List.eq_nil_or_concat B with hB | ⟨B1, z, hB⟩
    · subst hB
      rw [removeSlot_last A w hA]
      exact (List.perm_append_singleton w A).symm
    · subst hB
      rw [List.concat_eq_append] 
      rw [removeSlot_middle A B1 w z hA]
      have e1 : A ++ w :: (B1 ++ [z]) = (A ++ w :: B1) ++ [z] := by simp
      rw [e1]
      refine List.Perm.trans ?_ (List.perm_append_singleton z (A ++ w :: B1)).symm
      have e2 : w :: (A ++ z :: B1) = [w] ++ (A ++ z :: B1) := rfl
      rw [e2]
      refine List.Perm.trans ?_ (List.Perm.cons z (List.perm_middle.symm))
      refine List.Perm.trans (List.Perm.cons w List.perm_middle) ?_
      exact List.Perm.swap z w _



theorem queue_of_some (ppln : AppInstallPipeline) (p : AppPhaseType) (phase : PipelinePhase)
    (h : ppln.pplnPhases p = some phase) : ppln.queue p = phase.q := by
  simp [AppInstallPipeline.queue, h]

theorem addWorkers_some (ppln : AppInstallPipeline) (p : AppPhaseType) (ws : List Nat)
    (hp : (ppln.pplnPhases p).isSome) :
    ∃ ppln1, addWorkersToPipelinePhase ppln p ws = some ppln1
      ∧ ppln1.queue p = ppln.queue p ++ ws
      ∧ (∀ p1, p1 ≠ p → ppln1.pplnPhases p1 = ppln.pplnPhases p1)
      ∧ (∀ p1, (ppln1.pplnPhases p1).isSome = (ppln.pplnPhases p1).isSome)
      ∧ ppln1.availableDiskSpace = ppln.availableDiskSpace := by
  obtain ⟨phase, hphase⟩ := Option.isSome_iff_exists.mp hp
  refine ⟨{ ppln with pplnPhases := Function.update ppln.pplnPhases p (some ⟨phase.q ++ ws⟩) },
    by simp [addWorkersToPipelinePhase, hphase], ?_, ?_, ?_, rfl⟩
  · simp [AppInstallPipeline.queue, hphase]
  · intro p1 hne
    simp [Function.update, hne]
  · intro p1
    by_cases h : p1 = p
    · subst h; simp [hphase]
    · simp [Function.update, h]

theorem deleteWorker_some (ppln : AppInstallPipeline) (p : AppPhaseType) (w : Nat)
    (hp : (ppln.pplnPhases p).isSome) :
    ∃ b ppln1, deleteWorkerFromPipelinePhase ppln p w = some (b, ppln1)
      ∧ (b = true ↔ w ∈ ppln.queue p)
      ∧ (ppln1.queue p).Perm ((ppln.queue p).erase w)
      ∧ (∀ p1, p1 ≠ p → ppln1.pplnPhases p1 = ppln.pplnPhases p1)
      ∧ (∀ p1, (ppln1.pplnPhases p1).isSome = (ppln.pplnPhases p1).isSome)
      ∧ (b = false → ppln1 = ppln)
      ∧ ppln1.availableDiskSpace = ppln.availableDiskSpace := by
  obtain ⟨phase, hphase⟩ := Option.isSome_iff_exists.mp hp
  cases hf : findWorker w phase.q 0 with
  | none =>
    have hnot : w ∉ phase.q := (findWorker_eq_none_iff w phase.q 0).mp hf
    refine ⟨false, ppln, by simp [deleteWorkerFromPipelinePhase, hphase, hf], ?_, ?_, ?_, ?_, ?_, rfl⟩
    · simp [queue_of_some ppln p phase hphase, hnot]
    · rw [queue_of_some ppln p phase hphase, List.erase_of_not_mem hnot]
    · intro p1 _; rfl
    · intro p1; rfl
    · intro _; rfl
  | some i =>
    obtain ⟨j, hij, hget, _⟩ := findWorker_eq_some w phase.q 0 i hf
    have hi : i = j := by omega
    subst hi
    have hmem : w ∈ phase.q := by
      obtain ⟨hlt, heq⟩ := List.getElem?_eq_some_iff.mp hget
      exact heq ▸ List.getElem_mem hlt
    refine ⟨true, { ppln with pplnPhases := Function.update ppln.pplnPhases p (some ⟨removeSlot phase.q i⟩) },
      by simp [deleteWorkerFromPipelinePhase, hphase, hf], ?_, ?_, ?_, ?_, ?_, rfl⟩
    · simp [queue_of_some ppln p phase hphase, hmem]
    · rw [queue_of_some ppln p phase hphase]
      have h1 : (w :: removeSlot phase.q i).Perm phase.q := removeSlot_perm phase.q i w hget
      have h2 : phase.q.Perm (w :: phase.q.erase w) := List.perm_cons_erase hmem
      have h3 := (h1.trans h2).cons_inv
      simpa [AppInstallPipeline.queue] using h3
    · intro p1 hne
      simp [Function.update, hne]
    · intro p1
      by_cases h : p1 = p
      · subst h; simp [hphase]
      · simp [Function.update, h]
    · intro h; cases h


/-- C5: for every CR name and pod index, getApplicablePodNameForWorker returns
"splunk-" + name + "-" + podType + "-" + decimal index, with podType "standalone" for
Standalone, "license-master" for LicenseMaster, "deployer" for SearchHeadCluster,
"cluster-master" for ClusterMaster and "monitoring-console" for MonitoringConsole. -/
theorem getApplicablePodNameForWorker_table (n ns : String) (k : Int) :
    getApplicablePodNameForWorker ⟨"Standalone", n, ns⟩ k
        = "splunk-" ++ n ++ "-" ++ "standalone" ++ "-" ++ toString k
      ∧ getApplicablePodNameForWorker ⟨"LicenseMaster", n, ns⟩ k
        = "splunk-" ++ n ++ "-" ++ "license-master" ++ "-" ++ toString k
      ∧ getApplicablePodNameForWorker ⟨"SearchHeadCluster", n, ns⟩ k
        = "splunk-" ++ n ++ "-" ++ "deployer" ++ "-" ++ toString k
      ∧ getApplicablePodNameForWorker ⟨"ClusterMaster", n, ns⟩ k
        = "splunk-" ++ n ++ "-" ++ "cluster-master" ++ "-" ++ toString k
      ∧ getApplicablePodNameForWorker ⟨"MonitoringConsole", n, ns⟩ k
        = "splunk-" ++ n ++ "-" ++ "monitoring-console" ++ "-" ++ toString k := by
  refine ⟨?_, ?_, ?_, ?_, ?_⟩ <;> rfl

/-- C6: deleting a worker that is in a duplicate-free phase queue leaves a queue with
one element fewer that does not hold the worker, holds every other worker of the
original queue exactly once and no worker that was not in it; the queues of the other
phases are unchanged. -/
theorem deleteWorker_queue_hygiene (ppln : AppInstallPipeline) (p : AppPhaseType) (w : Nat)
    (hp : (ppln.pplnPhases p).isSome) (hnd : (ppln.queue p).Nodup) (hw : w ∈ ppln.queue p) :
    ∃ ppln1, deleteWorkerFromPipelinePhase ppln p w = some (true, ppln1)
      ∧ (ppln1.queue p).length + 1 = (ppln.queue p).length
      ∧ w ∉ ppln1.queue p
      ∧ (∀ x, x ∈ ppln.queue p → x ≠ w → (ppln1.queue p).count x = 1)
      ∧ (∀ x, x ∈ ppln1.queue p → x ∈ ppln.queue p)
      ∧ (∀ p1, p1 ≠ p → ppln1.queue p1 = ppln.queue p1) := by
  obtain ⟨b, ppln1, hdel, hb, hperm, hother, _, _, _⟩ := deleteWorker_some ppln p w hp
  have hbt : b = true := hb.mpr hw
  subst hbt
  refine ⟨ppln1, hdel, ?_, ?_, ?_, ?_, ?_⟩
  · rw [hperm.length_eq, List.length_erase_of_mem hw]
    have : 0 < (ppln.queue p).length := List.length_pos_of_mem hw
    omega
  · intro hmem
    have := hperm.mem_iff.mp hmem
    exact (hnd.mem_erase_iff.mp this).1 rfl
  · intro x hx hne
    rw [hperm.count_eq, List.count_erase_of_ne hne]
    exact List.count_eq_one_of_mem hnd hx
  · intro x hx
    exact List.mem_of_mem_erase (hperm.mem_iff.mp hx)
  · intro p1 hne
    simp [AppInstallPipeline.queue, hother p1 hne]

theorem deleteWorker_queue_hygiene_witness :
    ((pipelineOf [10, 11, 12, 13, 14] [20] []).pplnPhases PhaseDownload).isSome
      ∧ ((pipelineOf [10, 11, 12, 13, 14] [20] []).queue PhaseDownload).Nodup
      ∧ 12 ∈ (pipelineOf [10, 11, 12, 13, 14] [20] []).queue PhaseDownload
      ∧ ∃ ppln1, deleteWorkerFromPipelinePhase (pipelineOf [10, 11, 12, 13, 14] [20] [])
            PhaseDownload 12 = some (true, ppln1)
          ∧ (ppln1.queue PhaseDownload).length + 1
              = ((pipelineOf [10, 11, 12, 13, 14] [20] []).queue PhaseDownload).length
          ∧ 12 ∉ ppln1.queue PhaseDownload
          ∧ (∀ x, x ∈ (pipelineOf [10, 11, 12, 13, 14] [20] []).queue PhaseDownload → x ≠ 12 →
              (ppln1.queue PhaseDownload).count x = 1)
          ∧ (∀ x, x ∈ ppln1.queue PhaseDownload →
              x ∈ (pipelineOf [10, 11, 12, 13, 14] [20] []).queue PhaseDownload)
          ∧ (∀ p1, p1 ≠ PhaseDownload →
              ppln1.queue p1 = (pipelineOf [10, 11, 12, 13, 14] [20] []).queue p1) :=
  ⟨by decide, by decide, by decide,
    deleteWorker_queue_hygiene (pipelineOf [10, 11, 12, 13, 14] [20] []) PhaseDownload 12
      (by decide) (by decide) (by decide)⟩

/-- C7: deleteWorkerFromPipelinePhase returns true if and only if the worker (an address)
is in the queue of the phase; when it returns false the pipeline is exactly as it was. -/
theorem deleteWorker_true_iff_mem (ppln : AppInstallPipeline) (p : AppPhaseType) (w : Nat)
    (hp : (ppln.pplnPhases p).isSome) :
    ∃ b ppln1, deleteWorkerFromPipelinePhase ppln p w = some (b, ppln1)
      ∧ (b = true ↔ w ∈ ppln.queue p)
      ∧ (b = false → ppln1 = ppln) := by
  obtain ⟨b, ppln1, hdel, hb, _, _, _, hsame, _⟩ := deleteWorker_some ppln p w hp
  exact ⟨b, ppln1, hdel, hb, hsame⟩

theorem deleteWorker_true_iff_mem_witness :
    ((pipelineOf [10, 11, 12, 13] [] []).pplnPhases PhaseDownload).isSome
      ∧ ∃ b ppln1, deleteWorkerFromPipelinePhase (pipelineOf [10, 11, 12, 13] [] [])
            PhaseDownload 99 = some (b, ppln1)
          ∧ (b = true ↔ 99 ∈ (pipelineOf [10, 11, 12, 13] [] []).queue PhaseDownload)
          ∧ (b = false → ppln1 = pipelineOf [10, 11, 12, 13] [] []) :=
  ⟨by decide, deleteWorker_true_iff_mem (pipelineOf [10, 11, 12, 13] [] []) PhaseDownload 99
    (by decide)⟩


theorem transition_simple_unfold (s : State) (worker : Nat) (cur next : AppPhaseType)
    (w : PipelineWorker) (info : AppDeploymentInfo) (R : Int)
    (hw : s.workers[worker]? = some w) (hinfo : s.infos[w.appDeployInfo]? = some info)
    (hrc : replicaCountOf w = some R) (hbranch : R = 1 ∨ cur ≠ PhaseDownload)
    (hcur : (s.ppln.pplnPhases cur).isSome) (hnext : (s.ppln.pplnPhases next).isSome) :
    ∃ s1 ppln1 b, TransitionWorkerPhase s worker cur next = some s1
      ∧ addWorkersToPipelinePhase s.ppln next [worker] = some ppln1
      ∧ deleteWorkerFromPipelinePhase ppln1 cur worker = some (b, s1.ppln)
      ∧ s1.workers = s.workers.set worker { w with isActive := false, waiter := none }
      ∧ s1.infos = s.infos.set w.appDeployInfo
          { info with PhaseInfo := { Phase := next, Status := pendingStatusOf next, RetryCount := 0 } } := by
  obtain ⟨ppln1, hadd, _, _, hsome, _⟩ := addWorkers_some s.ppln next [worker] hnext
  obtain ⟨b, ppln2, hdel, _⟩ := deleteWorker_some ppln1 cur worker (by rw [hsome]; exact hcur)
  let w1 : PipelineWorker := { w with isActive := false, waiter := none }
  let info1 : AppDeploymentInfo :=
    { info with PhaseInfo := { Phase := next, Status := pendingStatusOf next, RetryCount := 0 } }
  refine ⟨⟨s.workers.set worker w1, s.infos.set w.appDeployInfo info1, ppln2⟩, ppln1, b,
    ?_, hadd, hdel, rfl, rfl⟩
  simp only [TransitionWorkerPhase, hw, hinfo, hrc, hbranch, if_true, simpleTransition, hadd, hdel]

/-- C1 (as amended): when the replica count is 1 (the default without a statefulset
included) or the current phase is not Download, and the worker occurs exactly once in the
queue of the current phase and not in the queue of the different next phase, then after
TransitionWorkerPhase it occurs exactly once in the queue of the next phase and not at all
in the queue of the current phase, and every other queue is unchanged. -/
theorem transition_single_ownership (s : State) (worker : Nat) (cur next : AppPhaseType)
    (w : PipelineWorker) (info : AppDeploymentInfo) (R : Int)
    (hw : s.workers[worker]? = some w) (hinfo : s.infos[w.appDeployInfo]? = some info)
    (hrc : replicaCountOf w = some R) (hsimple : R = 1 ∨ cur ≠ PhaseDownload)
    (hcur : (s.ppln.pplnPhases cur).isSome) (hnext : (s.ppln.pplnPhases next).isSome)
    (hne : cur ≠ next)
    (honce : (s.ppln.queue cur).count worker = 1)
    (hnot : (s.ppln.queue next).count worker = 0) :
    ∃ s1, TransitionWorkerPhase s worker cur next = some s1
      ∧ (s1.ppln.queue next).count worker = 1
      ∧ (s1.ppln.queue cur).count worker = 0
      ∧ (∀ p, p ≠ cur → p ≠ next → s1.ppln.queue p = s.ppln.queue p) := by
  obtain ⟨s1, ppln1, b, htr, hadd, hdel, _, _⟩ :=
    transition_simple_unfold s worker cur next w info R hw hinfo hrc hsimple hcur hnext
  obtain ⟨ppln1a, hadd1, hq1, hother1, hsome1, _⟩ := addWorkers_some s.ppln next [worker] hnext
  have e1 : ppln1a = ppln1 := by rw [hadd] at hadd1; exact (Option.some.inj hadd1).symm
  subst e1
  obtain ⟨b2, ppln2, hdel2, _, hperm, hother2, _, _, _⟩ :=
    deleteWorker_some ppln1a cur worker (by rw [hsome1]; exact hcur)
  have e2 : ppln2 = s1.ppln := by
    rw [hdel] at hdel2
    exact (congrArg Prod.snd (Option.some.inj hdel2)).symm
  subst e2
  refine ⟨s1, htr, ?_, ?_, ?_⟩
  · have : s1.ppln.queue next = ppln1a.queue next := by
      simp [AppInstallPipeline.queue, hother2 next (Ne.symm hne)]
    rw [this, hq1]
    simp [hnot]
  · have : ppln1a.queue cur = s.ppln.queue cur := by
      simp [AppInstallPipeline.queue, hother1 cur hne]
    rw [hperm.count_eq, this, List.count_erase_self, honce]
  · intro p hpc hpn
    simp [AppInstallPipeline.queue, hother2 p hpc, hother1 p hpn]

theorem transition_single_ownership_witness :
    (exDownloadState "ClusterMaster" (some 1) []).workers[0]? = some (exWorker "ClusterMaster" (some 1))
      ∧ (exDownloadState "ClusterMaster" (some 1) []).infos[(exWorker "ClusterMaster" (some 1)).appDeployInfo]?
          = some (exDownloadedApp [])
      ∧ replicaCountOf (exWorker "ClusterMaster" (some 1)) = some 1
      ∧ ((1 : Int) = 1 ∨ PhaseDownload ≠ PhaseDownload)
      ∧ ((exDownloadState "ClusterMaster" (some 1) []).ppln.pplnPhases PhaseDownload).isSome
      ∧ ((exDownloadState "ClusterMaster" (some 1) []).ppln.pplnPhases PhasePodCopy).isSome
      ∧ PhaseDownload ≠ PhasePodCopy
      ∧ ((exDownloadState "ClusterMaster" (some 1) []).ppln.queue PhaseDownload).count 0 = 1
      ∧ ((exDownloadState "ClusterMaster" (some 1) []).ppln.queue PhasePodCopy).count 0 = 0
      ∧ ∃ s1, TransitionWorkerPhase (exDownloadState "ClusterMaster" (some 1) []) 0
            PhaseDownload PhasePodCopy = some s1
          ∧ (s1.ppln.queue PhasePodCopy).count 0 = 1
          ∧ (s1.ppln.queue PhaseDownload).count 0 = 0
          ∧ (∀ p, p ≠ PhaseDownload → p ≠ PhasePodCopy →
              s1.ppln.queue p = (exDownloadState "ClusterMaster" (some 1) []).ppln.queue p) :=
  ⟨by decide, by decide, by decide, by decide, by decide, by decide, by decide, by decide,
    by decide,
    transition_single_ownership (exDownloadState "ClusterMaster" (some 1) []) 0 PhaseDownload
      PhasePodCopy (exWorker "ClusterMaster" (some 1)) (exDownloadedApp []) 1
      (by decide) (by decide) (by decide) (by decide) (by decide) (by decide) (by decide)
      (by decide) (by decide)⟩

/-- C1 as stated fails: a ClusterMaster worker whose statefulset has two replicas is not a
Standalone worker, occurs once in Download and not in PodCopy, and after
TransitionWorkerPhase from Download to PodCopy it is in neither queue. -/
theorem transition_single_ownership_counterexample :
    ((exDownloadState "ClusterMaster" (some 2) []).ppln.pplnPhases PhaseDownload).isSome
      ∧ ((exDownloadState "ClusterMaster" (some 2) []).ppln.pplnPhases PhasePodCopy).isSome
      ∧ ((exDownloadState "ClusterMaster" (some 2) []).ppln.pplnPhases PhaseInstall).isSome
      ∧ (exDownloadState "ClusterMaster" (some 2) []).workers[0]?
          = some (exWorker "ClusterMaster" (some 2))
      ∧ (exWorker "ClusterMaster" (some 2)).cr.Kind ≠ "Standalone"
      ∧ ((exDownloadState "ClusterMaster" (some 2) []).ppln.queue PhaseDownload).count 0 = 1
      ∧ ((exDownloadState "ClusterMaster" (some 2) []).ppln.queue PhasePodCopy).count 0 = 0
      ∧ (TransitionWorkerPhase (exDownloadState "ClusterMaster" (some 2) []) 0
            PhaseDownload PhasePodCopy).map
          (fun s1 => ((s1.ppln.queue PhaseDownload).count 0, (s1.ppln.queue PhasePodCopy).count 0,
            (s1.ppln.queue PhaseInstall).count 0)) = some (0, 0, 0) := by
  decide

/-- C4: in the simple transition (replica count 1, the default without a statefulset
included, or current phase not Download) TransitionWorkerPhase leaves the worker with
isActive false and no waiter, and its package with PhaseInfo.Phase the next phase,
RetryCount 0, Status the Pending status of the next phase, and AuxPhaseInfo unchanged. -/
theorem transition_simple_fields (s : State) (worker : Nat) (cur next : AppPhaseType)
    (w : PipelineWorker) (info : AppDeploymentInfo) (R : Int)
    (hw : s.workers[worker]? = some w) (hinfo : s.infos[w.appDeployInfo]? = some info)
    (hrc : replicaCountOf w = some R) (hsimple : R = 1 ∨ cur ≠ PhaseDownload)
    (hcur : (s.ppln.pplnPhases cur).isSome) (hnext : (s.ppln.pplnPhases next).isSome) :
    ∃ s1 w1 info1, TransitionWorkerPhase s worker cur next = some s1
      ∧ s1.workers[worker]? = some w1
      ∧ w1 = { w with isActive := false, waiter := none }
      ∧ s1.infos[w1.appDeployInfo]? = some info1
      ∧ info1.PhaseInfo.Phase = next
      ∧ info1.PhaseInfo.RetryCount = 0
      ∧ (next = PhaseDownload → info1.PhaseInfo.Status = AppPkgDownloadPending)
      ∧ (next = PhasePodCopy → info1.PhaseInfo.Status = AppPkgPodCopyPending)
      ∧ (next = PhaseInstall → info1.PhaseInfo.Status = AppPkgInstallPending)
      ∧ info1.AuxPhaseInfo = info.AuxPhaseInfo := by
  obtain ⟨s1, ppln1, b, htr, _, _, hws, hinfos⟩ :=
    transition_simple_unfold s worker cur next w info R hw hinfo hrc hsimple hcur hnext
  have hwlt : worker < s.workers.length := (List.getElem?_eq_some_iff.mp hw).1
  have hilt : w.appDeployInfo < s.infos.length := (List.getElem?_eq_some_iff.mp hinfo).1
  refine ⟨s1, { w with isActive := false, waiter := none },
    { info with PhaseInfo := { Phase := next, Status := pendingStatusOf next, RetryCount := 0 } },
    htr, ?_, rfl, ?_, rfl, rfl, ?_, ?_, ?_, rfl⟩
  · rw [hws]; simp [hwlt]
  · rw [hinfos]; simp [hilt]
  · intro h; subst h; rfl
  · intro h; subst h; rfl
  · intro h; subst h; rfl

theorem transition_simple_fields_witness :
    exNoStatefulSetState.workers[0]? = some exNoStatefulSetWorker
      ∧ exNoStatefulSetState.infos[exNoStatefulSetWorker.appDeployInfo]? = some exPodCopiedApp
      ∧ replicaCountOf exNoStatefulSetWorker = some 1
      ∧ ((1 : Int) = 1 ∨ PhasePodCopy ≠ PhaseDownload)
      ∧ (exNoStatefulSetState.ppln.pplnPhases PhasePodCopy).isSome
      ∧ (exNoStatefulSetState.ppln.pplnPhases PhaseInstall).isSome
      ∧ ∃ s1 w1 info1,
          TransitionWorkerPhase exNoStatefulSetState 0 PhasePodCopy PhaseInstall = some s1
          ∧ s1.workers[0]? = some w1
          ∧ w1 = { exNoStatefulSetWorker with isActive := false, waiter := none }
          ∧ s1.infos[w1.appDeployInfo]? = some info1
          ∧ info1.PhaseInfo.Phase = PhaseInstall
          ∧ info1.PhaseInfo.RetryCount = 0
          ∧ (PhaseInstall = PhaseDownload → info1.PhaseInfo.Status = AppPkgDownloadPending)
          ∧ (PhaseInstall = PhasePodCopy → info1.PhaseInfo.Status = AppPkgPodCopyPending)
          ∧ (PhaseInstall = PhaseInstall → info1.PhaseInfo.Status = AppPkgInstallPending)
          ∧ info1.AuxPhaseInfo = exPodCopiedApp.AuxPhaseInfo :=
  ⟨by decide, by decide, by decide, by decide, by decide, by decide,
    transition_simple_fields exNoStatefulSetState 0 PhasePodCopy PhaseInstall
      exNoStatefulSetWorker exPodCopiedApp 1
      (by decide) (by decide) (by decide) (by decide) (by decide) (by decide)⟩

theorem fanOutFresh_fst (w : PipelineWorker) (n i : Nat) :
    (fanOutFresh w n i).1
      = List.replicate n { Phase := PhasePodCopy, Status := AppPkgPodCopyPending, RetryCount := 0 } := by
  induction n generalizing i with
  | zero => rfl
  | succ n ih => simp [fanOutFresh, ih, List.replicate_succ]

theorem fanOutFresh_snd (w : PipelineWorker) (n i : Nat) :
    (fanOutFresh w n i).2 = (List.range' i n).map (fanOutCopy w) := by
  induction n generalizing i with
  | zero => rfl
  | succ n ih => simp [fanOutFresh, ih, List.range'_succ]

theorem fanOutResume_copies (w : PipelineWorker) (base : Nat) (aux : List PhaseInfo) (i : Nat) :
    (fanOutResume w base aux i).1 = (List.range' i aux.length).map (fanOutCopy w) := by
  induction aux generalizing i with
  | nil => rfl
  | cons a rest ih =>
    simp only [fanOutResume]
    split <;> simp [ih, List.range'_succ]

theorem fanOutResume_install (w : PipelineWorker) (base : Nat) (aux : List PhaseInfo) (i : Nat) :
    (fanOutResume w base aux i).2.2
      = ((aux.enumFrom i).filter
          (fun p => decide (p.2.Phase = PhaseInstall ∧ p.2.Status ≠ AppPkgInstallComplete))).map
          (fun p => base + p.1) := by
  induction aux generalizing i with
  | nil => rfl
  | cons a rest ih =>
    simp only [fanOutResume, List.enumFrom_cons]
    by_cases h : a.Phase = PhaseInstall ∧ a.Status ≠ AppPkgInstallComplete
    · simp [h, ih, List.filter_cons]
    · simp [h, ih, List.filter_cons]

theorem fanOutResume_podCopy (w : PipelineWorker) (base : Nat) (aux : List PhaseInfo) (i : Nat) :
    (fanOutResume w base aux i).2.1
      = ((aux.enumFrom i).filter
          (fun p => decide (¬ (p.2.Phase = PhaseInstall ∧ p.2.Status ≠ AppPkgInstallComplete)))).map
          (fun p => base + p.1) := by
  induction aux generalizing i with
  | nil => rfl
  | cons a rest ih =>
    simp only [fanOutResume, List.enumFrom_cons]
    by_cases h : a.Phase = PhaseInstall ∧ a.Status ≠ AppPkgInstallComplete
    · simp [h, ih, List.filter_cons]
    · have h2 : ¬a.Phase = PhaseInstall ∨ a.Status = AppPkgInstallComplete := by
        by_cases hp : a.Phase = PhaseInstall
        · right
          by_contra hs
          exact h ⟨hp, hs⟩
        · left; exact hp
      simp [h, h2, ih, List.filter_cons]

theorem podName_standalone (cr : MetaObject) (k : Int) (h : cr.Kind = "Standalone") :
    getApplicablePodNameForWorker cr k
      = "splunk-" ++ cr.Name ++ "-" ++ "standalone" ++ "-" ++ toString k := by
  obtain ⟨kind, name, ns⟩ := cr
  simp only at h
  subst h
  rfl

/-- C2: fresh fan-out.  For a Standalone worker with replica count R > 1 and an empty
AuxPhaseInfo, TransitionWorkerPhase from Download to PodCopy sets AuxPhaseInfo to R entries
PodCopy / PodCopyPending, allocates exactly R copies of the worker and appends them to
the PodCopy queue in replica order, the i-th copy targeting
splunk-CRName-standalone-i, leaves the Install queue unchanged and removes the worker
from the Download queue. -/
theorem transition_fresh_fanOut (s : State) (worker : Nat) (w : PipelineWorker)
    (info : AppDeploymentInfo) (R : Nat)
    (hw : s.workers[worker]? = some w) (hinfo : s.infos[w.appDeployInfo]? = some info)
    (hkind : w.cr.Kind = "Standalone")
    (hrc : replicaCountOf w = some (R : Int)) (hR : 1 < R)
    (haux : info.AuxPhaseInfo = [])
    (hdl : (s.ppln.pplnPhases PhaseDownload).isSome)
    (hpc : (s.ppln.pplnPhases PhasePodCopy).isSome)
    (hin : (s.ppln.pplnPhases PhaseInstall).isSome) :
    ∃ s1 info1, TransitionWorkerPhase s worker PhaseDownload PhasePodCopy = some s1
      ∧ s1.infos[w.appDeployInfo]? = some info1
      ∧ info1.AuxPhaseInfo = List.replicate R
          { Phase := PhasePodCopy, Status := AppPkgPodCopyPending, RetryCount := 0 }
      ∧ s1.workers.length = s.workers.length + R
      ∧ (∀ i, i < R → s1.workers[s.workers.length + i]? = some
          { w with
            targetPodName := "splunk-" ++ w.cr.Name ++ "-" ++ "standalone" ++ "-" ++ toString i
            isActive := false
            waiter := none })
      ∧ s1.ppln.queue PhasePodCopy
          = s.ppln.queue PhasePodCopy ++ (List.range R).map (fun i => s.workers.length + i)
      ∧ s1.ppln.queue PhaseInstall = s.ppln.queue PhaseInstall
      ∧ (s1.ppln.queue PhaseDownload).Perm ((s.ppln.queue PhaseDownload).erase worker) := by
  obtain ⟨ppln1, hadd1, hq1, ho1, hs1, _⟩ := addWorkers_some s.ppln PhasePodCopy
    ((List.range R).map (fun i => s.workers.length + i)) hpc
  obtain ⟨ppln2, hadd2, hq2, ho2, hs2, _⟩ := addWorkers_some ppln1 PhaseInstall []
    (by rw [hs1]; exact hin)
  obtain ⟨b, ppln3, hdel, _, hperm, ho3, _⟩ := deleteWorker_some ppln2 PhaseDownload worker
    (by rw [hs2, hs1]; exact hdl)
  have hR1 : ¬ ((R : Int) = 1) := by omega
  have hR0 : ¬ ((R : Int) < 0) := by omega
  have hlen : info.AuxPhaseInfo.length = 0 := by simp [haux]
  have hilt : w.appDeployInfo < s.infos.length := (List.getElem?_eq_some_iff.mp hinfo).1
  have htr : TransitionWorkerPhase s worker PhaseDownload PhasePodCopy
      = some ⟨s.workers ++ (fanOutFresh w R 0).2,
          s.infos.set w.appDeployInfo { info with AuxPhaseInfo := (fanOutFresh w R 0).1 },
          ppln3⟩ := by
    simp only [TransitionWorkerPhase, hw, hinfo, hrc, hR1, ne_eq, not_true_eq_false, or_self,
      if_false, hkind, and_self, if_true, fanOutTransition, hlen, hR0, Int.toNat_ofNat, hadd1,
      hadd2, hdel]
  refine ⟨_, { info with AuxPhaseInfo := (fanOutFresh w R 0).1 }, htr, ?_, ?_, ?_, ?_, ?_, ?_, ?_⟩
  · simp [hilt]
  · simp [fanOutFresh_fst]
  · simp [fanOutFresh_snd]
  · intro i hi
    simp only [fanOutFresh_snd]
    rw [List.getElem?_append_right (by omega)]
    simp [hi, fanOutCopy, podName_standalone w.cr i hkind]
    rfl
  · have e : ppln3.queue PhasePodCopy = ppln2.queue PhasePodCopy := by
      simp [AppInstallPipeline.queue, ho3 PhasePodCopy (by decide)]
    have e2 : ppln2.queue PhasePodCopy = ppln1.queue PhasePodCopy := by
      simp [AppInstallPipeline.queue, ho2 PhasePodCopy (by decide)]
    simp only [e, e2, hq1]
  · have e : ppln3.queue PhaseInstall = ppln2.queue PhaseInstall := by
      simp [AppInstallPipeline.queue, ho3 PhaseInstall (by decide)]
    have e1 : ppln1.queue PhaseInstall = s.ppln.queue PhaseInstall := by
      simp [AppInstallPipeline.queue, ho1 PhaseInstall (by decide)]
    simp only [e, hq2, e1, List.append_nil]
  · have e2 : ppln2.queue PhaseDownload = ppln1.queue PhaseDownload := by
      simp [AppInstallPipeline.queue, ho2 PhaseDownload (by decide)]
    have e1 : ppln1.queue PhaseDownload = s.ppln.queue PhaseDownload := by
      simp [AppInstallPipeline.queue, ho1 PhaseDownload (by decide)]
    simpa only [e2, e1] using hperm

theorem transition_fresh_fanOut_witness :
    (exDownloadState "Standalone" (some 5) []).workers[0]? = some (exWorker "Standalone" (some 5))
      ∧ (exDownloadState "Standalone" (some 5) []).infos[(exWorker "Standalone" (some 5)).appDeployInfo]?
          = some (exDownloadedApp [])
      ∧ (exWorker "Standalone" (some 5)).cr.Kind = "Standalone"
      ∧ replicaCountOf (exWorker "Standalone" (some 5)) = some ((5 : Nat) : Int)
      ∧ 1 < 5
      ∧ (exDownloadedApp []).AuxPhaseInfo = []
      ∧ ((exDownloadState "Standalone" (some 5) []).ppln.pplnPhases PhaseDownload).isSome
      ∧ ((exDownloadState "Standalone" (some 5) []).ppln.pplnPhases PhasePodCopy).isSome
      ∧ ((exDownloadState "Standalone" (some 5) []).ppln.pplnPhases PhaseInstall).isSome
      ∧ ∃ s1 info1, TransitionWorkerPhase (exDownloadState "Standalone" (some 5) []) 0
            PhaseDownload PhasePodCopy = some s1
          ∧ s1.infos[(exWorker "Standalone" (some 5)).appDeployInfo]? = some info1
          ∧ info1.AuxPhaseInfo = List.replicate 5
              { Phase := PhasePodCopy, Status := AppPkgPodCopyPending, RetryCount := 0 }
          ∧ s1.workers.length = (exDownloadState "Standalone" (some 5) []).workers.length + 5
          ∧ (∀ i, i < 5 →
              s1.workers[(exDownloadState "Standalone" (some 5) []).workers.length + i]? = some
                { exWorker "Standalone" (some 5) with
                  targetPodName := "splunk-" ++ (exWorker "Standalone" (some 5)).cr.Name ++ "-"
                    ++ "standalone" ++ "-" ++ toString i
                  isActive := false
                  waiter := none })
          ∧ s1.ppln.queue PhasePodCopy
              = (exDownloadState "Standalone" (some 5) []).ppln.queue PhasePodCopy
                ++ (List.range 5).map
                  (fun i => (exDownloadState "Standalone" (some 5) []).workers.length + i)
          ∧ s1.ppln.queue PhaseInstall
              = (exDownloadState "Standalone" (some 5) []).ppln.queue PhaseInstall
          ∧ (s1.ppln.queue PhaseDownload).Perm
              (((exDownloadState "Standalone" (some 5) []).ppln.queue PhaseDownload).erase 0) :=
  ⟨by decide, by decide, by decide, by decide, by decide, by decide, by decide, by decide,
    by decide,
    transition_fresh_fanOut (exDownloadState "Standalone" (some 5) []) 0
      (exWorker "Standalone" (some 5)) (exDownloadedApp []) 5
      (by decide) (by decide) (by decide) (by decide) (by decide) (by decide) (by decide)
      (by decide) (by decide)⟩

/-- C3: resumed fan-out.  For a Standalone worker with replica count R > 1 and a non-empty
AuxPhaseInfo, TransitionWorkerPhase from Download to PodCopy allocates exactly one copy per
AuxPhaseInfo slot, the copy of slot i targeting replica i; the copy is appended to the
Install queue exactly when the slot has Phase Install and a Status other than
InstallComplete, and to the PodCopy queue otherwise, so the numbers of workers added to
the two queues sum to the length of AuxPhaseInfo. -/
theorem transition_resumed_fanOut (s : State) (worker : Nat) (w : PipelineWorker)
    (info : AppDeploymentInfo) (R : Int)
    (hw : s.workers[worker]? = some w) (hinfo : s.infos[w.appDeployInfo]? = some info)
    (hkind : w.cr.Kind = "Standalone")
    (hrc : replicaCountOf w = some R) (hR : 1 < R)
    (haux : info.AuxPhaseInfo ≠ [])
    (hdl : (s.ppln.pplnPhases PhaseDownload).isSome)
    (hpc : (s.ppln.pplnPhases PhasePodCopy).isSome)
    (hin : (s.ppln.pplnPhases PhaseInstall).isSome) :
    ∃ s1, TransitionWorkerPhase s worker PhaseDownload PhasePodCopy = some s1
      ∧ s1.workers.length = s.workers.length + info.AuxPhaseInfo.length
      ∧ (∀ i, i < info.AuxPhaseInfo.length → s1.workers[s.workers.length + i]? = some
          { w with
            targetPodName := getApplicablePodNameForWorker w.cr (i : Int)
            isActive := false
            waiter := none })
      ∧ s1.ppln.queue PhaseInstall = s.ppln.queue PhaseInstall
          ++ ((info.AuxPhaseInfo.enum.filter (fun slot =>
                decide (slot.2.Phase = PhaseInstall ∧ slot.2.Status ≠ AppPkgInstallComplete))).map
              (fun slot => s.workers.length + slot.1))
      ∧ s1.ppln.queue PhasePodCopy = s.ppln.queue PhasePodCopy
          ++ ((info.AuxPhaseInfo.enum.filter (fun slot =>
                decide (¬ (slot.2.Phase = PhaseInstall ∧ slot.2.Status ≠ AppPkgInstallComplete)))).map
              (fun slot => s.workers.length + slot.1))
      ∧ (s1.ppln.queue PhasePodCopy).length + (s1.ppln.queue PhaseInstall).length
          = (s.ppln.queue PhasePodCopy).length + (s.ppln.queue PhaseInstall).length
            + info.AuxPhaseInfo.length := by
  obtain ⟨ppln1, hadd1, hq1, ho1, hs1, _⟩ := addWorkers_some s.ppln PhasePodCopy
    (fanOutResume w s.workers.length info.AuxPhaseInfo 0).2.1 hpc
  obtain ⟨ppln2, hadd2, hq2, ho2, hs2, _⟩ := addWorkers_some ppln1 PhaseInstall
    (fanOutResume w s.workers.length info.AuxPhaseInfo 0).2.2 (by rw [hs1]; exact hin)
  obtain ⟨b, ppln3, hdel, _, hperm, ho3, _⟩ := deleteWorker_some ppln2 PhaseDownload worker
    (by rw [hs2, hs1]; exact hdl)
  have hR1 : ¬ (R = 1) := by omega
  have hlen : ¬ (info.AuxPhaseInfo.length = 0) := by simpa using haux
  have htr : TransitionWorkerPhase s worker PhaseDownload PhasePodCopy
      = some ⟨s.workers ++ (fanOutResume w s.workers.length info.AuxPhaseInfo 0).1,
          s.infos.set w.appDeployInfo { info with AuxPhaseInfo := info.AuxPhaseInfo },
          ppln3⟩ := by
    simp only [TransitionWorkerPhase, hw, hinfo, hrc, hR1, ne_eq, not_true_eq_false, or_self,
      if_false, hkind, and_self, if_true, fanOutTransition, hlen, hadd1, hadd2, hdel]
  have eI : ppln3.queue PhaseInstall = s.ppln.queue PhaseInstall
      ++ (fanOutResume w s.workers.length info.AuxPhaseInfo 0).2.2 := by
    have e : ppln3.queue PhaseInstall = ppln2.queue PhaseInstall := by
      simp [AppInstallPipeline.queue, ho3 PhaseInstall (by decide)]
    have e1 : ppln1.queue PhaseInstall = s.ppln.queue PhaseInstall := by
      simp [AppInstallPipeline.queue, ho1 PhaseInstall (by decide)]
    rw [e, hq2, e1]
  have eP : ppln3.queue PhasePodCopy = s.ppln.queue PhasePodCopy
      ++ (fanOutResume w s.workers.length info.AuxPhaseInfo 0).2.1 := by
    have e : ppln3.queue PhasePodCopy = ppln2.queue PhasePodCopy := by
      simp [AppInstallPipeline.queue, ho3 PhasePodCopy (by decide)]
    have e2 : ppln2.queue PhasePodCopy = ppln1.queue PhasePodCopy := by
      simp [AppInstallPipeline.queue, ho2 PhasePodCopy (by decide)]
    rw [e, e2, hq1]
  have hsum : ∀ (l : List (Nat × PhaseInfo)),
      (l.filter (fun slot =>
          decide (¬ (slot.2.Phase = PhaseInstall ∧ slot.2.Status ≠ AppPkgInstallComplete)))).length
        + (l.filter (fun slot =>
          decide (slot.2.Phase = PhaseInstall ∧ slot.2.Status ≠ AppPkgInstallComplete))).length
        = l.length := by
    intro l
    induction l with
    | nil => rfl
    | cons a l ih =>
      by_cases h : a.2.Phase = PhaseInstall ∧ a.2.Status ≠ AppPkgInstallComplete
      · simp [List.filter_cons, h]
        simp at ih
        omega
      · have h2 : ¬a.2.Phase = PhaseInstall ∨ a.2.Status = AppPkgInstallComplete := by
          by_cases hp : a.2.Phase = PhaseInstall
          · right
            by_contra hs
            exact h ⟨hp, hs⟩
          · left; exact hp
        simp [List.filter_cons, h, h2]
        simp at ih
        omega
  refine ⟨_, htr, ?_, ?_, ?_, ?_, ?_⟩
  · simp [fanOutResume_copies]
  · intro i hi
    simp only [fanOutResume_copies]
    rw [List.getElem?_append_right (by omega)]
    simp [hi, fanOutCopy]
  · simp only [eI, fanOutResume_install, List.enum]
  · simp only [eP, fanOutResume_podCopy, List.enum]
  · simp only [eI, eP, fanOutResume_install, fanOutResume_podCopy, List.length_append,
      List.length_map]
    have := hsum (List.enumFrom 0 info.AuxPhaseInfo)
    simp only [List.enumFrom_length] at this
    omega

theorem transition_resumed_fanOut_witness :
    (exDownloadState "Standalone" (some 5) exResumeAux).workers[0]?
        = some (exWorker "Standalone" (some 5))
      ∧ (exDownloadState "Standalone" (some 5) exResumeAux).infos[
          (exWorker "Standalone" (some 5)).appDeployInfo]? = some (exDownloadedApp exResumeAux)
      ∧ (exWorker "Standalone" (some 5)).cr.Kind = "Standalone"
      ∧ replicaCountOf (exWorker "Standalone" (some 5)) = some 5
      ∧ (1 : Int) < 5
      ∧ (exDownloadedApp exResumeAux).AuxPhaseInfo ≠ []
      ∧ ((exDownloadState "Standalone" (some 5) exResumeAux).ppln.pplnPhases PhaseDownload).isSome
      ∧ ((exDownloadState "Standalone" (some 5) exResumeAux).ppln.pplnPhases PhasePodCopy).isSome
      ∧ ((exDownloadState "Standalone" (some 5) exResumeAux).ppln.pplnPhases PhaseInstall).isSome
      ∧ ∃ s1, TransitionWorkerPhase (exDownloadState "Standalone" (some 5) exResumeAux) 0
            PhaseDownload PhasePodCopy = some s1
          ∧ s1.workers.length = (exDownloadState "Standalone" (some 5) exResumeAux).workers.length
              + (exDownloadedApp exResumeAux).AuxPhaseInfo.length
          ∧ (∀ i, i < (exDownloadedApp exResumeAux).AuxPhaseInfo.length →
              s1.workers[(exDownloadState "Standalone" (some 5) exResumeAux).workers.length + i]?
                = some
                  { exWorker "Standalone" (some 5) with
                    targetPodName :=
                      getApplicablePodNameForWorker (exWorker "Standalone" (some 5)).cr (i : Int)
                    isActive := false
                    waiter := none })
          ∧ s1.ppln.queue PhaseInstall
              = (exDownloadState "Standalone" (some 5) exResumeAux).ppln.queue PhaseInstall
                ++ (((exDownloadedApp exResumeAux).AuxPhaseInfo.enum.filter (fun slot =>
                    decide (slot.2.Phase = PhaseInstall
                      ∧ slot.2.Status ≠ AppPkgInstallComplete))).map
                  (fun slot =>
                    (exDownloadState "Standalone" (some 5) exResumeAux).workers.length + slot.1))
          ∧ s1.ppln.queue PhasePodCopy
              = (exDownloadState "Standalone" (some 5) exResumeAux).ppln.queue PhasePodCopy
                ++ (((exDownloadedApp exResumeAux).AuxPhaseInfo.enum.filter (fun slot =>
                    decide (¬ (slot.2.Phase = PhaseInstall
                      ∧ slot.2.Status ≠ AppPkgInstallComplete)))).map
                  (fun slot =>
                    (exDownloadState "Standalone" (some 5) exResumeAux).workers.length + slot.1))
          ∧ (s1.ppln.queue PhasePodCopy).length + (s1.ppln.queue PhaseInstall).length
              = ((exDownloadState "Standalone" (some 5) exResumeAux).ppln.queue PhasePodCopy).length
                + ((exDownloadState "Standalone" (some 5) exResumeAux).ppln.queue PhaseInstall).length
                + (exDownloadedApp exResumeAux).AuxPhaseInfo.length :=
  ⟨by decide, by decide, by decide, by decide, by decide, by decide, by decide, by decide,
    by decide,
    transition_resumed_fanOut (exDownloadState "Standalone" (some 5) exResumeAux) 0
      (exWorker "Standalone" (some 5)) (exDownloadedApp exResumeAux) 5
      (by decide) (by decide) (by decide) (by decide) (by decide) (by decide) (by decide)
      (by decide) (by decide)⟩

theorem seedPhase_eq_of_rule (maxRetry : Int) (d : AppDeploymentInfo) (P : AppPhaseType)
    (h : specSeedingRule maxRetry d = some P) : seedPhase maxRetry d = P ∧ P ≠ AppPhaseType.unset := by
  unfold specSeedingRule at h
  split at h
  · rename_i hc
    obtain ⟨hphase, hretry, hinst⟩ := hc
    have hP : d.PhaseInfo.Phase = P := Option.some.inj h
    rcases hphase with h1 | h1 | h1
    · rw [← hP, h1]; simp [seedPhase, h1, hretry]
    · rw [← hP, h1]; simp [seedPhase, h1, hretry]
    · have hs : d.PhaseInfo.Status ≠ AppPkgInstallComplete := by
        rcases hinst with h2 | h2
        · exact absurd h1 h2
        · exact h2
      rw [← hP, h1]; simp [seedPhase, h1, hretry, hs]
  · cases h

theorem seedPhase_eq_of_rule_none (maxRetry : Int) (d : AppDeploymentInfo)
    (h : specSeedingRule maxRetry d = none) : seedPhase maxRetry d = AppPhaseType.unset := by
  unfold specSeedingRule at h
  split at h
  · cases h
  · rename_i hc
    unfold seedPhase
    split
    · rename_i h1; exact absurd ⟨Or.inl h1.1, h1.2, Or.inl (by rw [h1.1]; decide)⟩ hc
    · split
      · rename_i _ h1; exact absurd ⟨Or.inr (Or.inl h1.1), h1.2, Or.inl (by rw [h1.1]; decide)⟩ hc
      · split
        · rename_i _ _ h1; exact absurd ⟨Or.inr (Or.inr h1.1), h1.2.2, Or.inr h1.2.1⟩ hc
        · rfl

/-- C9 at its failing input: the seeding step, given one entry of the cluster-scoped app
source whose persisted PhaseInfo is Install / InstallPending, creates a worker of that source
and puts it into the Install queue. -/
theorem seedPipeline_cluster_scope_reaches_install :
    (getAppSrcSpec exConfig.AppSources "clusterApps").map (fun appSrc => appSrc.Scope)
        = some ScopeCluster
      ∧ (seedPipeline 3 exClient exCR exConfig
            [("clusterApps", { AppDeploymentInfoList := [exInstallPendingApp] })]
            (exFreshState, [])).map
          (fun r => (r.1.ppln.queue PhaseInstall, r.1.workers.map (fun w => w.appSrcName)))
        = some ([0], ["clusterApps"]) := by
  decide

/-- C10 at its failing input: one pass of the pod-copy phase manager over a queue holding a
worker of the cluster-scoped app source with Status PodCopyComplete leaves the worker in the
PodCopy queue (and adds nothing to the Install queue), whatever the retry ceiling and the
readiness of the dispatch channel. -/
theorem podCopyPass_keeps_cluster_scope_worker (maxRetry : Int) (slots : Nat) :
    (exClusterPodCopiedState.workers[0]?).map
        (fun w => w.afwConfig.map (fun afwConfig =>
          (getAppSrcSpec afwConfig.AppSources w.appSrcName).map (fun a => a.Scope)))
        = some (some (some ScopeCluster))
      ∧ (exClusterPodCopiedState.infos[0]?).map (fun d => d.PhaseInfo.Status)
        = some AppPkgPodCopyComplete
      ∧ exClusterPodCopiedState.ppln.queue PhasePodCopy = [0]
      ∧ (podCopyPhaseManagerPass maxRetry exClusterPodCopiedState slots).map
          (fun r => (r.1.ppln.queue PhasePodCopy, r.1.ppln.queue PhaseInstall))
        = some ([0], []) := by
  refine ⟨by decide, by decide, by decide, ?_⟩
  simp [podCopyPhaseManagerPass, podCopyLoop, exClusterPodCopiedState, pipelineOf, exPodCopiedApp,
    exDownloadedApp, exWorker, exConfig, exAdminApps, exClusterApps, getAppSrcSpec,
    AppInstallPipeline.queue]

theorem seedEntry_queues (maxRetry : Int) (client : ControllerClient) (cr : MetaObject)
    (cfg : AppFrameworkSpec) (appSrcName : String) (entry : AppDeploymentInfo)
    (s : State) (cl : List Nat)
    (hdl : (s.ppln.pplnPhases PhaseDownload).isSome)
    (hpc : (s.ppln.pplnPhases PhasePodCopy).isSome)
    (hin : (s.ppln.pplnPhases PhaseInstall).isSome) :
    ∃ s1 cl1, seedEntry maxRetry client cr cfg appSrcName entry (s, cl) = some (s1, cl1)
      ∧ (∀ P, (s1.ppln.pplnPhases P).isSome = (s.ppln.pplnPhases P).isSome)
      ∧ (∀ P, (s1.ppln.queue P).length = (s.ppln.queue P).length
          + if (getAppSrcSpec cfg.AppSources appSrcName).isSome
              ∧ specSeedingRule maxRetry entry = some P then 1 else 0) := by
  cases hsrc : getAppSrcSpec cfg.AppSources appSrcName with
  | none =>
    refine ⟨{ s with infos := s.infos ++ [entry] }, cl, ?_, fun _ => rfl, ?_⟩
    · simp only [seedEntry, hsrc]
    · intro P; simp
  | some appSrc =>
    cases hrule : specSeedingRule maxRetry entry with
    | none =>
      have hph := seedPhase_eq_of_rule_none maxRetry entry hrule
      refine ⟨{ s with infos := s.infos ++ [entry] },
        (if appSrc.Scope = ScopeCluster ∧ entry.DeployStatus ≠ DeployStatusComplete then
          cl ++ [s.infos.length] else cl), ?_, fun _ => rfl, ?_⟩
      · simp only [seedEntry, hsrc, hph, ne_eq, not_true_eq_false, if_false]
      · intro P; simp
    | some P =>
      obtain ⟨hph, hne⟩ := seedPhase_eq_of_rule maxRetry entry P hrule
      have hP : (s.ppln.pplnPhases P).isSome := by
        cases P with
        | PhaseDownload => exact hdl
        | PhasePodCopy => exact hpc
        | PhaseInstall => exact hin
        | unset => exact absurd rfl hne
      obtain ⟨ppln1, hadd, hq, ho, hs, _⟩ := addWorkers_some s.ppln P [s.workers.length] hP
      refine ⟨{ workers := s.workers ++ [createPipelineWorker s.infos.length appSrcName
                  (getApplicablePodNameForWorker cr 0) cfg cr
                  (afwGetReleventStatefulsetByKind cr client)],
                infos := s.infos ++ [entry], ppln := ppln1 },
        (if appSrc.Scope = ScopeCluster ∧ entry.DeployStatus ≠ DeployStatusComplete then
          cl ++ [s.infos.length] else cl), ?_, hs, ?_⟩
      · simp only [seedEntry, hsrc, hph, ne_eq, hne, not_false_eq_true, if_true,
          createAndAddPipelineWorker, hadd]
      · intro P1
        by_cases h : P = P1
        · subst h; simp [hq]
        · have h2 : ¬ (some P = some P1) := fun e => h (Option.some.inj e)
          have h3 : P1 ≠ P := fun e => h e.symm
          simp [h2, AppInstallPipeline.queue, ho P1 h3]

theorem seedAppSrc_queues (maxRetry : Int) (client : ControllerClient) (cr : MetaObject)
    (cfg : AppFrameworkSpec) (appSrcName : String) (entries : List AppDeploymentInfo)
    (s : State) (cl : List Nat)
    (hdl : (s.ppln.pplnPhases PhaseDownload).isSome)
    (hpc : (s.ppln.pplnPhases PhasePodCopy).isSome)
    (hin : (s.ppln.pplnPhases PhaseInstall).isSome) :
    ∃ s1 cl1, seedAppSrc maxRetry client cr cfg appSrcName entries (s, cl) = some (s1, cl1)
      ∧ (∀ P, (s1.ppln.pplnPhases P).isSome = (s.ppln.pplnPhases P).isSome)
      ∧ (∀ P, (s1.ppln.queue P).length = (s.ppln.queue P).length
          + if (getAppSrcSpec cfg.AppSources appSrcName).isSome then
              entries.countP (fun d => decide (specSeedingRule maxRetry d = some P))
            else 0) := by
  induction entries generalizing s cl with
  | nil => exact ⟨s, cl, rfl, fun _ => rfl, fun P => by simp⟩
  | cons entry rest ih =>
    obtain ⟨s1, cl1, h1, hs1, hq1⟩ :=
      seedEntry_queues maxRetry client cr cfg appSrcName entry s cl hdl hpc hin
    obtain ⟨s2, cl2, h2, hs2, hq2⟩ := ih s1 cl1 (by rw [hs1]; exact hdl) (by rw [hs1]; exact hpc)
      (by rw [hs1]; exact hin)
    refine ⟨s2, cl2, ?_, fun P => by rw [hs2, hs1], ?_⟩
    · simp only [seedAppSrc, h1, h2]
    · intro P
      rw [hq2 P, hq1 P, List.countP_cons]
      by_cases hsrc : (getAppSrcSpec cfg.AppSources appSrcName).isSome
      · by_cases hr : specSeedingRule maxRetry entry = some P
        · simp [hsrc, hr]; omega
        · simp [hsrc, hr]
      · simp [hsrc]

/-- The seeding step as a whole: it never faults on a pipeline with the three phases, and the
queue of every phase grows by the number of entries, over the app sources that the
AppFrameworkConfig holds, for which the specification's rule names that phase. -/
theorem seedPipeline_queues (maxRetry : Int) (client : ControllerClient) (cr : MetaObject)
    (cfg : AppFrameworkSpec) (srcs : List (String × AppSrcDeployInfo))
    (s : State) (cl : List Nat)
    (hdl : (s.ppln.pplnPhases PhaseDownload).isSome)
    (hpc : (s.ppln.pplnPhases PhasePodCopy).isSome)
    (hin : (s.ppln.pplnPhases PhaseInstall).isSome) :
    ∃ s1 cl1, seedPipeline maxRetry client cr cfg srcs (s, cl) = some (s1, cl1)
      ∧ (∀ P, (s1.ppln.pplnPhases P).isSome = (s.ppln.pplnPhases P).isSome)
      ∧ (∀ P, (s1.ppln.queue P).length = (s.ppln.queue P).length
          + (srcs.map (fun src =>
              if (getAppSrcSpec cfg.AppSources src.1).isSome then
                src.2.AppDeploymentInfoList.countP
                  (fun d => decide (specSeedingRule maxRetry d = some P))
              else 0)).sum) := by
  induction srcs generalizing s cl with
  | nil => exact ⟨s, cl, rfl, fun _ => rfl, fun P => by simp⟩
  | cons src rest ih =>
    obtain ⟨s1, cl1, h1, hs1, hq1⟩ := seedAppSrc_queues maxRetry client cr cfg src.1
      src.2.AppDeploymentInfoList s cl hdl hpc hin
    obtain ⟨s2, cl2, h2, hs2, hq2⟩ := ih s1 cl1 (by rw [hs1]; exact hdl) (by rw [hs1]; exact hpc)
      (by rw [hs1]; exact hin)
    refine ⟨s2, cl2, ?_, fun P => by rw [hs2, hs1], ?_⟩
    · simp only [seedPipeline, h1, h2]
    · intro P
      rw [hq2 P, hq1 P, List.map_cons, List.sum_cons]
      omega

/-- C13: the download task.  When resolving the remote key or the transfer fails the task
leaves PhaseInfo = (Download, DownloadPending, previous RetryCount + 1, in int32
arithmetic); when both succeed it leaves (Download, DownloadComplete, 0); on every path
activeWorkers is decremented by exactly one (in uint64 arithmetic). -/
theorem Download_outcome (s : State) (activeWorkers : Nat) (worker : Nat) (w : PipelineWorker)
    (info : AppDeploymentInfo) (remoteFile : Option String) (downloadOk : Bool)
    (hw : s.workers[worker]? = some w) (hinfo : s.infos[w.appDeployInfo]? = some info)
    (hwaiter : w.waiter.isSome) :
    ∃ s1 info1, Download s activeWorkers worker remoteFile downloadOk
        = some (s1, uint64Sub activeWorkers 1)
      ∧ s1.infos[w.appDeployInfo]? = some info1
      ∧ ((remoteFile = none ∨ downloadOk = false) → info1.PhaseInfo
          = { Phase := PhaseDownload, Status := AppPkgDownloadPending,
              RetryCount := int32Add info.PhaseInfo.RetryCount 1 })
      ∧ ((remoteFile ≠ none ∧ downloadOk = true) → info1.PhaseInfo
          = { Phase := PhaseDownload, Status := AppPkgDownloadComplete, RetryCount := 0 })
      ∧ ((-2147483648 ≤ info.PhaseInfo.RetryCount ∧ info.PhaseInfo.RetryCount < 2147483647) →
          int32Add info.PhaseInfo.RetryCount 1 = info.PhaseInfo.RetryCount + 1)
      ∧ ((0 < activeWorkers ∧ activeWorkers < 18446744073709551616) →
          uint64Sub activeWorkers 1 = activeWorkers - 1) := by
  obtain ⟨wt, hwt⟩ := Option.isSome_iff_exists.mp hwaiter
  have hilt : w.appDeployInfo < s.infos.length := (List.getElem?_eq_some_iff.mp hinfo).1
  have harith1 : (-2147483648 ≤ info.PhaseInfo.RetryCount ∧ info.PhaseInfo.RetryCount < 2147483647) →
      int32Add info.PhaseInfo.RetryCount 1 = info.PhaseInfo.RetryCount + 1 := by
    intro h
    unfold int32Add
    omega
  have harith2 : (0 < activeWorkers ∧ activeWorkers < 18446744073709551616) →
      uint64Sub activeWorkers 1 = activeWorkers - 1 := by
    intro h
    unfold uint64Sub
    omega
  cases remoteFile with
  | none =>
    refine ⟨{ s with infos := s.infos.set w.appDeployInfo (updatePplnWorkerPhaseInfo info
        PhaseDownload (int32Add info.PhaseInfo.RetryCount 1) AppPkgDownloadPending) },
      updatePplnWorkerPhaseInfo info PhaseDownload (int32Add info.PhaseInfo.RetryCount 1)
      AppPkgDownloadPending, by simp only [Download, hw, hinfo, hwt], ?_, ?_, ?_, harith1, harith2⟩
    · simp [hilt]
    · intro _; rfl
    · intro h; exact absurd rfl h.1
  | some f =>
    cases downloadOk with
    | false =>
      refine ⟨{ s with infos := s.infos.set w.appDeployInfo (updatePplnWorkerPhaseInfo info
          PhaseDownload (int32Add info.PhaseInfo.RetryCount 1) AppPkgDownloadPending) },
        updatePplnWorkerPhaseInfo info PhaseDownload
        (int32Add info.PhaseInfo.RetryCount 1) AppPkgDownloadPending,
        by simp only [Download, hw, hinfo, hwt, if_true], ?_, ?_, ?_, harith1, harith2⟩
      · simp [hilt]
      · intro _; rfl
      · intro h; cases h.2
    | true =>
      refine ⟨{ s with infos := s.infos.set w.appDeployInfo (updatePplnWorkerPhaseInfo info
          PhaseDownload 0 AppPkgDownloadComplete) },
        updatePplnWorkerPhaseInfo info PhaseDownload 0 AppPkgDownloadComplete,
        by simp [Download, hw, hinfo, hwt], ?_, ?_, ?_, harith1, harith2⟩
      · simp [hilt]
      · intro h
        rcases h with h | h
        · cases h
        · cases h
      · intro _; rfl

theorem Download_outcome_witness :
    (exScheduler 100).s.workers[0]? = some (exDownloadWorker 0)
      ∧ (exScheduler 100).s.infos[(exDownloadWorker 0).appDeployInfo]? = some (exPendingApp 10 0)
      ∧ (exDownloadWorker 0).waiter.isSome
      ∧ ∃ s1 info1, Download (exScheduler 100).s 1 0 none true = some (s1, uint64Sub 1 1)
          ∧ s1.infos[(exDownloadWorker 0).appDeployInfo]? = some info1
          ∧ (((none : Option String) = none ∨ true = false) → info1.PhaseInfo
              = { Phase := PhaseDownload, Status := AppPkgDownloadPending,
                  RetryCount := int32Add (exPendingApp 10 0).PhaseInfo.RetryCount 1 })
          ∧ (((none : Option String) ≠ none ∧ true = true) → info1.PhaseInfo
              = { Phase := PhaseDownload, Status := AppPkgDownloadComplete, RetryCount := 0 })
          ∧ ((-2147483648 ≤ (exPendingApp 10 0).PhaseInfo.RetryCount
                ∧ (exPendingApp 10 0).PhaseInfo.RetryCount < 2147483647) →
              int32Add (exPendingApp 10 0).PhaseInfo.RetryCount 1
                = (exPendingApp 10 0).PhaseInfo.RetryCount + 1)
          ∧ ((0 < 1 ∧ 1 < 18446744073709551616) → uint64Sub 1 1 = 1 - 1) :=
  ⟨by decide, by decide, by decide,
    Download_outcome (exScheduler 100).s 1 0 (exDownloadWorker 0) (exPendingApp 10 0) none true
      (by decide) (by decide) (by decide)⟩

/-- C14 at its failing input: with 15 bytes available and three packages of 10 bytes each,
three turns of the download dispatcher admit all three workers: the second and the third
are admitted with less space than their size, nothing is requeued, and availableDiskSpace
wraps around to 2^64 - 15. -/
theorem scheduleDownloads_admits_beyond_capacity :
    (((scheduleDownloadsStep "/opt/splunk/appframework" 5 (exScheduler 15) 0 false "local" true).bind
        (fun d => scheduleDownloadsStep "/opt/splunk/appframework" 5 d 1 false "local" true)).bind
        (fun d => scheduleDownloadsStep "/opt/splunk/appframework" 5 d 2 false "local" true)).map
      (fun d => (d.started.map Prod.fst, d.requeued, d.s.ppln.availableDiskSpace))
      = some ([0, 1, 2], [], 18446744073709551601) := by
  decide

/-- C15 at its failing input: with maxWorkers = 1 two turns of the download dispatcher admit
two workers before any download task exits, so that activeWorkers is 2. -/
theorem scheduleDownloads_exceeds_cap :
    ((scheduleDownloadsStep "/opt/splunk/appframework" 1 (exScheduler 1000) 0 false "local" true).bind
        (fun d => scheduleDownloadsStep "/opt/splunk/appframework" 1 d 1 false "local" true)).map
      (fun d => (d.activeWorkers, d.started.map Prod.fst))
      = some (2, [0, 1]) := by
  decide

/-- C16 at its failing input: for a worker whose package is already downloaded the download
dispatcher still debits availableDiskSpace, increments activeWorkers and starts a download
task; in general the result of isAppAlreadyDownloaded does not change the turn. -/
theorem scheduleDownloads_ignores_already_downloaded :
    (scheduleDownloadsStep "/opt/splunk/appframework" 5 (exScheduler 1000) 0 true "local" true).map
        (fun d => (d.s.ppln.availableDiskSpace, d.activeWorkers, d.started.map Prod.fst))
      = some (990, 1, [0])
    ∧ ∀ (stagingRoot : String) (maxWorkers : Nat) (d : DownloadScheduler) (downloadWorker : Nat)
        (scope : String) (mkdirOk : Bool),
        scheduleDownloadsStep stagingRoot maxWorkers d downloadWorker true scope mkdirOk
          = scheduleDownloadsStep stagingRoot maxWorkers d downloadWorker false scope mkdirOk := by
  refine ⟨by decide, ?_⟩
  intro stagingRoot maxWorkers d downloadWorker scope mkdirOk
  rfl

/-- C19 at its failing input: when getAvailableDiskSpace fails, afwSchedulerEntry returns the
error and leaves the process-wide handle holding the pipeline it created, so that the next
call of initAppInstallPipeline returns that same pipeline; only the clean return resets the
handle to nil. -/
theorem afwSchedulerEntry_setup_failure_keeps_handle (run : AppInstallPipeline → AppInstallPipeline) :
    afwSchedulerEntry none none run = (true, some newAppInstallPipeline)
      ∧ initAppInstallPipeline (afwSchedulerEntry none none run).2
          = (newAppInstallPipeline, some newAppInstallPipeline)
      ∧ ∀ (afwPipeline : Option AppInstallPipeline) (availableDiskSpace : Nat),
          afwSchedulerEntry afwPipeline (some availableDiskSpace) run = (false, none) := by
  refine ⟨rfl, rfl, ?_⟩
  intro afwPipeline availableDiskSpace
  rfl

theorem podCopyLoop_eq_walkQueue (maxRetry : Int) (q : List Nat) (slots : Nat) (s : State)
    (sent : List Nat) :
    podCopyLoop maxRetry q slots s sent
      = (walkQueue (podCopyBody maxRetry) q { s := s, slots := slots, sent := sent }).map
          (fun r => (r.1.s, r.1.sent)) := by
  induction q generalizing slots s sent with
  | nil => rfl
  | cons b rest ih =>
    rw [walkQueue, podCopyLoop]
    simp only [podCopyBody]
    cases hw : s.workers[b]? with
    | none => simp
    | some w =>
      cases hinfo : s.infos[w.appDeployInfo]? with
      | none => simp [hinfo]
      | some info =>
        simp only [hinfo]
        split_ifs with h1 h2 h3
        · cases slots with
          | zero => simp
          | succ n => simp [ih]
        · cases hcfg : w.afwConfig with
          | none => simp
          | some afwConfig =>
            simp only []
            cases hsrc : getAppSrcSpec afwConfig.AppSources w.appSrcName with
            | none => simp [ih]
            | some appSrc =>
              simp only []
              split_ifs with h4
              · cases htr : TransitionWorkerPhase s b PhasePodCopy PhaseInstall with
                | none => simp
                | some s1 => simp [ih]
              · simp [ih]
        · cases hdel : deleteWorkerFromPipelinePhase s.ppln info.PhaseInfo.Phase b with
          | none => simp [hdel]
          | some r => simp [hdel, ih]
        · simp [ih]

theorem phaseOfWorker_eq_some (s : State) (a : Nat) (P : AppPhaseType) :
    phaseOfWorker s a = some P ↔
      ∃ w info, s.workers[a]? = some w ∧ s.infos[w.appDeployInfo]? = some info
        ∧ info.PhaseInfo.Phase = P := by
  unfold phaseOfWorker
  constructor
  · intro h
    cases hw : s.workers[a]? with
    | none => simp [hw] at h
    | some w =>
      cases hi : s.infos[w.appDeployInfo]? with
      | none => simp [hw, hi] at h
      | some info =>
        simp [hw, hi] at h
        exact ⟨w, info, rfl, hi, h⟩
  · rintro ⟨w, info, hw, hi, hP⟩
    simp [hw, hi, hP]

theorem seedPhase_eq_phase (maxRetry : Int) (d : AppDeploymentInfo)
    (h : seedPhase maxRetry d ≠ AppPhaseType.unset) : seedPhase maxRetry d = d.PhaseInfo.Phase := by
  unfold seedPhase at h ⊢
  split_ifs with h1 h2 h3
  · exact h1.1.symm
  · exact h2.1.symm
  · exact h3.1.symm
  · simp [h1, h2, h3] at h

theorem getElem?_append_of_some {α : Type} (l l2 : List α) (i : Nat) (x : α)
    (h : l[i]? = some x) : (l ++ l2)[i]? = some x := by
  have hlt : i < l.length := (List.getElem?_eq_some_iff.mp h).1
  rw [List.getElem?_append_left hlt]
  exact h

theorem seedEntry_agreement (maxRetry : Int) (client : ControllerClient) (cr : MetaObject)
    (cfg : AppFrameworkSpec) (appSrcName : String) (entry : AppDeploymentInfo)
    (s : State) (cl : List Nat) (hagree : PhaseQueueAgreement s)
    (hdl : (s.ppln.pplnPhases PhaseDownload).isSome)
    (hpc : (s.ppln.pplnPhases PhasePodCopy).isSome)
    (hin : (s.ppln.pplnPhases PhaseInstall).isSome) :
    ∃ s1 cl1, seedEntry maxRetry client cr cfg appSrcName entry (s, cl) = some (s1, cl1)
      ∧ (∀ P, (s1.ppln.pplnPhases P).isSome = (s.ppln.pplnPhases P).isSome)
      ∧ PhaseQueueAgreement s1 := by
  have hframe : ∀ (ws : List PipelineWorker) (ppln : AppInstallPipeline) (a : Nat) (P : AppPhaseType),
      phaseOfWorker s a = some P →
      phaseOfWorker { workers := s.workers ++ ws, infos := s.infos ++ [entry], ppln := ppln } a
        = some P := by
    intro ws ppln a P h
    obtain ⟨w, info, hw, hi, hP⟩ := (phaseOfWorker_eq_some s a P).mp h
    exact (phaseOfWorker_eq_some _ a P).mpr
      ⟨w, info, getElem?_append_of_some _ _ _ _ hw, getElem?_append_of_some _ _ _ _ hi, hP⟩
  have hnoadd : PhaseQueueAgreement { s with infos := s.infos ++ [entry] } := by
    intro P a ha
    have := hframe [] s.ppln a P (hagree P a ha)
    simpa using this
  cases hsrc : getAppSrcSpec cfg.AppSources appSrcName with
  | none =>
    exact ⟨{ s with infos := s.infos ++ [entry] }, cl, by simp only [seedEntry, hsrc],
      fun _ => rfl, hnoadd⟩
  | some appSrc =>
    by_cases hph : seedPhase maxRetry entry = AppPhaseType.unset
    · refine ⟨{ s with infos := s.infos ++ [entry] },
        (if appSrc.Scope = ScopeCluster ∧ entry.DeployStatus ≠ DeployStatusComplete then
          cl ++ [s.infos.length] else cl), ?_, fun _ => rfl, hnoadd⟩
      simp only [seedEntry, hsrc, hph, ne_eq, not_true_eq_false, if_false]
    · have hphase := seedPhase_eq_phase maxRetry entry hph
      have hP : (s.ppln.pplnPhases (seedPhase maxRetry entry)).isSome := by
        cases hc : seedPhase maxRetry entry with
        | PhaseDownload => exact hdl
        | PhasePodCopy => exact hpc
        | PhaseInstall => exact hin
        | unset => exact absurd hc hph
      obtain ⟨ppln1, hadd, hq, ho, hs, _⟩ :=
        addWorkers_some s.ppln (seedPhase maxRetry entry) [s.workers.length] hP
      refine ⟨{ workers := s.workers ++ [createPipelineWorker s.infos.length appSrcName
                  (getApplicablePodNameForWorker cr 0) cfg cr
                  (afwGetReleventStatefulsetByKind cr client)],
                infos := s.infos ++ [entry], ppln := ppln1 },
        (if appSrc.Scope = ScopeCluster ∧ entry.DeployStatus ≠ DeployStatusComplete then
          cl ++ [s.infos.length] else cl), ?_, hs, ?_⟩
      · simp only [seedEntry, hsrc, ne_eq, hph, not_false_eq_true, if_true,
          createAndAddPipelineWorker, hadd]
      · intro P a ha
        by_cases hPe : P = seedPhase maxRetry entry
        · subst hPe
          simp only [hq, List.mem_append, List.mem_singleton] at ha
          rcases ha with ha | ha
          · exact hframe _ ppln1 a _ (hagree _ a ha)
          · subst ha
            refine (phaseOfWorker_eq_some _ _ _).mpr
              ⟨createPipelineWorker s.infos.length appSrcName (getApplicablePodNameForWorker cr 0)
                cfg cr (afwGetReleventStatefulsetByKind cr client), entry, ?_, ?_, hphase.symm⟩
            · simp
            · simp [createPipelineWorker]
        · have hqe : ppln1.queue P = s.ppln.queue P := by
            simp [AppInstallPipeline.queue, ho P hPe]
          simp only [hqe] at ha
          exact hframe _ ppln1 a P (hagree P a ha)

theorem seedAppSrc_agreement (maxRetry : Int) (client : ControllerClient) (cr : MetaObject)
    (cfg : AppFrameworkSpec) (appSrcName : String) (entries : List AppDeploymentInfo)
    (s : State) (cl : List Nat) (hagree : PhaseQueueAgreement s)
    (hdl : (s.ppln.pplnPhases PhaseDownload).isSome)
    (hpc : (s.ppln.pplnPhases PhasePodCopy).isSome)
    (hin : (s.ppln.pplnPhases PhaseInstall).isSome) :
    ∃ s1 cl1, seedAppSrc maxRetry client cr cfg appSrcName entries (s, cl) = some (s1, cl1)
      ∧ (∀ P, (s1.ppln.pplnPhases P).isSome = (s.ppln.pplnPhases P).isSome)
      ∧ PhaseQueueAgreement s1 := by
  induction entries generalizing s cl with
  | nil => exact ⟨s, cl, rfl, fun _ => rfl, hagree⟩
  | cons entry rest ih =>
    obtain ⟨s1, cl1, h1, hs1, ha1⟩ :=
      seedEntry_agreement maxRetry client cr cfg appSrcName entry s cl hagree hdl hpc hin
    obtain ⟨s2, cl2, h2, hs2, ha2⟩ := ih s1 cl1 ha1 (by rw [hs1]; exact hdl)
      (by rw [hs1]; exact hpc) (by rw [hs1]; exact hin)
    exact ⟨s2, cl2, by simp only [seedAppSrc, h1, h2], fun P => by rw [hs2, hs1], ha2⟩

theorem seedPipeline_agreement (maxRetry : Int) (client : ControllerClient) (cr : MetaObject)
    (cfg : AppFrameworkSpec) (srcs : List (String × AppSrcDeployInfo))
    (s : State) (cl : List Nat) (hagree : PhaseQueueAgreement s)
    (hdl : (s.ppln.pplnPhases PhaseDownload).isSome)
    (hpc : (s.ppln.pplnPhases PhasePodCopy).isSome)
    (hin : (s.ppln.pplnPhases PhaseInstall).isSome) :
    ∃ s1 cl1, seedPipeline maxRetry client cr cfg srcs (s, cl) = some (s1, cl1)
      ∧ (∀ P, (s1.ppln.pplnPhases P).isSome = (s.ppln.pplnPhases P).isSome)
      ∧ PhaseQueueAgreement s1 := by
  induction srcs generalizing s cl with
  | nil => exact ⟨s, cl, rfl, fun _ => rfl, hagree⟩
  | cons src rest ih =>
    obtain ⟨s1, cl1, h1, hs1, ha1⟩ := seedAppSrc_agreement maxRetry client cr cfg src.1
      src.2.AppDeploymentInfoList s cl hagree hdl hpc hin
    obtain ⟨s2, cl2, h2, hs2, ha2⟩ := ih s1 cl1 ha1 (by rw [hs1]; exact hdl)
      (by rw [hs1]; exact hpc) (by rw [hs1]; exact hin)
    exact ⟨s2, cl2, by simp only [seedPipeline, h1, h2], fun P => by rw [hs2, hs1], ha2⟩

theorem transition_simple_agreement (s : State) (worker : Nat) (cur next : AppPhaseType)
    (w : PipelineWorker) (info : AppDeploymentInfo) (R : Int)
    (hagree : PhaseQueueAgreement s)
    (hw : s.workers[worker]? = some w) (hinfo : s.infos[w.appDeployInfo]? = some info)
    (hrc : replicaCountOf w = some R) (hsimple : R = 1 ∨ cur ≠ PhaseDownload)
    (hcur : (s.ppln.pplnPhases cur).isSome) (hnext : (s.ppln.pplnPhases next).isSome)
    (hne : cur ≠ next)
    (honce : (s.ppln.queue cur).count worker = 1)
    (hshare : ∀ P, ∀ a ∈ s.ppln.queue P, a ≠ worker →
      ∀ w1, s.workers[a]? = some w1 → w1.appDeployInfo ≠ w.appDeployInfo) :
    ∃ s1, TransitionWorkerPhase s worker cur next = some s1 ∧ PhaseQueueAgreement s1 := by
  obtain ⟨s1, ppln1, b, htr, hadd, hdel, hws, hinfos⟩ :=
    transition_simple_unfold s worker cur next w info R hw hinfo hrc hsimple hcur hnext
  obtain ⟨ppln1a, hadd1, hq1, hother1, hsome1, _⟩ := addWorkers_some s.ppln next [worker] hnext
  have e1 : ppln1a = ppln1 := by rw [hadd] at hadd1; exact (Option.some.inj hadd1).symm
  subst e1
  obtain ⟨b2, ppln2, hdel2, _, hperm, hother2, _, _, _⟩ :=
    deleteWorker_some ppln1a cur worker (by rw [hsome1]; exact hcur)
  have e2 : ppln2 = s1.ppln := by
    rw [hdel] at hdel2
    exact (congrArg Prod.snd (Option.some.inj hdel2)).symm
  subst e2
  have hwlt : worker < s.workers.length := (List.getElem?_eq_some_iff.mp hw).1
  have hilt : w.appDeployInfo < s.infos.length := (List.getElem?_eq_some_iff.mp hinfo).1
  have hcurq : ppln1a.queue cur = s.ppln.queue cur := by
    simp [AppInstallPipeline.queue, hother1 cur hne]
  have hmemcur : worker ∈ s.ppln.queue cur := by
    rw [← List.count_pos_iff]; omega
  -- a worker other than the moved one keeps its phase
  have hkeep : ∀ P a, a ∈ s.ppln.queue P → a ≠ worker → phaseOfWorker s1 a = some P := by
    intro P a ha hane
    obtain ⟨w1, info1, hw1, hi1, hP1⟩ := (phaseOfWorker_eq_some s a P).mp (hagree P a ha)
    have hsh := hshare P a ha hane w1 hw1
    refine (phaseOfWorker_eq_some s1 a P).mpr ⟨w1, info1, ?_, ?_, hP1⟩
    · rw [hws, List.getElem?_set_ne (Ne.symm hane)]; exact hw1
    · rw [hinfos, List.getElem?_set_ne (Ne.symm hsh)]; exact hi1
  -- the moved worker has the next phase
  have hmoved : phaseOfWorker s1 worker = some next := by
    refine (phaseOfWorker_eq_some s1 worker next).mpr
      ⟨{ w with isActive := false, waiter := none },
        { info with PhaseInfo := { Phase := next, Status := pendingStatusOf next, RetryCount := 0 } },
        ?_, ?_, rfl⟩
    · rw [hws]; simp [hwlt]
    · rw [hinfos]; simp [hilt]
  refine ⟨s1, htr, ?_⟩
  intro P a ha
  by_cases hPn : P = next
  · subst hPn
    have hq : s1.ppln.queue P = s.ppln.queue P ++ [worker] := by
      have : s1.ppln.queue P = ppln1a.queue P := by
        simp [AppInstallPipeline.queue, hother2 P (Ne.symm hne)]
      rw [this, hq1]
    rw [hq, List.mem_append, List.mem_singleton] at ha
    by_cases hane : a = worker
    · subst hane; exact hmoved
    · rcases ha with ha | ha
      · exact hkeep P a ha hane
      · exact absurd ha hane
  · by_cases hPc : P = cur
    · subst hPc
      have ha2 : a ∈ (s.ppln.queue P).erase worker := by
        have := hperm.mem_iff.mp ha
        rwa [hcurq] at this
      have hane : a ≠ worker := by
        intro h
        subst h
        have hc : ((s.ppln.queue P).erase a).count a = 0 := by
          rw [List.count_erase_self, honce]
        exact (List.count_eq_zero.mp hc) ha2
      exact hkeep P a (List.mem_of_mem_erase ha2) hane
    · have hq : s1.ppln.queue P = s.ppln.queue P := by
        simp [AppInstallPipeline.queue, hother2 P hPc, hother1 P hPn]
      rw [hq] at ha
      have hane : a ≠ worker := by
        intro h
        subst h
        have h1 := hagree P a ha
        have h2 := hagree cur a hmemcur
        rw [h1] at h2
        exact hPc (Option.some.inj h2)
      exact hkeep P a ha hane

/-- C18 (as amended): phase/queue agreement is preserved by the seeding step of
afwSchedulerEntry, and by a simple transition (replica count 1, or current phase not
Download) of a worker that occurs once in the queue of its current phase and shares its
package with no other queued worker. -/
theorem phaseQueueAgreement_preserved (s : State) (hagree : PhaseQueueAgreement s)
    (hdl : (s.ppln.pplnPhases PhaseDownload).isSome)
    (hpc : (s.ppln.pplnPhases PhasePodCopy).isSome)
    (hin : (s.ppln.pplnPhases PhaseInstall).isSome) :
    (∀ (maxRetry : Int) (client : ControllerClient) (cr : MetaObject) (cfg : AppFrameworkSpec)
        (srcs : List (String × AppSrcDeployInfo)) (cl : List Nat),
        ∃ s1 cl1, seedPipeline maxRetry client cr cfg srcs (s, cl) = some (s1, cl1)
          ∧ PhaseQueueAgreement s1)
    ∧ (∀ (worker : Nat) (cur next : AppPhaseType) (w : PipelineWorker) (info : AppDeploymentInfo)
        (R : Int),
        s.workers[worker]? = some w → s.infos[w.appDeployInfo]? = some info →
        replicaCountOf w = some R → (R = 1 ∨ cur ≠ PhaseDownload) →
        (s.ppln.pplnPhases cur).isSome → (s.ppln.pplnPhases next).isSome → cur ≠ next →
        (s.ppln.queue cur).count worker = 1 →
        (∀ P, ∀ a ∈ s.ppln.queue P, a ≠ worker →
          ∀ w1, s.workers[a]? = some w1 → w1.appDeployInfo ≠ w.appDeployInfo) →
        ∃ s1, TransitionWorkerPhase s worker cur next = some s1 ∧ PhaseQueueAgreement s1) := by
  constructor
  · intro maxRetry client cr cfg srcs cl
    obtain ⟨s1, cl1, h, _, ha⟩ :=
      seedPipeline_agreement maxRetry client cr cfg srcs s cl hagree hdl hpc hin
    exact ⟨s1, cl1, h, ha⟩
  · intro worker cur next w info R hw hinfo hrc hsimple hcur hnext hne honce hshare
    exact transition_simple_agreement s worker cur next w info R hagree hw hinfo hrc hsimple
      hcur hnext hne honce hshare

theorem phaseQueueAgreement_preserved_witness :
    PhaseQueueAgreement exNoStatefulSetState
      ∧ (exNoStatefulSetState.ppln.pplnPhases PhaseDownload).isSome
      ∧ (exNoStatefulSetState.ppln.pplnPhases PhasePodCopy).isSome
      ∧ (exNoStatefulSetState.ppln.pplnPhases PhaseInstall).isSome
      ∧ ((∀ (maxRetry : Int) (client : ControllerClient) (cr : MetaObject)
            (cfg : AppFrameworkSpec) (srcs : List (String × AppSrcDeployInfo)) (cl : List Nat),
            ∃ s1 cl1, seedPipeline maxRetry client cr cfg srcs (exNoStatefulSetState, cl)
                = some (s1, cl1)
              ∧ PhaseQueueAgreement s1)
        ∧ (∀ (worker : Nat) (cur next : AppPhaseType) (w : PipelineWorker)
            (info : AppDeploymentInfo) (R : Int),
            exNoStatefulSetState.workers[worker]? = some w →
            exNoStatefulSetState.infos[w.appDeployInfo]? = some info →
            replicaCountOf w = some R → (R = 1 ∨ cur ≠ PhaseDownload) →
            (exNoStatefulSetState.ppln.pplnPhases cur).isSome →
            (exNoStatefulSetState.ppln.pplnPhases next).isSome → cur ≠ next →
            (exNoStatefulSetState.ppln.queue cur).count worker = 1 →
            (∀ P, ∀ a ∈ exNoStatefulSetState.ppln.queue P, a ≠ worker →
              ∀ w1, exNoStatefulSetState.workers[a]? = some w1 →
                w1.appDeployInfo ≠ w.appDeployInfo) →
            ∃ s1, TransitionWorkerPhase exNoStatefulSetState worker cur next = some s1
              ∧ PhaseQueueAgreement s1)) :=
  have hagree : PhaseQueueAgreement exNoStatefulSetState := by
    intro P a ha
    cases P <;>
      simp [exNoStatefulSetState, pipelineOf, AppInstallPipeline.queue] at ha
    subst ha
    rfl
  ⟨hagree, by decide, by decide, by decide,
    phaseQueueAgreement_preserved exNoStatefulSetState hagree (by decide) (by decide) (by decide)⟩

/-- C18 as stated fails: in a state with phase/queue agreement, the Standalone fan-out that
the download phase manager triggers by TransitionWorkerPhase from Download to PodCopy puts
copies into the PodCopy queue whose package still has PhaseInfo.Phase = Download. -/
theorem phaseQueueAgreement_counterexample :
    PhaseQueueAgreement (exDownloadState "Standalone" (some 5) [])
      ∧ (TransitionWorkerPhase (exDownloadState "Standalone" (some 5) []) 0
            PhaseDownload PhasePodCopy).map
          (fun s1 => (s1.ppln.queue PhasePodCopy, phaseOfWorker s1 1))
          = some ([1, 2, 3, 4, 5], some PhaseDownload)
      ∧ ∃ s1, TransitionWorkerPhase (exDownloadState "Standalone" (some 5) []) 0
            PhaseDownload PhasePodCopy = some s1
          ∧ ¬ PhaseQueueAgreement s1 := by
  have hev : (TransitionWorkerPhase (exDownloadState "Standalone" (some 5) []) 0
            PhaseDownload PhasePodCopy).map
          (fun s1 => (s1.ppln.queue PhasePodCopy, phaseOfWorker s1 1))
          = some ([1, 2, 3, 4, 5], some PhaseDownload) := by decide
  refine ⟨?_, hev, ?_⟩
  · intro P a ha
    cases P <;>
      simp [exDownloadState, pipelineOf, AppInstallPipeline.queue] at ha
    subst ha
    rfl
  · cases h : TransitionWorkerPhase (exDownloadState "Standalone" (some 5) []) 0
        PhaseDownload PhasePodCopy with
    | none => simp [h] at hev
    | some s1 =>
      simp only [h, Option.map_some', Option.some.injEq, Prod.mk.injEq] at hev
      refine ⟨s1, rfl, fun hag => ?_⟩
      have h1 := hag PhasePodCopy 1 (by rw [hev.1]; decide)
      rw [hev.2] at h1
      cases h1

theorem sameJob_refl (w : PipelineWorker) : SameJob w w := ⟨rfl, rfl, rfl, rfl, rfl⟩

theorem sameJob_trans {w w1 w2 : PipelineWorker} (h1 : SameJob w w1) (h2 : SameJob w1 w2) :
    SameJob w w2 :=
  ⟨h2.1.trans h1.1, h2.2.1.trans h1.2.1, h2.2.2.1.trans h1.2.2.1, h2.2.2.2.1.trans h1.2.2.2.1,
    h2.2.2.2.2.trans h1.2.2.2.2⟩

theorem sameJob_replicaCount {w w1 : PipelineWorker} (h : SameJob w w1) :
    replicaCountOf w1 = replicaCountOf w := by
  unfold replicaCountOf
  rw [h.2.2.2.2]

theorem sameJob_fanOutCopy (w : PipelineWorker) (i : Nat) : SameJob w (fanOutCopy w i) :=
  ⟨rfl, rfl, rfl, rfl, rfl⟩

theorem addWorkers_queues (ppln : AppInstallPipeline) (P : AppPhaseType) (ws : List Nat)
    (hp : (ppln.pplnPhases P).isSome) :
    ∃ ppln1, addWorkersToPipelinePhase ppln P ws = some ppln1
      ∧ (∀ Q, (ppln1.pplnPhases Q).isSome = (ppln.pplnPhases Q).isSome)
      ∧ ppln1.queue P = ppln.queue P ++ ws
      ∧ (∀ Q, Q ≠ P → ppln1.queue Q = ppln.queue Q) := by
  obtain ⟨ppln1, hadd, hq, ho, hs, _⟩ := addWorkers_some ppln P ws hp
  refine ⟨ppln1, hadd, hs, hq, ?_⟩
  intro Q hQ
  simp [AppInstallPipeline.queue, ho Q hQ]

theorem deleteWorker_queues (ppln : AppInstallPipeline) (P : AppPhaseType) (b : Nat)
    (hp : (ppln.pplnPhases P).isSome) :
    ∃ r, deleteWorkerFromPipelinePhase ppln P b = some r
      ∧ (∀ Q, (r.2.pplnPhases Q).isSome = (ppln.pplnPhases Q).isSome)
      ∧ (∀ Q c, c ≠ b → (r.2.queue Q).count c = (ppln.queue Q).count c)
      ∧ (r.2.queue P).count b = (ppln.queue P).count b - 1
      ∧ (∀ Q, Q ≠ P → r.2.queue Q = ppln.queue Q)
      ∧ (∀ Q a, a ∈ r.2.queue Q → a ∈ ppln.queue Q) := by
  obtain ⟨bb, ppln1, hdel, _, hperm, ho, hs, _, _⟩ := deleteWorker_some ppln P b hp
  have hoq : ∀ Q, Q ≠ P → ppln1.queue Q = ppln.queue Q := by
    intro Q hQ
    simp [AppInstallPipeline.queue, ho Q hQ]
  refine ⟨(bb, ppln1), hdel, hs, ?_, ?_, hoq, ?_⟩
  · intro Q c hc
    by_cases hQ : Q = P
    · subst hQ
      show (ppln1.queue Q).count c = _
      rw [hperm.count_eq, List.count_erase_of_ne hc]
    · show (ppln1.queue Q).count c = _
      rw [hoq Q hQ]
  · show (ppln1.queue P).count b = _
    rw [hperm.count_eq, List.count_erase_self]
  · intro Q a ha
    by_cases hQ : Q = P
    · subst hQ
      exact List.mem_of_mem_erase (hperm.mem_iff.mp ha)
    · have : ppln1.queue Q = ppln.queue Q := hoq Q hQ
      rw [← this]; exact ha

theorem set_worker_lookup (ws : List PipelineWorker) (b : Nat) (w w1 : PipelineWorker)
    (hw : ws[b]? = some w) (hjob : SameJob w w1) :
    (∀ (a : Nat) (w2 : PipelineWorker), ws[a]? = some w2 →
        ∃ w3, (ws.set b w1)[a]? = some w3 ∧ SameJob w2 w3)
      ∧ (∀ w3 ∈ ws.set b w1, ∃ w2 ∈ ws, SameJob w2 w3) := by
  have hblt : b < ws.length := (List.getElem?_eq_some_iff.mp hw).1
  constructor
  · intro a w2 ha
    by_cases hab : a = b
    · subst hab
      rw [hw] at ha
      cases ha
      exact ⟨w1, by simp [hblt], hjob⟩
    · exact ⟨w2, by rw [List.getElem?_set_ne (Ne.symm hab)]; exact ha, sameJob_refl w2⟩
  · intro w3 hw3
    rcases List.mem_or_eq_of_mem_set hw3 with h | h
    · exact ⟨w3, h, sameJob_refl w3⟩
    · subst h
      exact ⟨w, by obtain ⟨h1, h2⟩ := List.getElem?_eq_some_iff.mp hw; rw [← h2]; exact List.getElem_mem h1, hjob⟩

theorem fanOutResume_bounds (w : PipelineWorker) (base : Nat) (aux : List PhaseInfo) (i : Nat) :
    (∀ x ∈ (fanOutResume w base aux i).2.1, base ≤ x ∧ x < base + i + aux.length)
      ∧ (∀ x ∈ (fanOutResume w base aux i).2.2, base ≤ x ∧ x < base + i + aux.length) := by
  induction aux generalizing i with
  | nil => simp [fanOutResume]
  | cons a rest ih =>
    obtain ⟨h1, h2⟩ := ih (i + 1)
    simp only [fanOutResume]
    split
    · refine ⟨fun x hx => ?_, fun x hx => ?_⟩
      · have := h1 x hx
        simp only [List.length_cons]; omega
      · simp only [List.mem_cons] at hx
        simp only [List.length_cons]
        rcases hx with hx | hx
        · omega
        · have := h2 x hx
          omega
    · refine ⟨fun x hx => ?_, fun x hx => ?_⟩
      · simp only [List.mem_cons] at hx
        simp only [List.length_cons]
        rcases hx with hx | hx
        · omega
        · have := h1 x hx
          omega
      · have := h2 x hx
        simp only [List.length_cons]; omega

theorem fanOut_alloc (s : State) (w : PipelineWorker) (info : AppDeploymentInfo) (R : Int)
    (hR : 0 ≤ R) :
    ∃ aux copies cw iw,
      (if info.AuxPhaseInfo.length = 0 then
          if R < 0 then none
          else
            let r := fanOutFresh w R.toNat 0
            some (r.1, r.2, (List.range R.toNat).map (fun i => s.workers.length + i), [])
        else
          let r := fanOutResume w s.workers.length info.AuxPhaseInfo 0
          some (info.AuxPhaseInfo, r.1, r.2.1, r.2.2))
        = some (aux, copies, cw, iw)
      ∧ (∀ c ∈ copies, SameJob w c)
      ∧ (∀ x ∈ cw, s.workers.length ≤ x ∧ x < s.workers.length + copies.length)
      ∧ (∀ x ∈ iw, s.workers.length ≤ x ∧ x < s.workers.length + copies.length) := by
  by_cases haux : info.AuxPhaseInfo.length = 0
  · refine ⟨(fanOutFresh w R.toNat 0).1, (fanOutFresh w R.toNat 0).2,
      (List.range R.toNat).map (fun i => s.workers.length + i), [], ?_, ?_, ?_, ?_⟩
    · simp [haux, not_lt.mpr hR]
    · intro c hc
      rw [fanOutFresh_snd, List.mem_map] at hc
      obtain ⟨i, _, rfl⟩ := hc
      exact sameJob_fanOutCopy w i
    · intro x hx
      rw [List.mem_map] at hx
      obtain ⟨i, hi, rfl⟩ := hx
      rw [List.mem_range] at hi
      rw [fanOutFresh_snd]
      simp only [List.length_map, List.length_range']
      omega
    · intro x hx; cases hx
  · refine ⟨info.AuxPhaseInfo, (fanOutResume w s.workers.length info.AuxPhaseInfo 0).1,
      (fanOutResume w s.workers.length info.AuxPhaseInfo 0).2.1,
      (fanOutResume w s.workers.length info.AuxPhaseInfo 0).2.2, ?_, ?_, ?_, ?_⟩
    · simp [haux]
    · intro c hc
      rw [fanOutResume_copies, List.mem_map] at hc
      obtain ⟨i, _, rfl⟩ := hc
      exact sameJob_fanOutCopy w i
    · intro x hx
      have := (fanOutResume_bounds w s.workers.length info.AuxPhaseInfo 0).1 x hx
      rw [fanOutResume_copies]
      simp only [List.length_map, List.length_range']
      omega
    · intro x hx
      have := (fanOutResume_bounds w s.workers.length info.AuxPhaseInfo 0).2 x hx
      rw [fanOutResume_copies]
      simp only [List.length_map, List.length_range']
      omega

theorem count_append_fresh (q ws : List Nat) (c n : Nat) (hc : c < n)
    (hws : ∀ x ∈ ws, n ≤ x) : (q ++ ws).count c = q.count c := by
  rw [List.count_append]
  have : ws.count c = 0 := by
    rw [List.count_eq_zero]
    intro hmem
    have := hws c hmem
    omega
  omega

theorem installedInfo_phase (w : PipelineWorker) (info : AppDeploymentInfo)
    (h : info.PhaseInfo.Phase ≠ AppPhaseType.unset) :
    (installedInfo w info).PhaseInfo.Phase ≠ AppPhaseType.unset := by
  unfold installedInfo
  simp only []
  split
  · simp
  · exact h

theorem errorStatus_ne_complete (P : AppPhaseType) (hP : P ≠ AppPhaseType.unset) :
    errorStatusOf P ≠ completeStatusOf P := by
  cases P with
  | PhaseDownload => decide
  | PhasePodCopy => decide
  | PhaseInstall => decide
  | unset => exact absurd rfl hP

/-- C11 (as stated, refuted): for a Standalone CR with two replicas whose package has
PhaseInfo Install/InstallComplete while the pod copy is still pending on replica 1, a pass of
the install phase manager sets DeployStatus to complete, leaves PhaseInfo at
Install/InstallComplete and removes the worker from the Install queue, although not every
AuxPhaseInfo entry is Install/InstallComplete. -/
theorem install_pass_reports_partly_installed :
    (exPartlyInstalledState.workers.map (fun w => (w.cr.Kind, replicaCountOf w)))
        = [("Standalone", some 2)]
      ∧ (exPartlyInstalledState.infos.map
          (fun d => (d.DeployStatus,
            isAppInstallationCompleteOnStandaloneReplicas d.AuxPhaseInfo)))
        = [(DeployStatusPending, false)]
      ∧ (installPhaseManagerPass 3 exPartlyInstalledState 1).map
          (fun r => (r.1.infos.map (fun d => (d.DeployStatus, d.PhaseInfo,
              isAppInstallationCompleteOnStandaloneReplicas d.AuxPhaseInfo)),
            r.1.ppln.queue PhaseInstall, r.2))
        = some ([(DeployStatusComplete,
              { Phase := PhaseInstall, Status := AppPkgInstallComplete, RetryCount := 0 },
              false)], [], []) := by
  refine ⟨by decide, by decide, by decide⟩

theorem splitSlash_component (e : List Char) (he : '/' ∉ e) : splitSlash e = [e] := by
  induction e with
  | nil => rfl
  | cons c cs ih =>
    have hc : c ≠ '/' := fun h => he (by simp [h])
    have hcs : '/' ∉ cs := fun h => he (List.mem_cons_of_mem _ h)
    simp [splitSlash, hc, ih hcs]

theorem splitSlash_append (e rest : List Char) (he : '/' ∉ e) :
    splitSlash (e ++ '/' :: rest) = e :: splitSlash rest := by
  induction e with
  | nil => simp [splitSlash]
  | cons c cs ih =>
    have hc : c ≠ '/' := fun h => he (by simp [h])
    have hcs : '/' ∉ cs := fun h => he (List.mem_cons_of_mem _ h)
    simp [splitSlash, hc, ih hcs]

theorem intercalate_cons_cons (sep e e2 : List Char) (es : List (List Char)) :
    List.intercalate sep (e :: e2 :: es) = e ++ sep ++ List.intercalate sep (e2 :: es) := by
  simp [List.intercalate, List.intersperse]

theorem intercalate_singleton (sep e : List Char) : List.intercalate sep [e] = e := by
  simp [List.intercalate, List.intersperse]

theorem intercalate_append (sep : List Char) (A B : List (List Char)) (hA : A ≠ [])
    (hB : B ≠ []) :
    List.intercalate sep (A ++ B) = List.intercalate sep A ++ sep ++ List.intercalate sep B := by
  induction A with
  | nil => exact absurd rfl hA
  | cons a as ih =>
    cases as with
    | nil =>
      cases B with
      | nil => exact absurd rfl hB
      | cons b bs => simp [intercalate_cons_cons, intercalate_singleton]
    | cons a2 as2 =>
      have := ih (by simp)
      simp only [List.cons_append] at this ⊢
      rw [intercalate_cons_cons, this, intercalate_cons_cons]
      simp

theorem splitSlash_intercalate (elems : List (List Char)) (hne : elems ≠ [])
    (h : ∀ e ∈ elems, '/' ∉ e) : splitSlash (List.intercalate ['/'] elems) = elems := by
  induction elems with
  | nil => exact absurd rfl hne
  | cons e es ih =>
    cases es with
    | nil => rw [intercalate_singleton]; exact splitSlash_component e (h e (by simp))
    | cons e2 es2 =>
      rw [intercalate_cons_cons, List.append_assoc, List.singleton_append,
        splitSlash_append e _ (h e (by simp)), ih (by simp) (fun x hx => h x (by simp [hx]))]

theorem cleanElems_components (rooted : Bool) (elems stack : List (List Char))
    (h : ∀ e ∈ elems, PathComponent e) :
    cleanElems rooted elems stack = stack.reverse ++ elems := by
  induction elems generalizing stack with
  | nil => simp [cleanElems]
  | cons e es ih =>
    obtain ⟨h1, _, h3, h4⟩ := h e (by simp)
    simp only [cleanElems, h1, h3, h4, or_self, if_false]
    rw [ih (e :: stack) (fun x hx => h x (by simp [hx]))]
    simp

theorem filepathClean_absolute (elems : List (List Char)) (hne : elems ≠ [])
    (h : ∀ e ∈ elems, PathComponent e) :
    filepathClean ('/' :: List.intercalate ['/'] elems) = '/' :: List.intercalate ['/'] elems := by
  have hsplit : splitSlash ('/' :: List.intercalate ['/'] elems) = [] :: elems := by
    rw [splitSlash]
    simp only [if_true]
    rw [splitSlash_intercalate elems hne (fun e he => (h e he).2.1)]
  unfold filepathClean
  simp only [hsplit, List.head?_cons, decide_True, if_true]
  simp only [cleanElems, true_or, if_true]
  rw [cleanElems_components true elems [] h]
  simp

/-- C22: isAppInstallationCompleteOnStandaloneReplicas returns true exactly when every entry
of the AuxPhaseInfo vector has Phase Install and Status InstallComplete; on the vector of its
test (one entry in Download) it returns false, and on that vector with every entry set to
Install/InstallComplete it returns true. -/
theorem isAppInstallationComplete_iff (auxPhaseInfo : List PhaseInfo) :
    (isAppInstallationCompleteOnStandaloneReplicas auxPhaseInfo = true
        ↔ ∀ phaseInfo ∈ auxPhaseInfo,
            phaseInfo.Phase = PhaseInstall ∧ phaseInfo.Status = AppPkgInstallComplete)
      ∧ isAppInstallationCompleteOnStandaloneReplicas exTestAux = false
      ∧ isAppInstallationCompleteOnStandaloneReplicas
          (exTestAux.map (fun phaseInfo =>
            { phaseInfo with Phase := PhaseInstall, Status := AppPkgInstallComplete })) = true := by
  refine ⟨?_, by decide, by decide⟩
  induction auxPhaseInfo with
  | nil => simp [isAppInstallationCompleteOnStandaloneReplicas]
  | cons p rest ih =>
    by_cases h : p.Phase = PhaseInstall ∧ p.Status = AppPkgInstallComplete
    · simp [isAppInstallationCompleteOnStandaloneReplicas, h.1, h.2, ih]
    · have h2 : p.Phase ≠ PhaseInstall ∨ p.Status ≠ AppPkgInstallComplete := by
        by_cases hp : p.Phase = PhaseInstall
        · exact Or.inr (fun hs => h ⟨hp, hs⟩)
        · exact Or.inl hp
      simp only [isAppInstallationCompleteOnStandaloneReplicas, if_pos h2, List.mem_cons,
        forall_eq_or_imp]
      constructor
      · intro hf; cases hf
      · intro hall; exact absurd hall.1 h

/-- C23: initAppInstallPipeline with a non-nil handle returns the pipeline of the handle and
leaves the handle as it is; with a nil handle it returns a pipeline that has exactly the
phases Download, PodCopy and Install, each with an empty queue, and stores it in the handle;
a second call returns what the first one returned. -/
theorem initAppInstallPipeline_idempotent :
    (∀ ppln : AppInstallPipeline, initAppInstallPipeline (some ppln) = (ppln, some ppln))
      ∧ (initAppInstallPipeline none).2 = some (initAppInstallPipeline none).1
      ∧ (∀ P : AppPhaseType, ((initAppInstallPipeline none).1.pplnPhases P).isSome = true
          ↔ (P = PhaseDownload ∨ P = PhasePodCopy ∨ P = PhaseInstall))
      ∧ (∀ P : AppPhaseType, (initAppInstallPipeline none).1.queue P = [])
      ∧ (∀ afwPipeline : Option AppInstallPipeline,
          initAppInstallPipeline (initAppInstallPipeline afwPipeline).2
            = initAppInstallPipeline afwPipeline) := by
  refine ⟨fun _ => rfl, rfl, ?_, ?_, ?_⟩
  · intro P
    cases P <;> decide
  · intro P
    cases P <;> rfl
  · intro afwPipeline
    cases afwPipeline <;> rfl

theorem isPipelineEmpty_iff (ppln : AppInstallPipeline)
    (hcreated : ppln.pplnPhases AppPhaseType.unset = none) :
    isPipelineEmpty (some ppln.pplnPhases) = true
      ↔ (ppln.queue PhaseDownload = [] ∧ ppln.queue PhasePodCopy = []
        ∧ ppln.queue PhaseInstall = []) := by
  simp only [isPipelineEmpty, List.all_cons, List.all_nil, hcreated, Bool.and_true,
    Bool.and_eq_true, AppInstallPipeline.queue]
  cases ppln.pplnPhases PhaseDownload <;> cases ppln.pplnPhases PhasePodCopy <;>
    cases ppln.pplnPhases PhaseInstall <;> simp [List.length_pos, List.length_eq_zero]

/-- C24: for a pipeline that holds no phase besides Download, PodCopy and Install (as every
pipeline created by initAppInstallPipeline does), isPipelineEmpty returns true exactly when
the three queues are empty; it returns true on the pipeline just created, and false after a
worker is added to any of its phases. -/
theorem isPipelineEmpty_spec (ppln : AppInstallPipeline)
    (hcreated : ppln.pplnPhases AppPhaseType.unset = none) :
    (isPipelineEmpty (some ppln.pplnPhases) = true
        ↔ (ppln.queue PhaseDownload = [] ∧ ppln.queue PhasePodCopy = []
          ∧ ppln.queue PhaseInstall = []))
      ∧ isPipelineEmpty (some (initAppInstallPipeline none).1.pplnPhases) = true
      ∧ ∀ (P : AppPhaseType) (worker : Nat), (ppln.pplnPhases P).isSome →
          ∃ ppln1, addWorkersToPipelinePhase ppln P [worker] = some ppln1
            ∧ isPipelineEmpty (some ppln1.pplnPhases) = false := by
  refine ⟨isPipelineEmpty_iff ppln hcreated, by decide, ?_⟩
  intro P worker hP
  obtain ⟨ppln1, hadd, hq, ho, _, _⟩ := addWorkers_some ppln P [worker] hP
  refine ⟨ppln1, hadd, ?_⟩
  have hPne : P ≠ AppPhaseType.unset := by
    intro h; subst h; rw [hcreated] at hP; cases hP
  have hc1 : ppln1.pplnPhases AppPhaseType.unset = none := by
    rw [ho _ (Ne.symm hPne)]; exact hcreated
  cases hres : isPipelineEmpty (some ppln1.pplnPhases) with
  | false => rfl
  | true =>
    have h3 := (isPipelineEmpty_iff ppln1 hc1).mp hres
    have hne : ppln1.queue P ≠ [] := by rw [hq]; simp
    cases P with
    | PhaseDownload => exact absurd h3.1 hne
    | PhasePodCopy => exact absurd h3.2.1 hne
    | PhaseInstall => exact absurd h3.2.2 hne
    | unset => exact absurd rfl hPne

theorem isPipelineEmpty_spec_witness :
    (pipelineOf [] [7] []).pplnPhases AppPhaseType.unset = none
      ∧ ((isPipelineEmpty (some (pipelineOf [] [7] []).pplnPhases) = true
          ↔ ((pipelineOf [] [7] []).queue PhaseDownload = []
            ∧ (pipelineOf [] [7] []).queue PhasePodCopy = []
            ∧ (pipelineOf [] [7] []).queue PhaseInstall = []))
        ∧ isPipelineEmpty (some (initAppInstallPipeline none).1.pplnPhases) = true
        ∧ ∀ (P : AppPhaseType) (worker : Nat), ((pipelineOf [] [7] []).pplnPhases P).isSome →
            ∃ ppln1, addWorkersToPipelinePhase (pipelineOf [] [7] []) P [worker] = some ppln1
              ∧ isPipelineEmpty (some ppln1.pplnPhases) = false) :=
  ⟨rfl, isPipelineEmpty_spec (pipelineOf [] [7] []) rfl⟩

/-- C30: when a worker is admitted by the download dispatcher (activeWorkers is at most
maxWorkers and the disk check lets it pass) and createAppDownloadDir fails, no download task
is started and nothing is requeued, yet activeWorkers is incremented by one and
availableDiskSpace is debited by the Size of the package (in uint64 arithmetic), and the
package is left with PhaseInfo = (Download, DownloadPending, previous RetryCount + 1, in
int32 arithmetic); on the dispatcher at its start this leaves activeWorkers = 1 with no
download task running. -/
theorem scheduleDownloads_mkdir_failure (stagingRoot : String) (maxWorkers : Nat)
    (d : DownloadScheduler) (downloadWorker : Nat) (w : PipelineWorker)
    (info : AppDeploymentInfo) (alreadyDownloaded : Bool) (scope : String)
    (hcap : d.activeWorkers ≤ maxWorkers)
    (hw : d.s.workers[downloadWorker]? = some w)
    (hinfo : d.s.infos[w.appDeployInfo]? = some info)
    (hspace : ¬ uint64Sub d.s.ppln.availableDiskSpace info.Size ≤ 0)
    (hwaiter : w.waiter.isSome) :
    (∃ d1 info1, scheduleDownloadsStep stagingRoot maxWorkers d downloadWorker alreadyDownloaded
          scope false = some d1
        ∧ d1.started = d.started
        ∧ d1.requeued = d.requeued
        ∧ d1.activeWorkers = uint64Add d.activeWorkers 1
        ∧ d1.s.ppln.availableDiskSpace = uint64Sub d.s.ppln.availableDiskSpace info.Size
        ∧ d1.s.infos[w.appDeployInfo]? = some info1
        ∧ info1.PhaseInfo
          = { Phase := PhaseDownload, Status := AppPkgDownloadPending,
              RetryCount := int32Add info.PhaseInfo.RetryCount 1 })
      ∧ (d.activeWorkers + 1 < 18446744073709551616 →
          uint64Add d.activeWorkers 1 = d.activeWorkers + 1)
      ∧ ((info.Size ≤ d.s.ppln.availableDiskSpace
            ∧ d.s.ppln.availableDiskSpace < 18446744073709551616) →
          uint64Sub d.s.ppln.availableDiskSpace info.Size
            = d.s.ppln.availableDiskSpace - info.Size)
      ∧ ((-2147483648 ≤ info.PhaseInfo.RetryCount ∧ info.PhaseInfo.RetryCount < 2147483647) →
          int32Add info.PhaseInfo.RetryCount 1 = info.PhaseInfo.RetryCount + 1)
      ∧ (scheduleDownloadsStep "/opt/splunk/appframework" 5 (exScheduler 1000) 0 false "local"
            false).map
          (fun d1 => (d1.activeWorkers, d1.started.length, d1.s.ppln.availableDiskSpace,
            d1.s.infos.map (fun i => i.PhaseInfo.RetryCount)))
        = some (1, 0, 990, [1, 0, 0]) := by
  obtain ⟨wt, hwt⟩ := Option.isSome_iff_exists.mp hwaiter
  have hilt : w.appDeployInfo < d.s.infos.length := (List.getElem?_eq_some_iff.mp hinfo).1
  refine ⟨?_, ?_, ?_, ?_, by decide⟩
  · let info1 := updatePplnWorkerPhaseInfo info PhaseDownload info.PhaseInfo.RetryCount
      AppPkgDownloadInProgress
    let info2 : AppDeploymentInfo :=
      { info1 with PhaseInfo := { info1.PhaseInfo with Status := AppPkgDownloadError } }
    let info3 := updatePplnWorkerPhaseInfo info2 PhaseDownload
      (int32Add info2.PhaseInfo.RetryCount 1) AppPkgDownloadPending
    let ppln1 : AppInstallPipeline :=
      { d.s.ppln with
        availableDiskSpace := uint64Sub d.s.ppln.availableDiskSpace info.Size }
    let s1 : State := { d.s with infos := d.s.infos.set w.appDeployInfo info3, ppln := ppln1 }
    refine ⟨{ d with s := s1, activeWorkers := uint64Add d.activeWorkers 1 }, info3, ?_,
      rfl, rfl, rfl, rfl, ?_, rfl⟩
    · simp only [scheduleDownloadsStep, if_pos hcap, hw, hinfo, if_neg hspace, hwt, if_true]
    · simp [s1, hilt]
  · intro h
    unfold uint64Add
    omega
  · intro h
    unfold uint64Sub
    omega
  · intro h
    unfold int32Add
    omega

theorem scheduleDownloads_mkdir_failure_witness :
    (exScheduler 1000).activeWorkers ≤ 5
      ∧ ¬ uint64Sub (exScheduler 1000).s.ppln.availableDiskSpace (exPendingApp 10 0).Size ≤ 0
      ∧ (exDownloadWorker 0).waiter.isSome
      ∧ ((∃ d1 info1, scheduleDownloadsStep "/opt/splunk/appframework" 5 (exScheduler 1000) 0
            true "local" false = some d1
          ∧ d1.started = (exScheduler 1000).started
          ∧ d1.requeued = (exScheduler 1000).requeued
          ∧ d1.activeWorkers = uint64Add (exScheduler 1000).activeWorkers 1
          ∧ d1.s.ppln.availableDiskSpace
            = uint64Sub (exScheduler 1000).s.ppln.availableDiskSpace (exPendingApp 10 0).Size
          ∧ d1.s.infos[(exDownloadWorker 0).appDeployInfo]? = some info1
          ∧ info1.PhaseInfo
            = { Phase := PhaseDownload, Status := AppPkgDownloadPending,
                RetryCount := int32Add (exPendingApp 10 0).PhaseInfo.RetryCount 1 })
        ∧ ((exScheduler 1000).activeWorkers + 1 < 18446744073709551616 →
            uint64Add (exScheduler 1000).activeWorkers 1 = (exScheduler 1000).activeWorkers + 1)
        ∧ (((exPendingApp 10 0).Size ≤ (exScheduler 1000).s.ppln.availableDiskSpace
              ∧ (exScheduler 1000).s.ppln.availableDiskSpace < 18446744073709551616) →
            uint64Sub (exScheduler 1000).s.ppln.availableDiskSpace (exPendingApp 10 0).Size
              = (exScheduler 1000).s.ppln.availableDiskSpace - (exPendingApp 10 0).Size)
        ∧ ((-2147483648 ≤ (exPendingApp 10 0).PhaseInfo.RetryCount
              ∧ (exPendingApp 10 0).PhaseInfo.RetryCount < 2147483647) →
            int32Add (exPendingApp 10 0).PhaseInfo.RetryCount 1
              = (exPendingApp 10 0).PhaseInfo.RetryCount + 1)
        ∧ (scheduleDownloadsStep "/opt/splunk/appframework" 5 (exScheduler 1000) 0 false "local"
              false).map
            (fun d1 => (d1.activeWorkers, d1.started.length, d1.s.ppln.availableDiskSpace,
              d1.s.infos.map (fun i => i.PhaseInfo.RetryCount)))
          = some (1, 0, 990, [1, 0, 0])) :=
  ⟨by decide, by decide, by decide,
    scheduleDownloads_mkdir_failure "/opt/splunk/appframework" 5 (exScheduler 1000) 0
      (exDownloadWorker 0) (exPendingApp 10 0) true "local"
      (by decide) rfl rfl (by decide) (by decide)⟩

theorem seedPhase_ne_unset_present (maxRetry : Int) (entry : AppDeploymentInfo) (s : State)
    (hdl : (s.ppln.pplnPhases PhaseDownload).isSome)
    (hpc : (s.ppln.pplnPhases PhasePodCopy).isSome)
    (hin : (s.ppln.pplnPhases PhaseInstall).isSome)
    (h : seedPhase maxRetry entry ≠ AppPhaseType.unset) :
    (s.ppln.pplnPhases (seedPhase maxRetry entry)).isSome := by
  cases hp : seedPhase maxRetry entry with
  | PhaseDownload => exact hdl
  | PhasePodCopy => exact hpc
  | PhaseInstall => exact hin
  | unset => exact absurd hp h

theorem seedEntry_workers (maxRetry : Int) (client : ControllerClient) (cr : MetaObject)
    (cfg : AppFrameworkSpec) (appSrcName : String) (entry : AppDeploymentInfo)
    (s : State) (cl : List Nat)
    (hdl : (s.ppln.pplnPhases PhaseDownload).isSome)
    (hpc : (s.ppln.pplnPhases PhasePodCopy).isSome)
    (hin : (s.ppln.pplnPhases PhaseInstall).isSome) :
    ∃ s1 cl1 news, seedEntry maxRetry client cr cfg appSrcName entry (s, cl) = some (s1, cl1)
      ∧ s1.workers = s.workers ++ news
      ∧ s1.infos = s.infos ++ [entry]
      ∧ (∀ P, (s1.ppln.pplnPhases P).isSome = (s.ppln.pplnPhases P).isSome)
      ∧ ∀ w ∈ news, SeededWorker client cr s.infos.length w := by
  cases hsrc : getAppSrcSpec cfg.AppSources appSrcName with
  | none =>
    refine ⟨{ s with infos := s.infos ++ [entry] }, cl, [], ?_, by simp, rfl, fun _ => rfl, ?_⟩
    · simp only [seedEntry, hsrc]
    · intro w hw; cases hw
  | some appSrc =>
    by_cases hph : seedPhase maxRetry entry ≠ AppPhaseType.unset
    · obtain ⟨ppln1, hadd, _, _, hs, _⟩ := addWorkers_some s.ppln (seedPhase maxRetry entry)
        [s.workers.length] (seedPhase_ne_unset_present maxRetry entry s hdl hpc hin hph)
      let worker := createPipelineWorker s.infos.length appSrcName
        (getApplicablePodNameForWorker cr 0) cfg cr (afwGetReleventStatefulsetByKind cr client)
      let cl1 := if appSrc.Scope = ScopeCluster ∧ entry.DeployStatus ≠ DeployStatusComplete then
        cl ++ [s.infos.length] else cl
      refine ⟨⟨s.workers ++ [worker], s.infos ++ [entry], ppln1⟩, cl1, [worker],
        ?_, rfl, rfl, hs, ?_⟩
      · simp only [seedEntry, hsrc, if_pos hph, createAndAddPipelineWorker, hadd]
      · intro w hw
        rw [List.mem_singleton] at hw
        subst hw
        exact ⟨rfl, rfl, rfl, Nat.le_refl _, rfl⟩
    · let cl1 := if appSrc.Scope = ScopeCluster ∧ entry.DeployStatus ≠ DeployStatusComplete then
        cl ++ [s.infos.length] else cl
      refine ⟨{ s with infos := s.infos ++ [entry] }, cl1, [], ?_, by simp, rfl, fun _ => rfl, ?_⟩
      · simp only [seedEntry, hsrc, if_neg hph]
      · intro w hw; cases hw

theorem seededWorker_mono {client : ControllerClient} {cr : MetaObject} {k k1 : Nat}
    {w : PipelineWorker} (hk : k ≤ k1) (h : SeededWorker client cr k1 w) :
    SeededWorker client cr k w :=
  ⟨h.1, h.2.1, h.2.2.1, Nat.le_trans hk h.2.2.2.1, h.2.2.2.2⟩

theorem seedAppSrc_workers (maxRetry : Int) (client : ControllerClient) (cr : MetaObject)
    (cfg : AppFrameworkSpec) (appSrcName : String) (entries : List AppDeploymentInfo)
    (s : State) (cl : List Nat)
    (hdl : (s.ppln.pplnPhases PhaseDownload).isSome)
    (hpc : (s.ppln.pplnPhases PhasePodCopy).isSome)
    (hin : (s.ppln.pplnPhases PhaseInstall).isSome) :
    ∃ s1 cl1 news, seedAppSrc maxRetry client cr cfg appSrcName entries (s, cl) = some (s1, cl1)
      ∧ s1.workers = s.workers ++ news
      ∧ s1.infos = s.infos ++ entries
      ∧ (∀ P, (s1.ppln.pplnPhases P).isSome = (s.ppln.pplnPhases P).isSome)
      ∧ ∀ w ∈ news, SeededWorker client cr s.infos.length w := by
  induction entries generalizing s cl with
  | nil => exact ⟨s, cl, [], rfl, by simp, by simp, fun _ => rfl, fun w hw => by cases hw⟩
  | cons entry rest ih =>
    obtain ⟨s1, cl1, n1, h1, hw1, hi1, hs1, hn1⟩ :=
      seedEntry_workers maxRetry client cr cfg appSrcName entry s cl hdl hpc hin
    obtain ⟨s2, cl2, n2, h2, hw2, hi2, hs2, hn2⟩ := ih s1 cl1 (by rw [hs1]; exact hdl)
      (by rw [hs1]; exact hpc) (by rw [hs1]; exact hin)
    refine ⟨s2, cl2, n1 ++ n2, ?_, ?_, ?_, ?_, ?_⟩
    · simp only [seedAppSrc, h1, h2]
    · rw [hw2, hw1, List.append_assoc]
    · rw [hi2, hi1, List.append_assoc]; rfl
    · intro P; rw [hs2, hs1]
    · intro w hw
      rcases List.mem_append.mp hw with h | h
      · exact hn1 w h
      · exact seededWorker_mono (by rw [hi1]; simp) (hn2 w h)

theorem seedPipeline_workers (maxRetry : Int) (client : ControllerClient) (cr : MetaObject)
    (cfg : AppFrameworkSpec) (srcs : List (String × AppSrcDeployInfo))
    (s : State) (cl : List Nat)
    (hdl : (s.ppln.pplnPhases PhaseDownload).isSome)
    (hpc : (s.ppln.pplnPhases PhasePodCopy).isSome)
    (hin : (s.ppln.pplnPhases PhaseInstall).isSome) :
    ∃ s1 cl1 news copies, seedPipeline maxRetry client cr cfg srcs (s, cl) = some (s1, cl1)
      ∧ s1.workers = s.workers ++ news
      ∧ s1.infos = s.infos ++ copies
      ∧ (∀ P, (s1.ppln.pplnPhases P).isSome = (s.ppln.pplnPhases P).isSome)
      ∧ ∀ w ∈ news, SeededWorker client cr s.infos.length w := by
  induction srcs generalizing s cl with
  | nil => exact ⟨s, cl, [], [], rfl, by simp, by simp, fun _ => rfl, fun w hw => by cases hw⟩
  | cons src rest ih =>
    obtain ⟨s1, cl1, n1, h1, hw1, hi1, hs1, hn1⟩ :=
      seedAppSrc_workers maxRetry client cr cfg src.1 src.2.AppDeploymentInfoList s cl hdl hpc hin
    obtain ⟨s2, cl2, n2, c2, h2, hw2, hi2, hs2, hn2⟩ := ih s1 cl1 (by rw [hs1]; exact hdl)
      (by rw [hs1]; exact hpc) (by rw [hs1]; exact hin)
    refine ⟨s2, cl2, n1 ++ n2, src.2.AppDeploymentInfoList ++ c2, ?_, ?_, ?_, ?_, ?_⟩
    · simp only [seedPipeline, h1, h2]
    · rw [hw2, hw1, List.append_assoc]
    · rw [hi2, hi1, List.append_assoc]
    · intro P; rw [hs2, hs1]
    · intro w hw
      rcases List.mem_append.mp hw with h | h
      · exact hn1 w h
      · exact seededWorker_mono (by rw [hi1]; simp) (hn2 w h)

/-- C21 at its failing input: for a CR of kind IndexerCluster and a context with one entry
whose download is pending, the seeding step creates a worker and puts it into the Download
queue; the worker has no statefulset and its target pod name has an empty pod type. -/
theorem seedPipeline_schedules_indexerCluster :
    (seedPipeline 3 exClient exIndexerCR exConfig
          [("adminApps", { AppDeploymentInfoList := [exDownloadPendingApp] })]
          (exFreshState, [])).map
        (fun r => (r.1.ppln.queue PhaseDownload,
          r.1.workers.map (fun w => (w.cr.Kind, w.targetPodName, w.sts.isSome))))
      = some ([0], [("IndexerCluster", "splunk-stack1--0", false)]) := by
  decide

/-- C28: on a pipeline with the three phases the seeding step of afwSchedulerEntry returns,
and every worker it creates, whatever the phase it is queued in, the kind of the CR and the
statefulset found for it, has the target pod name getApplicablePodNameForWorker(cr, 0). -/
theorem seedPipeline_targets_replica_zero (maxRetry : Int) (client : ControllerClient)
    (cr : MetaObject) (cfg : AppFrameworkSpec) (srcs : List (String × AppSrcDeployInfo))
    (s : State) (cl : List Nat)
    (hdl : (s.ppln.pplnPhases PhaseDownload).isSome)
    (hpc : (s.ppln.pplnPhases PhasePodCopy).isSome)
    (hin : (s.ppln.pplnPhases PhaseInstall).isSome) :
    ∃ s1 cl1 news, seedPipeline maxRetry client cr cfg srcs (s, cl) = some (s1, cl1)
      ∧ s1.workers = s.workers ++ news
      ∧ ∀ w ∈ news, w.targetPodName = getApplicablePodNameForWorker cr 0 ∧ w.cr = cr := by
  obtain ⟨s1, cl1, news, _, h, hw, _, _, hn⟩ :=
    seedPipeline_workers maxRetry client cr cfg srcs s cl hdl hpc hin
  exact ⟨s1, cl1, news, h, hw, fun w hmem => ⟨(hn w hmem).1, (hn w hmem).2.1⟩⟩

theorem seedPipeline_targets_replica_zero_witness :
    (exFreshState.ppln.pplnPhases PhaseDownload).isSome
      ∧ (exFreshState.ppln.pplnPhases PhasePodCopy).isSome
      ∧ (exFreshState.ppln.pplnPhases PhaseInstall).isSome
      ∧ ∃ s1 cl1 news, seedPipeline 3 exClient exCR exConfig
            [("adminApps", { AppDeploymentInfoList := [exDownloadPendingApp, exInstallPendingApp] })]
            (exFreshState, []) = some (s1, cl1)
        ∧ s1.workers = exFreshState.workers ++ news
        ∧ ∀ w ∈ news, w.targetPodName = getApplicablePodNameForWorker exCR 0 ∧ w.cr = exCR :=
  ⟨by decide, by decide, by decide,
    seedPipeline_targets_replica_zero 3 exClient exCR exConfig
      [("adminApps", { AppDeploymentInfoList := [exDownloadPendingApp, exInstallPendingApp] })]
      exFreshState [] (by decide) (by decide) (by decide)⟩

theorem digitChar_value (k : Nat) (hk : k < 10) : (Nat.digitChar k).toNat - 48 = k := by
  interval_cases k <;> rfl

theorem toDigitsCore_value (fuel n : Nat) (ds : List Char) (hfuel : n < fuel) :
    (Nat.toDigitsCore 10 fuel n ds).foldl (fun v c => 10 * v + (c.toNat - 48)) 0
      = ds.foldl (fun v c => 10 * v + (c.toNat - 48)) n := by
  induction fuel generalizing n ds with
  | zero => omega
  | succ fuel ih =>
    simp only [Nat.toDigitsCore]
    by_cases h0 : n / 10 = 0
    · simp only [h0, if_true, List.foldl_cons]
      have hn : n < 10 := by omega
      rw [digitChar_value (n % 10) (Nat.mod_lt _ (by decide))]
      congr 1
      omega
    · simp only [h0, if_false]
      rw [ih (n / 10) _ (by omega)]
      simp only [List.foldl_cons]
      rw [digitChar_value (n % 10) (Nat.mod_lt _ (by decide))]
      congr 1
      omega

theorem decimalValue_toDigits (n : Nat) : decimalValue (Nat.toDigits 10 n) = n := by
  unfold decimalValue Nat.toDigits
  rw [toDigitsCore_value (n + 1) n [] (by omega)]
  rfl

theorem toString_nat_injective (i j : Nat) (h : toString i = toString j) : i = j := by
  have h1 : (Nat.toDigits 10 i).asString = (Nat.toDigits 10 j).asString := h
  have h2 : Nat.toDigits 10 i = Nat.toDigits 10 j := by
    have := congrArg String.data h1
    simpa [List.asString] using this
  rw [← decimalValue_toDigits i, ← decimalValue_toDigits j, h2]

theorem string_append_left_cancel (p a b : String) (h : p ++ a = p ++ b) : a = b := by
  have := congrArg String.data h
  simp only [String.data_append] at this
  exact String.ext (List.append_cancel_left this)

theorem podName_injective (cr : MetaObject) (i j : Nat)
    (h : getApplicablePodNameForWorker cr (i : Int) = getApplicablePodNameForWorker cr (j : Int)) :
    i = j := by
  unfold getApplicablePodNameForWorker at h
  simp only [] at h
  have h1 := string_append_left_cancel _ _ _ h
  exact toString_nat_injective i j h1

theorem fanOut_alloc_copies (s : State) (w : PipelineWorker) (info : AppDeploymentInfo)
    (R : Int) (hR : 0 ≤ R) :
    ∃ aux cw iw,
      (if info.AuxPhaseInfo.length = 0 then
          if R < 0 then none
          else
            let r := fanOutFresh w R.toNat 0
            some (r.1, r.2, (List.range R.toNat).map (fun i => s.workers.length + i), [])
        else
          let r := fanOutResume w s.workers.length info.AuxPhaseInfo 0
          some (info.AuxPhaseInfo, r.1, r.2.1, r.2.2))
        = some (aux, (List.range' 0
            (if info.AuxPhaseInfo.length = 0 then R.toNat else info.AuxPhaseInfo.length)).map
              (fanOutCopy w), cw, iw) := by
  by_cases haux : info.AuxPhaseInfo.length = 0
  · refine ⟨(fanOutFresh w R.toNat 0).1,
      (List.range R.toNat).map (fun i => s.workers.length + i), [], ?_⟩
    simp [haux, not_lt.mpr hR, fanOutFresh_snd]
  · refine ⟨info.AuxPhaseInfo, (fanOutResume w s.workers.length info.AuxPhaseInfo 0).2.1,
      (fanOutResume w s.workers.length info.AuxPhaseInfo 0).2.2, ?_⟩
    simp [haux, fanOutResume_copies]

theorem transition_fanOut_copies (s : State) (worker : Nat) (next : AppPhaseType)
    (w : PipelineWorker) (info : AppDeploymentInfo) (R : Int)
    (hdl : (s.ppln.pplnPhases PhaseDownload).isSome)
    (hpc : (s.ppln.pplnPhases PhasePodCopy).isSome)
    (hin : (s.ppln.pplnPhases PhaseInstall).isSome)
    (hw : s.workers[worker]? = some w) (hinfo : s.infos[w.appDeployInfo]? = some info)
    (hrc : replicaCountOf w = some R) (hR : 0 ≤ R) (hR1 : R ≠ 1)
    (hkind : w.cr.Kind = "Standalone") :
    ∃ s1, TransitionWorkerPhase s worker PhaseDownload next = some s1
      ∧ s1.workers = s.workers ++ (List.range' 0
          (if info.AuxPhaseInfo.length = 0 then R.toNat else info.AuxPhaseInfo.length)).map
            (fanOutCopy w) := by
  obtain ⟨aux, cw, iw, halloc⟩ := fanOut_alloc_copies s w info R hR
  obtain ⟨ppln1, hadd1, hs1, _, _⟩ := addWorkers_queues s.ppln PhasePodCopy cw hpc
  obtain ⟨ppln2, hadd2, hs2, _, _⟩ :=
    addWorkers_queues ppln1 PhaseInstall iw (by rw [hs1]; exact hin)
  obtain ⟨r, hdel, _⟩ :=
    deleteWorker_queues ppln2 PhaseDownload worker (by rw [hs2, hs1]; exact hdl)
  have hfan : fanOutTransition s w info R
      = some ⟨s.workers ++ (List.range' 0
          (if info.AuxPhaseInfo.length = 0 then R.toNat else info.AuxPhaseInfo.length)).map
            (fanOutCopy w),
          s.infos.set w.appDeployInfo { info with AuxPhaseInfo := aux }, ppln2⟩ := by
    unfold fanOutTransition
    simp only []
    rw [halloc]
    simp only [hadd1, hadd2]
  refine ⟨⟨s.workers ++ (List.range' 0
          (if info.AuxPhaseInfo.length = 0 then R.toNat else info.AuxPhaseInfo.length)).map
            (fanOutCopy w),
          s.infos.set w.appDeployInfo { info with AuxPhaseInfo := aux }, r.2⟩, ?_, rfl⟩
  unfold TransitionWorkerPhase
  simp only [hw, hinfo, hrc, hR1, hkind, hfan, hdel, ne_eq, not_true_eq_false, or_self,
    if_false, and_self, if_true]

theorem podNames_nodup (w : PipelineWorker) (n : Nat) :
    (((List.range' 0 n).map (fanOutCopy w)).map (fun c => c.targetPodName)).Nodup := by
  rw [List.map_map]
  refine List.Nodup.map ?_ (List.nodup_range' 0 n)
  intro i j h
  exact podName_injective w.cr i j h

/-- C27: for every CR the pod name is injective in the replica index over the indices that
are not negative; hence the copies a fan-out transition allocates (one per replica for a
fresh fan-out, one per AuxPhaseInfo slot for a resumed one) have pairwise distinct target pod
names. -/
theorem podName_injective_in_replica (cr : MetaObject) (i j : Int)
    (hi : 0 ≤ i) (hj : 0 ≤ j) (hne : i ≠ j) :
    getApplicablePodNameForWorker cr i ≠ getApplicablePodNameForWorker cr j
      ∧ ∀ (s : State) (worker : Nat) (next : AppPhaseType) (w : PipelineWorker)
          (info : AppDeploymentInfo) (R : Int),
          (s.ppln.pplnPhases PhaseDownload).isSome → (s.ppln.pplnPhases PhasePodCopy).isSome →
          (s.ppln.pplnPhases PhaseInstall).isSome →
          s.workers[worker]? = some w → s.infos[w.appDeployInfo]? = some info →
          replicaCountOf w = some R → 0 ≤ R → R ≠ 1 → w.cr.Kind = "Standalone" →
          ∃ s1 copies, TransitionWorkerPhase s worker PhaseDownload next = some s1
            ∧ s1.workers = s.workers ++ copies
            ∧ copies.length
              = (if info.AuxPhaseInfo.length = 0 then R.toNat else info.AuxPhaseInfo.length)
            ∧ (copies.map (fun c => c.targetPodName)).Nodup := by
  constructor
  · intro h
    obtain ⟨a, rfl⟩ := Int.eq_ofNat_of_zero_le hi
    obtain ⟨b, rfl⟩ := Int.eq_ofNat_of_zero_le hj
    exact hne (by rw [podName_injective cr a b h])
  · intro s worker next w info R hdl hpc hin hw hinfo hrc hR hR1 hkind
    obtain ⟨s1, htr, hws⟩ :=
      transition_fanOut_copies s worker next w info R hdl hpc hin hw hinfo hrc hR hR1 hkind
    exact ⟨s1, _, htr, hws, by simp, podNames_nodup w _⟩

theorem podName_injective_in_replica_witness :
    (0 : Int) ≤ 0 ∧ (0 : Int) ≤ 1 ∧ (0 : Int) ≠ 1
      ∧ (getApplicablePodNameForWorker exCR 0 ≠ getApplicablePodNameForWorker exCR 1
        ∧ ∀ (s : State) (worker : Nat) (next : AppPhaseType) (w : PipelineWorker)
            (info : AppDeploymentInfo) (R : Int),
            (s.ppln.pplnPhases PhaseDownload).isSome → (s.ppln.pplnPhases PhasePodCopy).isSome →
            (s.ppln.pplnPhases PhaseInstall).isSome →
            s.workers[worker]? = some w → s.infos[w.appDeployInfo]? = some info →
            replicaCountOf w = some R → 0 ≤ R → R ≠ 1 → w.cr.Kind = "Standalone" →
            ∃ s1 copies, TransitionWorkerPhase s worker PhaseDownload next = some s1
              ∧ s1.workers = s.workers ++ copies
              ∧ copies.length
                = (if info.AuxPhaseInfo.length = 0 then R.toNat else info.AuxPhaseInfo.length)
              ∧ (copies.map (fun c => c.targetPodName)).Nodup) :=
  ⟨by decide, by decide, by decide,
    podName_injective_in_replica exCR 0 1 (by decide) (by decide) (by decide)⟩

theorem mem_of_getElem?_eq_some {α : Type} {l : List α} {i : Nat} {x : α}
    (h : l[i]? = some x) : x ∈ l := by
  obtain ⟨h1, h2⟩ := List.getElem?_eq_some_iff.mp h
  rw [← h2]
  exact List.getElem_mem h1

theorem simpleTransition_shape (s : State) (worker : Nat) (w : PipelineWorker)
    (info : AppDeploymentInfo) (next : AppPhaseType) (s1 : State)
    (h : simpleTransition s worker w info next = some s1) :
    s1.workers = s.workers.set worker { w with isActive := false, waiter := none }
      ∧ s1.infos = s.infos.set w.appDeployInfo
          { info with
            PhaseInfo := { Phase := next, Status := pendingStatusOf next, RetryCount := 0 } } := by
  unfold simpleTransition at h
  simp only [] at h
  cases hadd : addWorkersToPipelinePhase s.ppln next [worker] with
  | none => simp [hadd] at h
  | some ppln =>
    simp only [hadd, Option.some.injEq] at h
    subst h
    exact ⟨rfl, rfl⟩

theorem fanOutTransition_shape (s : State) (w : PipelineWorker)
    (info : AppDeploymentInfo) (R : Int) (s1 : State)
    (h : fanOutTransition s w info R = some s1) :
    ∃ n aux, s1.workers = s.workers ++ (List.range' 0 n).map (fanOutCopy w)
      ∧ s1.infos = s.infos.set w.appDeployInfo { info with AuxPhaseInfo := aux } := by
  unfold fanOutTransition at h
  simp only [] at h
  by_cases haux : info.AuxPhaseInfo.length = 0
  · by_cases hR : R < 0
    · simp [haux, hR] at h
    · simp only [haux, hR, if_true, if_false] at h
      cases hadd1 : addWorkersToPipelinePhase s.ppln PhasePodCopy
          ((List.range R.toNat).map (fun i => s.workers.length + i)) with
      | none => simp [hadd1] at h
      | some ppln1 =>
        simp only [hadd1] at h
        cases hadd2 : addWorkersToPipelinePhase ppln1 PhaseInstall [] with
        | none => simp [hadd2] at h
        | some ppln2 =>
          simp only [hadd2, Option.some.injEq] at h
          subst h
          exact ⟨R.toNat, (fanOutFresh w R.toNat 0).1, by simp [fanOutFresh_snd], rfl⟩
  · simp only [haux, if_false] at h
    cases hadd1 : addWorkersToPipelinePhase s.ppln PhasePodCopy
        (fanOutResume w s.workers.length info.AuxPhaseInfo 0).2.1 with
    | none => simp [hadd1] at h
    | some ppln1 =>
      simp only [hadd1] at h
      cases hadd2 : addWorkersToPipelinePhase ppln1 PhaseInstall
          (fanOutResume w s.workers.length info.AuxPhaseInfo 0).2.2 with
      | none => simp [hadd2] at h
      | some ppln2 =>
        simp only [hadd2, Option.some.injEq] at h
        subst h
        exact ⟨info.AuxPhaseInfo.length, info.AuxPhaseInfo, by simp [fanOutResume_copies], rfl⟩

theorem writes_setWorker (s : State) (b : Nat) (w w1 : PipelineWorker)
    (hw : s.workers[b]? = some w) (hjob : SameJob w w1) :
    WritesThrough b s ⟨s.workers.set b w1, s.infos, s.ppln⟩ := by
  refine ⟨w, hw, by simp, ?_, (set_worker_lookup s.workers b w w1 hw hjob).2, fun _ _ => rfl, rfl⟩
  intro a hab _
  exact List.getElem?_set_ne (Ne.symm hab)

theorem writes_setInfo (s : State) (b : Nat) (w : PipelineWorker) (info1 : AppDeploymentInfo)
    (ppln1 : AppInstallPipeline) (hw : s.workers[b]? = some w) :
    WritesThrough b s ⟨s.workers, s.infos.set w.appDeployInfo info1, ppln1⟩ := by
  refine ⟨w, hw, Nat.le_refl _, fun _ _ _ => rfl, fun w1 h1 => ⟨w1, h1, sameJob_refl w1⟩, ?_,
    by simp⟩
  intro i hi
  exact List.getElem?_set_ne (Ne.symm hi)

theorem writes_refl (s : State) (b : Nat) (w : PipelineWorker) (hw : s.workers[b]? = some w) :
    WritesThrough b s s :=
  ⟨w, hw, Nat.le_refl _, fun _ _ _ => rfl, fun w1 h1 => ⟨w1, h1, sameJob_refl w1⟩,
    fun _ _ => rfl, rfl⟩

theorem transition_writes (s : State) (worker : Nat) (cur next : AppPhaseType) (s1 : State)
    (h : TransitionWorkerPhase s worker cur next = some s1) : WritesThrough worker s s1 := by
  unfold TransitionWorkerPhase at h
  cases hw : s.workers[worker]? with
  | none => simp [hw] at h
  | some w =>
    simp only [hw] at h
    cases hinfo : s.infos[w.appDeployInfo]? with
    | none => simp [hinfo] at h
    | some info =>
      simp only [hinfo] at h
      cases hrc : replicaCountOf w with
      | none => simp [hrc] at h
      | some R =>
        simp only [hrc] at h
        generalize hm : (if R = 1 ∨ cur ≠ PhaseDownload then
            simpleTransition s worker w info next
          else if cur = PhaseDownload ∧ w.cr.Kind = "Standalone" then
            fanOutTransition s w info R
          else some s) = moved at h
        cases moved with
        | none => simp at h
        | some s2 =>
          simp only [] at h
          cases hdel : deleteWorkerFromPipelinePhase s2.ppln cur worker with
          | none => simp [hdel] at h
          | some r =>
            simp only [hdel, Option.some.injEq] at h
            subst h
            have hwlt : worker < s.workers.length := (List.getElem?_eq_some_iff.mp hw).1
            have hwmem : w ∈ s.workers := mem_of_getElem?_eq_some hw
            split_ifs at hm with h1 h2
            · obtain ⟨hws, hinfos⟩ := simpleTransition_shape s worker w info next s2 hm
              refine ⟨w, hw, by simp [hws], ?_, ?_, ?_, by simp [hinfos]⟩
              · intro a hab _
                show s2.workers[a]? = _
                rw [hws]
                exact List.getElem?_set_ne (Ne.symm hab)
              · intro w1 hw1
                have hw1' : w1 ∈ s2.workers := hw1
                rw [hws] at hw1'
                exact (set_worker_lookup s.workers worker w { w with isActive := false, waiter := none } hw
                  ⟨rfl, rfl, rfl, rfl, rfl⟩).2 w1 hw1'
              · intro i hi
                show s2.infos[i]? = _
                rw [hinfos]
                exact List.getElem?_set_ne (Ne.symm hi)
            · obtain ⟨n, aux, hws, hinfos⟩ := fanOutTransition_shape s w info R s2 hm
              refine ⟨w, hw, by simp [hws], ?_, ?_, ?_, by simp [hinfos]⟩
              · intro a _ halt
                show s2.workers[a]? = _
                rw [hws, List.getElem?_append_left halt]
              · intro w1 hw1
                have hw1' : w1 ∈ s2.workers := hw1
                rw [hws, List.mem_append] at hw1'
                rcases hw1' with h3 | h3
                · exact ⟨w1, h3, sameJob_refl w1⟩
                · rw [List.mem_map] at h3
                  obtain ⟨i, _, rfl⟩ := h3
                  exact ⟨w, hwmem, sameJob_fanOutCopy w i⟩
              · intro i hi
                show s2.infos[i]? = _
                rw [hinfos]
                exact List.getElem?_set_ne (Ne.symm hi)
            · simp only [Option.some.injEq] at hm
              subst hm
              exact ⟨w, hw, Nat.le_refl _, fun _ _ _ => rfl,
                fun w1 h1 => ⟨w1, h1, sameJob_refl w1⟩, fun _ _ => rfl, rfl⟩

theorem downloadBody_sound (maxRetry : Int) (b : Nat) (wk wk1 : Walk) (brk : Bool)
    (h : downloadBody maxRetry b wk = some (wk1, brk)) :
    ManagerStep maxRetry PhaseDownload b wk wk1 brk := by
  unfold downloadBody at h
  cases hw : wk.s.workers[b]? with
  | none => simp [hw] at h
  | some w =>
    simp only [hw] at h
    cases hinfo : wk.s.infos[w.appDeployInfo]? with
    | none => simp [hinfo] at h
    | some info =>
      simp only [hinfo] at h
      by_cases hd : w.isActive = false ∧ info.PhaseInfo.RetryCount < maxRetry
          ∧ info.PhaseInfo.Status ≠ AppPkgDownloadComplete
      · rw [if_pos hd] at h
        simp only [Option.some.injEq, Prod.mk.injEq] at h
        obtain ⟨rfl, rfl⟩ := h
        exact ManagerStep.dispatch w info wk.slots hw hinfo hd.2.1 hd.1 hd.2.2 (Or.inl ⟨rfl, rfl⟩)
      · rw [if_neg hd] at h
        by_cases hc : info.PhaseInfo.Status = AppPkgDownloadComplete
        · rw [if_pos hc] at h
          cases htr : TransitionWorkerPhase wk.s b PhaseDownload PhasePodCopy with
          | none => simp [htr] at h
          | some s1 =>
            simp only [htr, Option.some.injEq, Prod.mk.injEq] at h
            obtain ⟨rfl, rfl⟩ := h
            exact ManagerStep.transition w info PhasePodCopy s1 hw hinfo hc (Or.inl ⟨rfl, rfl⟩) htr
        · rw [if_neg hc] at h
          by_cases hr : info.PhaseInfo.RetryCount ≥ maxRetry
          · rw [if_pos hr] at h
            cases hdel : deleteWorkerFromPipelinePhase wk.s.ppln info.PhaseInfo.Phase b with
            | none => simp [hdel] at h
            | some r =>
              simp only [hdel, Option.some.injEq, Prod.mk.injEq] at h
              obtain ⟨rfl, rfl⟩ := h
              exact ManagerStep.exhausted w info r hw hinfo hc hr hdel
          · rw [if_neg hr] at h
            simp only [Option.some.injEq, Prod.mk.injEq] at h
            obtain ⟨rfl, rfl⟩ := h
            exact ManagerStep.skip w info hw hinfo (Or.inr ⟨lt_of_not_ge hr, hc⟩)

theorem podCopyBody_sound (maxRetry : Int) (b : Nat) (wk wk1 : Walk) (brk : Bool)
    (h : podCopyBody maxRetry b wk = some (wk1, brk)) :
    ManagerStep maxRetry PhasePodCopy b wk wk1 brk := by
  unfold podCopyBody at h
  cases hw : wk.s.workers[b]? with
  | none => simp [hw] at h
  | some w =>
    simp only [hw] at h
    cases hinfo : wk.s.infos[w.appDeployInfo]? with
    | none => simp [hinfo] at h
    | some info =>
      simp only [hinfo] at h
      by_cases hd : info.PhaseInfo.RetryCount < maxRetry ∧ w.isActive = false
          ∧ info.PhaseInfo.Status ≠ AppPkgPodCopyComplete
      · rw [if_pos hd] at h
        cases hs : wk.slots with
        | zero =>
          simp only [hs, Option.some.injEq, Prod.mk.injEq] at h
          obtain ⟨rfl, rfl⟩ := h
          have hstep : ManagerStep maxRetry PhasePodCopy b wk _ true :=
            ManagerStep.blocked w info hw hinfo hd.1 hd.2.1 hd.2.2 (by decide) hs
          rw [hs] at hstep
          exact hstep
        | succ slots1 =>
          simp only [hs, Option.some.injEq, Prod.mk.injEq] at h
          obtain ⟨rfl, rfl⟩ := h
          exact ManagerStep.dispatch w info slots1 hw hinfo hd.1 hd.2.1 hd.2.2
            (Or.inr ⟨by decide, hs⟩)
      · rw [if_neg hd] at h
        by_cases hc : info.PhaseInfo.Status = AppPkgPodCopyComplete
        · rw [if_pos hc] at h
          cases hcfg : w.afwConfig with
          | none => simp [hcfg] at h
          | some afwConfig =>
            simp only [hcfg] at h
            cases hsrc : getAppSrcSpec afwConfig.AppSources w.appSrcName with
            | none =>
              simp only [hsrc, Option.some.injEq, Prod.mk.injEq] at h
              obtain ⟨rfl, rfl⟩ := h
              exact ManagerStep.skip w info hw hinfo (Or.inl ⟨hc, rfl⟩)
            | some appSrc =>
              simp only [hsrc] at h
              by_cases hscope : appSrc.Scope ≠ ScopeCluster
              · rw [if_pos hscope] at h
                cases htr : TransitionWorkerPhase wk.s b PhasePodCopy PhaseInstall with
                | none => simp [htr] at h
                | some s1 =>
                  simp only [htr, Option.some.injEq, Prod.mk.injEq] at h
                  obtain ⟨rfl, rfl⟩ := h
                  exact ManagerStep.transition w info PhaseInstall s1 hw hinfo hc
                    (Or.inr ⟨rfl, rfl⟩) htr
              · rw [if_neg hscope] at h
                simp only [Option.some.injEq, Prod.mk.injEq] at h
                obtain ⟨rfl, rfl⟩ := h
                exact ManagerStep.skip w info hw hinfo (Or.inl ⟨hc, rfl⟩)
        · rw [if_neg hc] at h
          by_cases hr : info.PhaseInfo.RetryCount ≥ maxRetry
          · rw [if_pos hr] at h
            cases hdel : deleteWorkerFromPipelinePhase wk.s.ppln info.PhaseInfo.Phase b with
            | none => simp [hdel] at h
            | some r =>
              simp only [hdel, Option.some.injEq, Prod.mk.injEq] at h
              obtain ⟨rfl, rfl⟩ := h
              exact ManagerStep.exhausted w info r hw hinfo hc hr hdel
          · rw [if_neg hr] at h
            simp only [Option.some.injEq, Prod.mk.injEq] at h
            obtain ⟨rfl, rfl⟩ := h
            exact ManagerStep.skip w info hw hinfo (Or.inr ⟨lt_of_not_ge hr, hc⟩)

theorem installBody_sound (maxRetry : Int) (b : Nat) (wk wk1 : Walk) (brk : Bool)
    (h : installBody maxRetry b wk = some (wk1, brk)) :
    ManagerStep maxRetry PhaseInstall b wk wk1 brk := by
  unfold installBody at h
  cases hw : wk.s.workers[b]? with
  | none => simp [hw] at h
  | some w =>
    simp only [hw] at h
    cases hinfo : wk.s.infos[w.appDeployInfo]? with
    | none => simp [hinfo] at h
    | some info =>
      simp only [hinfo] at h
      by_cases hd : info.PhaseInfo.RetryCount < maxRetry ∧ w.isActive = false
          ∧ info.PhaseInfo.Status ≠ AppPkgInstallComplete
      · rw [if_pos hd] at h
        cases hs : wk.slots with
        | zero =>
          simp only [hs, Option.some.injEq, Prod.mk.injEq] at h
          obtain ⟨rfl, rfl⟩ := h
          have hstep : ManagerStep maxRetry PhaseInstall b wk _ true :=
            ManagerStep.blocked w info hw hinfo hd.1 hd.2.1 hd.2.2 (by decide) hs
          rw [hs] at hstep
          exact hstep
        | succ slots1 =>
          simp only [hs, Option.some.injEq, Prod.mk.injEq] at h
          obtain ⟨rfl, rfl⟩ := h
          exact ManagerStep.dispatch w info slots1 hw hinfo hd.1 hd.2.1 hd.2.2
            (Or.inr ⟨by decide, hs⟩)
      · rw [if_neg hd] at h
        by_cases hc : info.PhaseInfo.Status = AppPkgInstallComplete
        · rw [if_pos hc] at h
          cases hdel : deleteWorkerFromPipelinePhase wk.s.ppln info.PhaseInfo.Phase b with
          | none => simp [hdel] at h
          | some r =>
            simp only [hdel, Option.some.injEq, Prod.mk.injEq] at h
            obtain ⟨rfl, rfl⟩ := h
            exact ManagerStep.installed w info r hw hinfo rfl hc hdel
        · rw [if_neg hc] at h
          by_cases hr : info.PhaseInfo.RetryCount ≥ maxRetry
          · rw [if_pos hr] at h
            cases hdel : deleteWorkerFromPipelinePhase wk.s.ppln info.PhaseInfo.Phase b with
            | none => simp [hdel] at h
            | some r =>
              simp only [hdel, Option.some.injEq, Prod.mk.injEq] at h
              obtain ⟨rfl, rfl⟩ := h
              exact ManagerStep.exhausted w info r hw hinfo hc hr hdel
          · rw [if_neg hr] at h
            simp only [Option.some.injEq, Prod.mk.injEq] at h
            obtain ⟨rfl, rfl⟩ := h
            exact ManagerStep.skip w info hw hinfo (Or.inr ⟨lt_of_not_ge hr, hc⟩)

theorem managerBody_sound (maxRetry : Int) (P : AppPhaseType) (b : Nat) (wk wk1 : Walk)
    (brk : Bool) (h : managerBody maxRetry P b wk = some (wk1, brk)) :
    ManagerStep maxRetry P b wk wk1 brk := by
  cases P with
  | PhaseDownload => exact downloadBody_sound maxRetry b wk wk1 brk h
  | PhasePodCopy => exact podCopyBody_sound maxRetry b wk wk1 brk h
  | PhaseInstall => exact installBody_sound maxRetry b wk wk1 brk h
  | unset => simp [managerBody] at h

theorem walkQueue_sound (maxRetry : Int) (P : AppPhaseType) (q : List Nat) (wk wk1 : Walk)
    (brk : Bool) (h : walkQueue (managerBody maxRetry P) q wk = some (wk1, brk)) :
    ManagerWalk maxRetry P q wk wk1 brk := by
  induction q generalizing wk with
  | nil =>
    simp only [walkQueue, Option.some.injEq, Prod.mk.injEq] at h
    obtain ⟨rfl, rfl⟩ := h
    exact ManagerWalk.done wk
  | cons b rest ih =>
    rw [walkQueue] at h
    cases hb : managerBody maxRetry P b wk with
    | none => simp [hb] at h
    | some r =>
      obtain ⟨wk0, brk0⟩ := r
      simp only [hb] at h
      have hstep := managerBody_sound maxRetry P b wk wk0 brk0 hb
      cases brk0 with
      | true =>
        simp only [if_true, Option.some.injEq, Prod.mk.injEq] at h
        obtain ⟨rfl, rfl⟩ := h
        exact ManagerWalk.stop b rest wk wk0 hstep
      | false =>
        simp only [Bool.false_eq_true, if_false] at h
        exact ManagerWalk.next b rest wk wk0 wk1 brk hstep (ih wk0 h)

theorem pass_eq_walk (maxRetry : Int) (P : AppPhaseType) (s : State) (slots : Nat)
    (hP : P ≠ AppPhaseType.unset) :
    phaseManagerPass maxRetry P s slots
      = match s.ppln.pplnPhases P with
        | none => none
        | some pplnPhase =>
          (walkQueue (managerBody maxRetry P) pplnPhase.q
            ⟨s, if P = PhaseDownload then 0 else slots, []⟩).map (fun r => (r.1.s, r.1.sent)) := by
  cases P with
  | PhaseDownload =>
    simp only [phaseManagerPass, downloadPhaseManagerPass, managerBody, if_true]
    cases s.ppln.pplnPhases PhaseDownload with
    | none => rfl
    | some ph =>
      simp only []
      cases walkQueue (downloadBody maxRetry) ph.q ⟨s, 0, []⟩ <;> rfl
  | PhasePodCopy =>
    have hif : (if PhasePodCopy = PhaseDownload then 0 else slots) = slots := if_neg (by decide)
    simp only [phaseManagerPass, podCopyPhaseManagerPass, managerBody, hif]
    cases s.ppln.pplnPhases PhasePodCopy with
    | none => rfl
    | some ph =>
      simp only [podCopyLoop_eq_walkQueue]
  | PhaseInstall =>
    have hif : (if PhaseInstall = PhaseDownload then 0 else slots) = slots := if_neg (by decide)
    simp only [phaseManagerPass, installPhaseManagerPass, managerBody, hif]
    cases s.ppln.pplnPhases PhaseInstall with
    | none => rfl
    | some ph =>
      simp only []
      cases walkQueue (installBody maxRetry) ph.q ⟨s, slots, []⟩ <;> rfl
  | unset => exact absurd rfl hP

theorem pass_sound (maxRetry : Int) (P : AppPhaseType) (s : State) (slots : Nat)
    (r : State × List Nat) (h : phaseManagerPass maxRetry P s slots = some r) :
    ∃ wk1 brk, walkQueue (managerBody maxRetry P) (s.ppln.queue P)
          ⟨s, if P = PhaseDownload then 0 else slots, []⟩ = some (wk1, brk)
      ∧ ManagerWalk maxRetry P (s.ppln.queue P)
          ⟨s, if P = PhaseDownload then 0 else slots, []⟩ wk1 brk
      ∧ r = (wk1.s, wk1.sent) := by
  have hP : P ≠ AppPhaseType.unset := by
    intro hu
    subst hu
    simp [phaseManagerPass] at h
  rw [pass_eq_walk maxRetry P s slots hP] at h
  cases hph : s.ppln.pplnPhases P with
  | none => simp [hph] at h
  | some ph =>
    simp only [hph] at h
    have hq : s.ppln.queue P = ph.q := by simp [AppInstallPipeline.queue, hph]
    rw [hq]
    cases hwalk : walkQueue (managerBody maxRetry P) ph.q
        ⟨s, if P = PhaseDownload then 0 else slots, []⟩ with
    | none => simp [hwalk] at h
    | some res =>
      obtain ⟨wk1, brk⟩ := res
      simp only [hwalk, Option.map_some', Option.some.injEq] at h
      exact ⟨wk1, brk, rfl, walkQueue_sound maxRetry P ph.q _ wk1 brk hwalk, h.symm⟩

theorem managerStep_writes (maxRetry : Int) (P : AppPhaseType) (b : Nat) (wk wk1 : Walk)
    (brk : Bool) (hstep : ManagerStep maxRetry P b wk wk1 brk) :
    WritesThrough b wk.s wk1.s ∧ (∀ (c : Nat), c ≠ b → (c ∈ wk1.sent ↔ c ∈ wk.sent)) := by
  cases hstep with
  | dispatch w info slots1 hw hinfo hretry hidle hstatus hslots =>
    refine ⟨writes_setWorker wk.s b w _ hw ⟨rfl, rfl, rfl, rfl, rfl⟩, ?_⟩
    intro c hc
    simp [hc]
  | blocked w info hw hinfo hretry hidle hstatus hP hslots =>
    exact ⟨writes_setWorker wk.s b w _ hw ⟨rfl, rfl, rfl, rfl, rfl⟩, fun _ _ => Iff.rfl⟩
  | transition w info next s1 hw hinfo hstatus hnext htr =>
    exact ⟨transition_writes wk.s b P next s1 htr, fun _ _ => Iff.rfl⟩
  | installed w info r hw hinfo hP hstatus hdel =>
    exact ⟨writes_setInfo wk.s b w _ r.2 hw, fun _ _ => Iff.rfl⟩
  | exhausted w info r hw hinfo hstatus hretry hdel =>
    exact ⟨writes_setInfo wk.s b w _ r.2 hw, fun _ _ => Iff.rfl⟩
  | skip w info hw hinfo hskip =>
    exact ⟨writes_refl wk.s b w hw, fun _ _ => Iff.rfl⟩

theorem managerStep_keeps_pending (maxRetry : Int) (P : AppPhaseType) (b : Nat)
    (wk wk1 : Walk) (brk : Bool) (hstep : ManagerStep maxRetry P b wk wk1 brk)
    (i : Nat) (info : AppDeploymentInfo) (hi : wk.s.infos[i]? = some info)
    (hretry : info.PhaseInfo.RetryCount < maxRetry)
    (hstatus : info.PhaseInfo.Status ≠ completeStatusOf P) :
    wk1.s.infos[i]? = some info := by
  obtain ⟨⟨w0, hw0, _, _, _, hframe, _⟩, _⟩ := managerStep_writes maxRetry P b wk wk1 brk hstep
  cases hstep with
  | dispatch w info2 slots1 hw hinfo hr hidle hst hslots => exact hi
  | blocked w info2 hw hinfo hr hidle hst hP hslots => exact hi
  | transition w info2 next s1 hw hinfo hst hnext htr =>
    rw [hw0] at hw
    cases hw
    by_cases hiw : i = w0.appDeployInfo
    · subst hiw
      rw [hi] at hinfo
      cases hinfo
      exact absurd hst hstatus
    · rw [hframe i hiw]; exact hi
  | installed w info2 r hw hinfo hP hst hdel =>
    rw [hw0] at hw
    cases hw
    by_cases hiw : i = w0.appDeployInfo
    · subst hiw
      rw [hi] at hinfo
      cases hinfo
      subst hP
      exact absurd hst hstatus
    · rw [hframe i hiw]; exact hi
  | exhausted w info2 r hw hinfo hst hr hdel =>
    rw [hw0] at hw
    cases hw
    by_cases hiw : i = w0.appDeployInfo
    · subst hiw
      rw [hi] at hinfo
      cases hinfo
      omega
    · rw [hframe i hiw]; exact hi
  | skip w info2 hw hinfo hskip => exact hi

theorem sentActive_step (maxRetry : Int) (P : AppPhaseType) (b : Nat) (wk wk1 : Walk)
    (brk : Bool) (hinv : SentActive maxRetry P wk)
    (hstep : ManagerStep maxRetry P b wk wk1 brk) : SentActive maxRetry P wk1 := by
  obtain ⟨⟨w0, hw0, _, hother, _, _, _⟩, hsent⟩ :=
    managerStep_writes maxRetry P b wk wk1 brk hstep
  intro a ha
  by_cases hab : a = b
  · subst hab
    have hlt : a < wk.s.workers.length := (List.getElem?_eq_some_iff.mp hw0).1
    cases hstep with
    | dispatch w info slots1 hw hinfo hr hidle hst hslots =>
      exact ⟨{ w with waiter := some P, isActive := true }, info, by simp [hlt], rfl, hinfo, hr,
        hst⟩
    | blocked w info hw hinfo hr hidle hst hP hslots =>
      obtain ⟨w2, _, hw2, hact, _⟩ := hinv a ha
      rw [hw] at hw2
      cases hw2
      rw [hidle] at hact
      cases hact
    | transition w info next s1 hw hinfo hst hnext htr =>
      obtain ⟨w2, info2, hw2, _, hi2, _, hst2⟩ := hinv a ha
      rw [hw] at hw2
      cases hw2
      rw [hinfo] at hi2
      cases hi2
      exact absurd hst hst2
    | installed w info r hw hinfo hP hst hdel =>
      obtain ⟨w2, info2, hw2, _, hi2, _, hst2⟩ := hinv a ha
      rw [hw] at hw2
      cases hw2
      rw [hinfo] at hi2
      cases hi2
      subst hP
      exact absurd hst hst2
    | exhausted w info r hw hinfo hst hr hdel =>
      obtain ⟨w2, info2, hw2, _, hi2, hr2, _⟩ := hinv a ha
      rw [hw] at hw2
      cases hw2
      rw [hinfo] at hi2
      cases hi2
      omega
    | skip w info hw hinfo hskip => exact hinv a ha
  · obtain ⟨w, info, hw, hact, hi, hr, hst⟩ := hinv a ((hsent a hab).mp ha)
    have hlt : a < wk.s.workers.length := (List.getElem?_eq_some_iff.mp hw).1
    exact ⟨w, info, by rw [hother a hab hlt]; exact hw, hact,
      managerStep_keeps_pending maxRetry P b wk wk1 brk hstep w.appDeployInfo info hi hr hst,
      hr, hst⟩

theorem sentActive_walk (maxRetry : Int) (P : AppPhaseType) (q : List Nat) (wk wk1 : Walk)
    (brk : Bool) (hwalk : ManagerWalk maxRetry P q wk wk1 brk)
    (hinv : SentActive maxRetry P wk) : SentActive maxRetry P wk1 := by
  induction hwalk with
  | done wk => exact hinv
  | stop b rest wk wk1 hstep => exact sentActive_step maxRetry P b wk wk1 true hinv hstep
  | next b rest wk wk1 wk2 brk hstep hrest ih =>
    exact ih (sentActive_step maxRetry P b wk wk1 false hinv hstep)

theorem walkQueue_append (body : Nat → Walk → Option (Walk × Bool)) (pre rest : List Nat)
    (wk wk0 : Walk) (h : walkQueue body pre wk = some (wk0, false)) :
    walkQueue body (pre ++ rest) wk = walkQueue body rest wk0 := by
  induction pre generalizing wk with
  | nil =>
    simp only [walkQueue, Option.some.injEq, Prod.mk.injEq] at h
    rw [h.1]
    rfl
  | cons b pre1 ih =>
    rw [walkQueue] at h
    rw [List.cons_append, walkQueue]
    cases hb : body b wk with
    | none => simp [hb] at h
    | some r =>
      obtain ⟨wk2, brk2⟩ := r
      simp only [hb] at h ⊢
      cases brk2 with
      | true => simp at h
      | false =>
        simp only [Bool.false_eq_true, if_false] at h ⊢
        exact ih wk2 h

theorem managerBody_break (maxRetry : Int) (P : AppPhaseType) (b : Nat) (wk wk1 : Walk)
    (h : managerBody maxRetry P b wk = some (wk1, true)) :
    P ≠ PhaseDownload ∧ wk.slots = 0 ∧ wk1.sent = wk.sent
      ∧ ∃ w1, wk1.s.workers[b]? = some w1 ∧ w1.isActive = false ∧ w1.waiter = none := by
  have hstep := managerBody_sound maxRetry P b wk wk1 true h
  cases hstep with
  | blocked w info hw hinfo hr hidle hst hP hslots =>
    have hlt : b < wk.s.workers.length := (List.getElem?_eq_some_iff.mp hw).1
    exact ⟨hP, hslots, rfl, { w with waiter := none }, by simp [hlt], hidle, rfl⟩

theorem writes_frame (k b : Nat) (s s1 : State) (h : WritesThrough b s s1)
    (habove : WorkersAbove k s) :
    WorkersAbove k s1 ∧ ∀ (i : Nat), i < k → s1.infos[i]? = s.infos[i]? := by
  obtain ⟨w, hw, _, _, hjobs, hframe, _⟩ := h
  constructor
  · intro w1 hw1
    obtain ⟨w2, hw2, hjob⟩ := hjobs w1 hw1
    rw [hjob.1]
    exact habove w2 hw2
  · intro i hi
    have hk := habove w (mem_of_getElem?_eq_some hw)
    exact hframe i (by omega)

theorem managerWalk_frame (maxRetry : Int) (P : AppPhaseType) (k : Nat) (q : List Nat)
    (wk wk1 : Walk) (brk : Bool) (hwalk : ManagerWalk maxRetry P q wk wk1 brk)
    (habove : WorkersAbove k wk.s) :
    WorkersAbove k wk1.s ∧ ∀ (i : Nat), i < k → wk1.s.infos[i]? = wk.s.infos[i]? := by
  induction hwalk with
  | done wk => exact ⟨habove, fun _ _ => rfl⟩
  | stop b rest wk wk1 hstep =>
    exact writes_frame k b wk.s wk1.s (managerStep_writes maxRetry P b wk wk1 true hstep).1 habove
  | next b rest wk wk1 wk2 brk hstep hrest ih =>
    obtain ⟨h1, h2⟩ :=
      writes_frame k b wk.s wk1.s (managerStep_writes maxRetry P b wk wk1 false hstep).1 habove
    obtain ⟨h3, h4⟩ := ih h1
    exact ⟨h3, fun i hi => by rw [h4 i hi, h2 i hi]⟩

theorem Download_writes (s : State) (activeWorkers : Nat) (worker : Nat)
    (remoteFile : Option String) (downloadOk : Bool) (r : State × Nat)
    (h : Download s activeWorkers worker remoteFile downloadOk = some r) :
    WritesThrough worker s r.1 := by
  unfold Download at h
  cases hw : s.workers[worker]? with
  | none => simp [hw] at h
  | some w =>
    simp only [hw] at h
    cases hinfo : s.infos[w.appDeployInfo]? with
    | none => simp [hinfo] at h
    | some info =>
      simp only [hinfo] at h
      cases hwt : w.waiter with
      | none => simp [hwt] at h
      | some wt =>
        simp only [hwt, Option.some.injEq] at h
        subst h
        exact writes_setInfo s worker w _ s.ppln hw

theorem scheduleDownloadsStep_writes (stagingRoot : String) (maxWorkers : Nat)
    (d d1 : DownloadScheduler) (worker : Nat) (alreadyDownloaded : Bool) (scope : String)
    (mkdirOk : Bool)
    (h : scheduleDownloadsStep stagingRoot maxWorkers d worker alreadyDownloaded scope mkdirOk
      = some d1) :
    d1.s = d.s ∨ WritesThrough worker d.s d1.s := by
  unfold scheduleDownloadsStep at h
  by_cases hcap : d.activeWorkers ≤ maxWorkers
  · rw [if_pos hcap] at h
    cases hw : d.s.workers[worker]? with
    | none => simp [hw] at h
    | some w =>
      simp only [hw] at h
      cases hinfo : d.s.infos[w.appDeployInfo]? with
      | none => simp [hinfo] at h
      | some info =>
        simp only [hinfo] at h
        by_cases hspace : uint64Sub d.s.ppln.availableDiskSpace info.Size ≤ 0
        · rw [if_pos hspace] at h
          simp only [Option.some.injEq] at h
          subst h
          exact Or.inl rfl
        · rw [if_neg hspace] at h
          cases hwt : w.waiter with
          | none => simp [hwt] at h
          | some wt =>
            simp only [hwt] at h
            cases mkdirOk with
            | false =>
              simp only [if_true, Option.some.injEq] at h
              subst h
              exact Or.inr (writes_setInfo d.s worker w _ _ hw)
            | true =>
              simp only [Bool.true_eq_false, if_false, Option.some.injEq] at h
              subst h
              exact Or.inr (writes_setInfo d.s worker w _ _ hw)
  · rw [if_neg hcap] at h
    simp only [Option.some.injEq] at h
    subst h
    exact Or.inl rfl

theorem schedulerRun_frame (maxRetry : Int) (k : Nat) (s s2 : State)
    (hrun : SchedulerRun maxRetry s s2) (habove : WorkersAbove k s) :
    WorkersAbove k s2 ∧ ∀ (i : Nat), i < k → s2.infos[i]? = s.infos[i]? := by
  induction hrun with
  | start => exact ⟨habove, fun _ _ => rfl⟩
  | pass s1 P slots r hrun hpass ih =>
    obtain ⟨h1, h2⟩ := ih
    obtain ⟨wk1, brk, _, hwalk, hr⟩ := pass_sound maxRetry P s1 slots r hpass
    obtain ⟨h3, h4⟩ := managerWalk_frame maxRetry P k _ _ wk1 brk hwalk h1
    rw [hr]
    exact ⟨h3, fun i hi => by rw [h4 i hi, h2 i hi]⟩
  | transition s1 s3 worker cur next hrun htr ih =>
    obtain ⟨h1, h2⟩ := ih
    obtain ⟨h3, h4⟩ := writes_frame k worker s1 s3 (transition_writes s1 worker cur next s3 htr) h1
    exact ⟨h3, fun i hi => by rw [h4 i hi, h2 i hi]⟩
  | schedule d d1 stagingRoot maxWorkers worker alreadyDownloaded scope mkdirOk hrun hstep ih =>
    obtain ⟨h1, h2⟩ := ih
    rcases scheduleDownloadsStep_writes stagingRoot maxWorkers d d1 worker alreadyDownloaded
      scope mkdirOk hstep with h | h
    · rw [h]; exact ⟨h1, h2⟩
    · obtain ⟨h3, h4⟩ := writes_frame k worker d.s d1.s h h1
      exact ⟨h3, fun i hi => by rw [h4 i hi, h2 i hi]⟩
  | download s1 activeWorkers worker remoteFile downloadOk r hrun hdownload ih =>
    obtain ⟨h1, h2⟩ := ih
    obtain ⟨h3, h4⟩ := writes_frame k worker s1 r.1
      (Download_writes s1 activeWorkers worker remoteFile downloadOk r hdownload) h1
    exact ⟨h3, fun i hi => by rw [h4 i hi, h2 i hi]⟩

theorem seedPipeline_copies (maxRetry : Int) (client : ControllerClient) (cr : MetaObject)
    (cfg : AppFrameworkSpec) (srcs : List (String × AppSrcDeployInfo))
    (s : State) (cl : List Nat)
    (hdl : (s.ppln.pplnPhases PhaseDownload).isSome)
    (hpc : (s.ppln.pplnPhases PhasePodCopy).isSome)
    (hin : (s.ppln.pplnPhases PhaseInstall).isSome) :
    ∃ s1 cl1 news, seedPipeline maxRetry client cr cfg srcs (s, cl) = some (s1, cl1)
      ∧ s1.workers = s.workers ++ news
      ∧ s1.infos = s.infos ++ (srcs.map (fun src => src.2.AppDeploymentInfoList)).flatten
      ∧ ∀ w ∈ news, SeededWorker client cr s.infos.length w := by
  induction srcs generalizing s cl with
  | nil => exact ⟨s, cl, [], rfl, by simp, by simp, fun w hw => by cases hw⟩
  | cons src rest ih =>
    obtain ⟨s1, cl1, n1, h1, hw1, hi1, hs1, hn1⟩ :=
      seedAppSrc_workers maxRetry client cr cfg src.1 src.2.AppDeploymentInfoList s cl hdl hpc hin
    obtain ⟨s2, cl2, n2, h2, hw2, hi2, hn2⟩ := ih s1 cl1 (by rw [hs1]; exact hdl)
      (by rw [hs1]; exact hpc) (by rw [hs1]; exact hin)
    refine ⟨s2, cl2, n1 ++ n2, ?_, ?_, ?_, ?_⟩
    · simp only [seedPipeline, h1, h2]
    · rw [hw2, hw1, List.append_assoc]
    · rw [hi2, hi1, List.append_assoc]
      simp
    · intro w hw
      rcases List.mem_append.mp hw with h | h
      · exact hn1 w h
      · exact seededWorker_mono (by rw [hi1]; simp) (hn2 w h)

/-- C29: let the entries of the AppDeploymentContext be the package records at the addresses
below k when afwSchedulerEntry begins to seed, none of them referred to by a worker.  On a
pipeline with the three phases the seeding step returns; it allocates one new record per
entry of the context, a copy of the entry, and every worker it creates refers to such a
copy.  After any run of the scheduler (passes of the phase managers, calls of
TransitionWorkerPhase, turns of the download dispatcher, download tasks) every record below k
is exactly as it was before the call: PhaseInfo, AuxPhaseInfo and DeployStatus included. -/
theorem seeded_workers_work_on_copies (maxRetry : Int) (client : ControllerClient)
    (cr : MetaObject) (cfg : AppFrameworkSpec) (srcs : List (String × AppSrcDeployInfo))
    (s : State) (cl : List Nat) (k : Nat)
    (hk : k ≤ s.infos.length) (habove : WorkersAbove k s)
    (hdl : (s.ppln.pplnPhases PhaseDownload).isSome)
    (hpc : (s.ppln.pplnPhases PhasePodCopy).isSome)
    (hin : (s.ppln.pplnPhases PhaseInstall).isSome) :
    ∃ s1 cl1, seedPipeline maxRetry client cr cfg srcs (s, cl) = some (s1, cl1)
      ∧ s1.infos = s.infos ++ (srcs.map (fun src => src.2.AppDeploymentInfoList)).flatten
      ∧ WorkersAbove k s1
      ∧ ∀ (s2 : State), SchedulerRun maxRetry s1 s2 →
          ∀ (i : Nat), i < k → s2.infos[i]? = s.infos[i]? := by
  obtain ⟨s1, cl1, news, hseed, hws, hinfos, hnews⟩ :=
    seedPipeline_copies maxRetry client cr cfg srcs s cl hdl hpc hin
  have habove1 : WorkersAbove k s1 := by
    intro w hw
    rw [hws, List.mem_append] at hw
    rcases hw with h | h
    · exact habove w h
    · exact Nat.le_trans hk (hnews w h).2.2.2.1
  refine ⟨s1, cl1, hseed, hinfos, habove1, ?_⟩
  intro s2 hrun i hi
  rw [(schedulerRun_frame maxRetry k s1 s2 hrun habove1).2 i hi, hinfos,
    List.getElem?_append_left (by omega)]

theorem seeded_workers_work_on_copies_witness :
    1 ≤ exContextState.infos.length ∧ WorkersAbove 1 exContextState
      ∧ (exContextState.ppln.pplnPhases PhaseDownload).isSome
      ∧ (exContextState.ppln.pplnPhases PhasePodCopy).isSome
      ∧ (exContextState.ppln.pplnPhases PhaseInstall).isSome
      ∧ ∃ s1 cl1, seedPipeline 3 exClient exCR exConfig
            [("adminApps", { AppDeploymentInfoList := [exDownloadPendingApp] })]
            (exContextState, []) = some (s1, cl1)
        ∧ s1.infos = exContextState.infos
            ++ ([("adminApps", ({ AppDeploymentInfoList := [exDownloadPendingApp] } :
                AppSrcDeployInfo))].map (fun src => src.2.AppDeploymentInfoList)).flatten
        ∧ WorkersAbove 1 s1
        ∧ ∀ (s2 : State), SchedulerRun 3 s1 s2 →
            ∀ (i : Nat), i < 1 → s2.infos[i]? = exContextState.infos[i]? :=
  have habove : WorkersAbove 1 exContextState := fun w hw => by cases hw
  ⟨by decide, habove, by decide, by decide, by decide,
    seeded_workers_work_on_copies 3 exClient exCR exConfig
      [("adminApps", { AppDeploymentInfoList := [exDownloadPendingApp] })]
      exContextState [] 1 (by decide) habove (by decide) (by decide) (by decide)⟩

theorem addWorkers_of_some (ppln : AppInstallPipeline) (P : AppPhaseType) (ws : List Nat)
    (ppln1 : AppInstallPipeline) (h : addWorkersToPipelinePhase ppln P ws = some ppln1) :
    (ppln.pplnPhases P).isSome
      ∧ (∀ Q, (ppln1.pplnPhases Q).isSome = (ppln.pplnPhases Q).isSome)
      ∧ ppln1.queue P = ppln.queue P ++ ws
      ∧ (∀ Q, Q ≠ P → ppln1.queue Q = ppln.queue Q) := by
  have hp : (ppln.pplnPhases P).isSome := by
    unfold addWorkersToPipelinePhase at h
    cases hph : ppln.pplnPhases P with
    | none => simp [hph] at h
    | some _ => rfl
  obtain ⟨p1, h1, h2⟩ := addWorkers_queues ppln P ws hp
  rw [h] at h1
  cases h1
  exact ⟨hp, h2⟩

theorem deleteWorker_of_some (ppln : AppInstallPipeline) (P : AppPhaseType) (b : Nat)
    (r : Bool × AppInstallPipeline) (h : deleteWorkerFromPipelinePhase ppln P b = some r) :
    (ppln.pplnPhases P).isSome
      ∧ (∀ Q, (r.2.pplnPhases Q).isSome = (ppln.pplnPhases Q).isSome)
      ∧ (∀ Q c, c ≠ b → (r.2.queue Q).count c = (ppln.queue Q).count c)
      ∧ (r.2.queue P).count b = (ppln.queue P).count b - 1
      ∧ (∀ Q, Q ≠ P → r.2.queue Q = ppln.queue Q)
      ∧ (∀ Q a, a ∈ r.2.queue Q → a ∈ ppln.queue Q) := by
  have hp : (ppln.pplnPhases P).isSome := by
    unfold deleteWorkerFromPipelinePhase at h
    cases hph : ppln.pplnPhases P with
    | none => simp [hph] at h
    | some _ => rfl
  obtain ⟨r1, h1, h2⟩ := deleteWorker_queues ppln P b hp
  rw [h] at h1
  cases h1
  exact ⟨hp, h2⟩

theorem getElem?_set_cases {α : Type} (l : List α) (i j : Nat) (x y : α)
    (h : (l.set i x)[j]? = some y) : ∃ z, l[j]? = some z ∧ (y = z ∨ (j = i ∧ y = x)) := by
  by_cases hji : j = i
  · subst hji
    have hlt : j < l.length := by
      have := (List.getElem?_eq_some_iff.mp h).1
      simpa using this
    rw [List.getElem?_set_self hlt] at h
    cases h
    exact ⟨l[j], List.getElem?_eq_getElem hlt, Or.inr ⟨rfl, rfl⟩⟩
  · rw [List.getElem?_set_ne (Ne.symm hji)] at h
    exact ⟨y, h, Or.inl rfl⟩

theorem simpleTransition_ppln (s : State) (worker : Nat) (w : PipelineWorker)
    (info : AppDeploymentInfo) (next : AppPhaseType) (s1 : State)
    (h : simpleTransition s worker w info next = some s1) :
    addWorkersToPipelinePhase s.ppln next [worker] = some s1.ppln := by
  unfold simpleTransition at h
  simp only [] at h
  cases hadd : addWorkersToPipelinePhase s.ppln next [worker] with
  | none => simp [hadd] at h
  | some ppln =>
    simp only [hadd, Option.some.injEq] at h
    subst h
    rfl

theorem fanOutTransition_ppln (s : State) (w : PipelineWorker)
    (info : AppDeploymentInfo) (R : Int) (s1 : State)
    (h : fanOutTransition s w info R = some s1) :
    ∃ cw iw ppln1, addWorkersToPipelinePhase s.ppln PhasePodCopy cw = some ppln1
      ∧ addWorkersToPipelinePhase ppln1 PhaseInstall iw = some s1.ppln
      ∧ (∀ x ∈ cw, s.workers.length ≤ x ∧ x < s1.workers.length)
      ∧ (∀ x ∈ iw, s.workers.length ≤ x ∧ x < s1.workers.length) := by
  unfold fanOutTransition at h
  simp only [] at h
  by_cases haux : info.AuxPhaseInfo.length = 0
  · by_cases hR : R < 0
    · simp [haux, hR] at h
    · simp only [haux, hR, if_true, if_false] at h
      cases hadd1 : addWorkersToPipelinePhase s.ppln PhasePodCopy
          ((List.range R.toNat).map (fun i => s.workers.length + i)) with
      | none => simp [hadd1] at h
      | some ppln1 =>
        simp only [hadd1] at h
        cases hadd2 : addWorkersToPipelinePhase ppln1 PhaseInstall [] with
        | none => simp [hadd2] at h
        | some ppln2 =>
          simp only [hadd2, Option.some.injEq] at h
          subst h
          refine ⟨_, [], ppln1, hadd1, hadd2, ?_, fun x hx => by cases hx⟩
          intro x hx
          rw [List.mem_map] at hx
          obtain ⟨i, hi, rfl⟩ := hx
          rw [List.mem_range] at hi
          simp only [List.length_append, fanOutFresh_snd, List.length_map, List.length_range']
          omega
  · simp only [haux, if_false] at h
    cases hadd1 : addWorkersToPipelinePhase s.ppln PhasePodCopy
        (fanOutResume w s.workers.length info.AuxPhaseInfo 0).2.1 with
    | none => simp [hadd1] at h
    | some ppln1 =>
      simp only [hadd1] at h
      cases hadd2 : addWorkersToPipelinePhase ppln1 PhaseInstall
          (fanOutResume w s.workers.length info.AuxPhaseInfo 0).2.2 with
      | none => simp [hadd2] at h
      | some ppln2 =>
        simp only [hadd2, Option.some.injEq] at h
        subst h
        have hb := fanOutResume_bounds w s.workers.length info.AuxPhaseInfo 0
        refine ⟨_, _, ppln1, hadd1, hadd2, ?_, ?_⟩
        · intro x hx
          have := hb.1 x hx
          simp only [List.length_append, fanOutResume_copies, List.length_map,
            List.length_range']
          omega
        · intro x hx
          have := hb.2 x hx
          simp only [List.length_append, fanOutResume_copies, List.length_map,
            List.length_range']
          omega

theorem transition_queues (s : State) (worker : Nat) (cur next : AppPhaseType) (s1 : State)
    (hnext : next ≠ AppPhaseType.unset)
    (h : TransitionWorkerPhase s worker cur next = some s1) : QueuesThrough worker s s1 := by
  unfold TransitionWorkerPhase at h
  cases hw : s.workers[worker]? with
  | none => simp [hw] at h
  | some w =>
    simp only [hw] at h
    cases hinfo : s.infos[w.appDeployInfo]? with
    | none => simp [hinfo] at h
    | some info =>
      simp only [hinfo] at h
      cases hrc : replicaCountOf w with
      | none => simp [hrc] at h
      | some R =>
        simp only [hrc] at h
        generalize hm : (if R = 1 ∨ cur ≠ PhaseDownload then
            simpleTransition s worker w info next
          else if cur = PhaseDownload ∧ w.cr.Kind = "Standalone" then
            fanOutTransition s w info R
          else some s) = moved at h
        cases moved with
        | none => simp at h
        | some s2 =>
          simp only [] at h
          cases hdel : deleteWorkerFromPipelinePhase s2.ppln cur worker with
          | none => simp [hdel] at h
          | some r =>
            simp only [hdel, Option.some.injEq] at h
            subst h
            have hwlt : worker < s.workers.length := (List.getElem?_eq_some_iff.mp hw).1
            obtain ⟨_, hds, hdc, _, _, hdm⟩ := deleteWorker_of_some s2.ppln cur worker r hdel
            -- the facts about the state before the deletion
            have hmid : (∀ Q, (s2.ppln.pplnPhases Q).isSome = (s.ppln.pplnPhases Q).isSome)
                ∧ (∀ (Q : AppPhaseType) (c : Nat), c ≠ worker → c < s.workers.length →
                    (s2.ppln.queue Q).count c = (s.ppln.queue Q).count c)
                ∧ (∀ Q, ∀ a ∈ s2.ppln.queue Q, a ∈ s.ppln.queue Q ∨ a < s2.workers.length)
                ∧ (∀ (i : Nat) (info1 : AppDeploymentInfo), s2.infos[i]? = some info1 →
                    ∃ info, s.infos[i]? = some info
                      ∧ (info.PhaseInfo.Phase ≠ AppPhaseType.unset →
                          info1.PhaseInfo.Phase ≠ AppPhaseType.unset)) := by
              split_ifs at hm with h1 h2
              · obtain ⟨hws, hinfos⟩ := simpleTransition_shape s worker w info next s2 hm
                obtain ⟨_, has, haq, hao⟩ := addWorkers_of_some s.ppln next [worker] s2.ppln
                  (simpleTransition_ppln s worker w info next s2 hm)
                refine ⟨has, ?_, ?_, ?_⟩
                · intro Q c hc _
                  by_cases hQ : Q = next
                  · subst hQ
                    rw [haq, List.count_append, List.count_singleton]
                    simp [Ne.symm hc]
                  · rw [hao Q hQ]
                · intro Q a ha
                  by_cases hQ : Q = next
                  · subst hQ
                    rw [haq, List.mem_append, List.mem_singleton] at ha
                    rcases ha with ha | ha
                    · exact Or.inl ha
                    · right
                      rw [ha, hws, List.length_set]
                      exact hwlt
                  · rw [hao Q hQ] at ha
                    exact Or.inl ha
                · intro i info1 hi
                  rw [hinfos] at hi
                  obtain ⟨z, hz, hor⟩ := getElem?_set_cases _ _ _ _ _ hi
                  refine ⟨z, hz, fun hzp => ?_⟩
                  rcases hor with h3 | ⟨_, h3⟩
                  · rw [h3]; exact hzp
                  · rw [h3]; exact hnext
              · obtain ⟨n, aux, hws, hinfos⟩ := fanOutTransition_shape s w info R s2 hm
                obtain ⟨cw, iw, ppln1, hadd1, hadd2, hcw, hiw⟩ :=
                  fanOutTransition_ppln s w info R s2 hm
                obtain ⟨_, has1, haq1, hao1⟩ :=
                  addWorkers_of_some s.ppln PhasePodCopy cw ppln1 hadd1
                obtain ⟨_, has2, haq2, hao2⟩ :=
                  addWorkers_of_some ppln1 PhaseInstall iw s2.ppln hadd2
                refine ⟨fun Q => (has2 Q).trans (has1 Q), ?_, ?_, ?_⟩
                · intro Q c _ hclt
                  by_cases hQ2 : Q = PhaseInstall
                  · subst hQ2
                    rw [haq2, count_append_fresh _ iw c s.workers.length hclt
                      (fun x hx => (hiw x hx).1), hao1 PhaseInstall (by decide)]
                  · rw [hao2 Q hQ2]
                    by_cases hQ1 : Q = PhasePodCopy
                    · subst hQ1
                      rw [haq1, count_append_fresh _ cw c s.workers.length hclt
                        (fun x hx => (hcw x hx).1)]
                    · rw [hao1 Q hQ1]
                · intro Q a ha
                  by_cases hQ2 : Q = PhaseInstall
                  · subst hQ2
                    rw [haq2, List.mem_append] at ha
                    rcases ha with ha | ha
                    · rw [hao1 PhaseInstall (by decide)] at ha
                      exact Or.inl ha
                    · exact Or.inr (hiw a ha).2
                  · rw [hao2 Q hQ2] at ha
                    by_cases hQ1 : Q = PhasePodCopy
                    · subst hQ1
                      rw [haq1, List.mem_append] at ha
                      rcases ha with ha | ha
                      · exact Or.inl ha
                      · exact Or.inr (hcw a ha).2
                    · rw [hao1 Q hQ1] at ha
                      exact Or.inl ha
                · intro i info1 hi
                  rw [hinfos] at hi
                  obtain ⟨z, hz, hor⟩ := getElem?_set_cases _ _ _ _ _ hi
                  refine ⟨z, hz, fun hzp => ?_⟩
                  rcases hor with h3 | ⟨h4, h3⟩
                  · rw [h3]; exact hzp
                  · subst h4
                    rw [hinfo] at hz
                    cases hz
                    rw [h3]
                    exact hzp
              · simp only [Option.some.injEq] at hm
                subst hm
                exact ⟨fun _ => rfl, fun _ _ _ _ => rfl, fun _ _ ha => Or.inl ha,
                  fun i info1 hi => ⟨info1, hi, id⟩⟩
            obtain ⟨hms, hmc, hmm, hmi⟩ := hmid
            refine ⟨fun Q => (hds Q).trans (hms Q), ?_, ?_, hmi⟩
            · intro Q c hc hclt
              show (r.2.queue Q).count c = _
              rw [hdc Q c hc, hmc Q c hc hclt]
            · intro Q a ha
              exact hmm Q a (hdm Q a ha)

theorem queues_refl (b : Nat) (s : State) : QueuesThrough b s s :=
  ⟨fun _ => rfl, fun _ _ _ _ => rfl, fun _ _ ha => Or.inl ha, fun _ info1 hi => ⟨info1, hi, id⟩⟩

theorem queues_setInfo_delete (s : State) (b : Nat) (w : PipelineWorker)
    (info info1 : AppDeploymentInfo) (Q0 : AppPhaseType) (r : Bool × AppInstallPipeline)
    (hinfo : s.infos[w.appDeployInfo]? = some info)
    (hphase : info.PhaseInfo.Phase ≠ AppPhaseType.unset →
      info1.PhaseInfo.Phase ≠ AppPhaseType.unset)
    (hdel : deleteWorkerFromPipelinePhase s.ppln Q0 b = some r) :
    QueuesThrough b s ⟨s.workers, s.infos.set w.appDeployInfo info1, r.2⟩ := by
  obtain ⟨_, hds, hdc, _, _, hdm⟩ := deleteWorker_of_some s.ppln Q0 b r hdel
  refine ⟨hds, fun Q c hc _ => hdc Q c hc, fun Q a ha => Or.inl (hdm Q a ha), ?_⟩
  intro i info2 hi
  obtain ⟨z, hz, hor⟩ := getElem?_set_cases _ _ _ _ _ hi
  refine ⟨z, hz, fun hzp => ?_⟩
  rcases hor with h3 | ⟨h4, h3⟩
  · rw [h3]; exact hzp
  · subst h4
    rw [hinfo] at hz
    cases hz
    rw [h3]
    exact hphase hzp

theorem queues_setWorker (s : State) (b : Nat) (w1 : PipelineWorker) :
    QueuesThrough b s ⟨s.workers.set b w1, s.infos, s.ppln⟩ := by
  refine ⟨fun _ => rfl, fun _ _ _ _ => rfl, fun _ _ ha => Or.inl ha,
    fun _ info1 hi => ⟨info1, hi, id⟩⟩

theorem managerStep_frame (maxRetry : Int) (P : AppPhaseType) (b : Nat) (wk wk1 : Walk)
    (brk : Bool) (hstep : ManagerStep maxRetry P b wk wk1 brk) : StepFrame b wk wk1 := by
  obtain ⟨hwr, hsent⟩ := managerStep_writes maxRetry P b wk wk1 brk hstep
  refine ⟨hwr, ?_, hsent⟩
  cases hstep with
  | dispatch w info slots1 hw hinfo hretry hidle hstatus hslots =>
    exact queues_setWorker wk.s b _
  | blocked w info hw hinfo hretry hidle hstatus hP hslots =>
    exact queues_setWorker wk.s b _
  | transition w info next s1 hw hinfo hstatus hnext htr =>
    have hn : next ≠ AppPhaseType.unset := by
      rcases hnext with ⟨_, h2⟩ | ⟨_, h2⟩ <;> subst h2 <;> decide
    exact transition_queues wk.s b P next s1 hn htr
  | installed w info r hw hinfo hP hstatus hdel =>
    exact queues_setInfo_delete wk.s b w info _ _ r hinfo (installedInfo_phase w info) hdel
  | exhausted w info r hw hinfo hstatus hretry hdel =>
    exact queues_setInfo_delete wk.s b w info (withStatus info (errorStatusOf P)) _ r hinfo
      (fun h => h) hdel
  | skip w info hw hinfo hskip => exact queues_refl b wk.s

theorem wf_phase_present {s : State} (hwf : WellFormed s) {P : AppPhaseType}
    (hP : P ≠ AppPhaseType.unset) : (s.ppln.pplnPhases P).isSome := by
  cases P with
  | PhaseDownload => exact hwf.1
  | PhasePodCopy => exact hwf.2.1
  | PhaseInstall => exact hwf.2.2.1
  | unset => exact absurd rfl hP

theorem wf_lookup {s : State} (hwf : WellFormed s) {a : Nat} (ha : a < s.workers.length) :
    ∃ w info R cfg, s.workers[a]? = some w ∧ s.infos[w.appDeployInfo]? = some info
      ∧ replicaCountOf w = some R ∧ 0 ≤ R ∧ w.afwConfig = some cfg
      ∧ info.PhaseInfo.Phase ≠ AppPhaseType.unset := by
  have hw : s.workers[a]? = some s.workers[a] := List.getElem?_eq_getElem ha
  have hmem : s.workers[a] ∈ s.workers := List.getElem_mem ha
  obtain ⟨hlt, ⟨R, hR, hR0⟩, hcfg, hphase⟩ := hwf.2.2.2.1 _ hmem
  have hi : s.infos[s.workers[a].appDeployInfo]? = some s.infos[s.workers[a].appDeployInfo] :=
    List.getElem?_eq_getElem hlt
  obtain ⟨cfg, hcfg1⟩ := Option.isSome_iff_exists.mp hcfg
  exact ⟨_, _, R, cfg, hw, hi, hR, hR0, hcfg1, hphase _ hi⟩

theorem wf_of_frame (s s1 : State) (b : Nat) (hwf : WellFormed s)
    (hwr : WritesThrough b s s1) (hq : QueuesThrough b s s1) : WellFormed s1 := by
  obtain ⟨w, _, hlen, _, hjobs, _, hilen⟩ := hwr
  obtain ⟨hs, _, hm, hi⟩ := hq
  refine ⟨by rw [hs]; exact hwf.1, by rw [hs]; exact hwf.2.1, by rw [hs]; exact hwf.2.2.1,
    ?_, ?_⟩
  · intro w1 hw1
    obtain ⟨w2, hw2, hjob⟩ := hjobs w1 hw1
    obtain ⟨hlt, ⟨R, hR, hR0⟩, hcfg, hphase⟩ := hwf.2.2.2.1 w2 hw2
    refine ⟨by rw [hjob.1, hilen]; exact hlt,
      ⟨R, by rw [sameJob_replicaCount hjob]; exact hR, hR0⟩, by rw [hjob.2.2.1]; exact hcfg, ?_⟩
    intro info1 hinfo1
    rw [hjob.1] at hinfo1
    obtain ⟨info, hinfo, himp⟩ := hi _ info1 hinfo1
    exact himp (hphase info hinfo)
  · intro Q a ha
    rcases hm Q a ha with h | h
    · exact Nat.lt_of_lt_of_le (hwf.2.2.2.2 Q a h) hlen
    · exact h

theorem wf_of_step (maxRetry : Int) (P : AppPhaseType) (b : Nat) (wk wk1 : Walk) (brk : Bool)
    (hwf : WellFormed wk.s) (hstep : ManagerStep maxRetry P b wk wk1 brk) :
    WellFormed wk1.s := by
  obtain ⟨hwr, hq, _⟩ := managerStep_frame maxRetry P b wk wk1 brk hstep
  exact wf_of_frame wk.s wk1.s b hwf hwr hq

theorem transition_total (s : State) (worker : Nat) (cur next : AppPhaseType)
    (hwf : WellFormed s) (hb : worker < s.workers.length)
    (hcur : cur ≠ AppPhaseType.unset) (hnext : next ≠ AppPhaseType.unset) :
    ∃ s1, TransitionWorkerPhase s worker cur next = some s1 := by
  obtain ⟨w, info, R, _, hw, hinfo, hrc, hR, _, _⟩ := wf_lookup hwf hb
  have hcurp := wf_phase_present hwf hcur
  have hnextp := wf_phase_present hwf hnext
  by_cases hsimple : R = 1 ∨ cur ≠ PhaseDownload
  · obtain ⟨s1, _, _, htr, _⟩ :=
      transition_simple_unfold s worker cur next w info R hw hinfo hrc hsimple hcurp hnextp
    exact ⟨s1, htr⟩
  · have hR1 : R ≠ 1 := fun h => hsimple (Or.inl h)
    have hcd : cur = PhaseDownload := by
      by_contra h
      exact hsimple (Or.inr h)
    subst hcd
    by_cases hkind : w.cr.Kind = "Standalone"
    · obtain ⟨aux, copies, cw, iw, halloc, _, _, _⟩ := fanOut_alloc s w info R hR
      obtain ⟨ppln1, hadd1, hs1, _⟩ := addWorkers_queues s.ppln PhasePodCopy cw hwf.2.1
      obtain ⟨ppln2, hadd2, hs2, _⟩ :=
        addWorkers_queues ppln1 PhaseInstall iw (by rw [hs1]; exact hwf.2.2.1)
      obtain ⟨r, hdel, _⟩ :=
        deleteWorker_queues ppln2 PhaseDownload worker (by rw [hs2, hs1]; exact hwf.1)
      have hfan : fanOutTransition s w info R
          = some ⟨s.workers ++ copies,
              s.infos.set w.appDeployInfo { info with AuxPhaseInfo := aux }, ppln2⟩ := by
        unfold fanOutTransition
        simp only []
        rw [halloc]
        simp only [hadd1, hadd2]
      refine ⟨⟨s.workers ++ copies,
        s.infos.set w.appDeployInfo { info with AuxPhaseInfo := aux }, r.2⟩, ?_⟩
      unfold TransitionWorkerPhase
      simp only [hw, hinfo, hrc, hR1, hkind, hfan, hdel, ne_eq, not_true_eq_false, or_self,
        if_false, and_self, if_true]
    · obtain ⟨r, hdel, _⟩ := deleteWorker_queues s.ppln PhaseDownload worker hwf.1
      refine ⟨{ s with ppln := r.2 }, ?_⟩
      unfold TransitionWorkerPhase
      simp only [hw, hinfo, hrc, hR1, hkind, hdel, ne_eq, not_true_eq_false, or_self,
        if_false, and_false]

theorem downloadBody_total (maxRetry : Int) (b : Nat) (wk : Walk)
    (hwf : WellFormed wk.s) (hb : b < wk.s.workers.length) :
    (downloadBody maxRetry b wk).isSome = true := by
  obtain ⟨w, info, R, _, hw, hinfo, _, _, _, hphase⟩ := wf_lookup hwf hb
  unfold downloadBody
  simp only [hw, hinfo]
  by_cases hd : w.isActive = false ∧ info.PhaseInfo.RetryCount < maxRetry
      ∧ info.PhaseInfo.Status ≠ AppPkgDownloadComplete
  · rw [if_pos hd]
    rfl
  · rw [if_neg hd]
    by_cases hc : info.PhaseInfo.Status = AppPkgDownloadComplete
    · obtain ⟨s1, htr⟩ := transition_total wk.s b PhaseDownload PhasePodCopy hwf hb
        (by decide) (by decide)
      rw [if_pos hc]
      simp only [htr]
      rfl
    · rw [if_neg hc]
      by_cases hr : info.PhaseInfo.RetryCount ≥ maxRetry
      · obtain ⟨r, hdel, _⟩ := deleteWorker_queues wk.s.ppln info.PhaseInfo.Phase b
          (wf_phase_present hwf hphase)
        rw [if_pos hr]
        simp only [hdel]
        rfl
      · rw [if_neg hr]
        rfl

theorem podCopyBody_total (maxRetry : Int) (b : Nat) (wk : Walk)
    (hwf : WellFormed wk.s) (hb : b < wk.s.workers.length) :
    (podCopyBody maxRetry b wk).isSome = true := by
  obtain ⟨w, info, R, cfg, hw, hinfo, _, _, hcfg, hphase⟩ := wf_lookup hwf hb
  unfold podCopyBody
  simp only [hw, hinfo]
  by_cases hd : info.PhaseInfo.RetryCount < maxRetry ∧ w.isActive = false
      ∧ info.PhaseInfo.Status ≠ AppPkgPodCopyComplete
  · rw [if_pos hd]
    cases hs : wk.slots with
    | zero => rfl
    | succ slots1 => rfl
  · rw [if_neg hd]
    by_cases hc : info.PhaseInfo.Status = AppPkgPodCopyComplete
    · rw [if_pos hc]
      simp only [hcfg]
      cases hsrc : getAppSrcSpec cfg.AppSources w.appSrcName with
      | none => rfl
      | some appSrc =>
        simp only []
        by_cases hscope : appSrc.Scope ≠ ScopeCluster
        · obtain ⟨s1, htr⟩ := transition_total wk.s b PhasePodCopy PhaseInstall hwf hb
            (by decide) (by decide)
          rw [if_pos hscope]
          simp only [htr]
          rfl
        · rw [if_neg hscope]
          rfl
    · rw [if_neg hc]
      by_cases hr : info.PhaseInfo.RetryCount ≥ maxRetry
      · obtain ⟨r, hdel, _⟩ := deleteWorker_queues wk.s.ppln info.PhaseInfo.Phase b
          (wf_phase_present hwf hphase)
        rw [if_pos hr]
        simp only [hdel]
        rfl
      · rw [if_neg hr]
        rfl

theorem installBody_total (maxRetry : Int) (b : Nat) (wk : Walk)
    (hwf : WellFormed wk.s) (hb : b < wk.s.workers.length) :
    (installBody maxRetry b wk).isSome = true := by
  obtain ⟨w, info, R, _, hw, hinfo, _, _, _, hphase⟩ := wf_lookup hwf hb
  obtain ⟨r, hdel, _⟩ := deleteWorker_queues wk.s.ppln info.PhaseInfo.Phase b
    (wf_phase_present hwf hphase)
  unfold installBody
  simp only [hw, hinfo]
  by_cases hd : info.PhaseInfo.RetryCount < maxRetry ∧ w.isActive = false
      ∧ info.PhaseInfo.Status ≠ AppPkgInstallComplete
  · rw [if_pos hd]
    cases hs : wk.slots with
    | zero => rfl
    | succ slots1 => rfl
  · rw [if_neg hd]
    by_cases hc : info.PhaseInfo.Status = AppPkgInstallComplete
    · rw [if_pos hc]
      simp only [hdel]
      rfl
    · rw [if_neg hc]
      by_cases hr : info.PhaseInfo.RetryCount ≥ maxRetry
      · rw [if_pos hr]
        simp only [hdel]
        rfl
      · rw [if_neg hr]
        rfl

theorem managerBody_total (maxRetry : Int) (P : AppPhaseType) (b : Nat) (wk : Walk)
    (hP : P ≠ AppPhaseType.unset) (hwf : WellFormed wk.s) (hb : b < wk.s.workers.length) :
    ∃ wk1 brk, managerBody maxRetry P b wk = some (wk1, brk) := by
  have h : (managerBody maxRetry P b wk).isSome = true := by
    cases P with
    | PhaseDownload => exact downloadBody_total maxRetry b wk hwf hb
    | PhasePodCopy => exact podCopyBody_total maxRetry b wk hwf hb
    | PhaseInstall => exact installBody_total maxRetry b wk hwf hb
    | unset => exact absurd rfl hP
  obtain ⟨r, hr⟩ := Option.isSome_iff_exists.mp h
  exact ⟨r.1, r.2, hr⟩

theorem walkQueue_total (maxRetry : Int) (P : AppPhaseType) (hP : P ≠ AppPhaseType.unset)
    (q : List Nat) (wk : Walk) (hwf : WellFormed wk.s)
    (hq : ∀ b ∈ q, b < wk.s.workers.length) :
    ∃ wk1 brk, walkQueue (managerBody maxRetry P) q wk = some (wk1, brk)
      ∧ WellFormed wk1.s := by
  induction q generalizing wk with
  | nil => exact ⟨wk, false, rfl, hwf⟩
  | cons b rest ih =>
    obtain ⟨wk1, brk, hb⟩ :=
      managerBody_total maxRetry P b wk hP hwf (hq b (List.mem_cons_self _ _))
    have hstep := managerBody_sound maxRetry P b wk wk1 brk hb
    have hwf1 := wf_of_step maxRetry P b wk wk1 brk hwf hstep
    obtain ⟨⟨_, _, hlen, _⟩, _⟩ := managerStep_frame maxRetry P b wk wk1 brk hstep
    cases brk with
    | true =>
      refine ⟨wk1, true, ?_, hwf1⟩
      simp [walkQueue, hb]
    | false =>
      obtain ⟨wk2, brk2, hrest, hwf2⟩ := ih wk1 hwf1
        (fun c hc => Nat.lt_of_lt_of_le (hq c (List.mem_cons_of_mem _ hc)) hlen)
      refine ⟨wk2, brk2, ?_, hwf2⟩
      simp [walkQueue, hb, hrest]

theorem pass_total (maxRetry : Int) (P : AppPhaseType) (s : State) (slots : Nat)
    (hwf : WellFormed s) (hP : P ≠ AppPhaseType.unset) :
    ∃ r, phaseManagerPass maxRetry P s slots = some r ∧ WellFormed r.1 := by
  obtain ⟨wk1, brk, hwalk, hwf1⟩ := walkQueue_total maxRetry P hP (s.ppln.queue P)
    ⟨s, if P = PhaseDownload then 0 else slots, []⟩ hwf (hwf.2.2.2.2 P)
  obtain ⟨phase, hphase⟩ := Option.isSome_iff_exists.mp (wf_phase_present hwf hP)
  have hq : s.ppln.queue P = phase.q := by simp [AppInstallPipeline.queue, hphase]
  rw [hq] at hwalk
  refine ⟨(wk1.s, wk1.sent), ?_, hwf1⟩
  rw [pass_eq_walk maxRetry P s slots hP]
  simp only [hphase, hwalk, Option.map_some']

theorem wf_append_info (s : State) (entry : AppDeploymentInfo) (hwf : WellFormed s) :
    WellFormed { s with infos := s.infos ++ [entry] } := by
  refine ⟨hwf.1, hwf.2.1, hwf.2.2.1, ?_, hwf.2.2.2.2⟩
  intro w hw
  obtain ⟨hlt, hR, hcfg, hphase⟩ := hwf.2.2.2.1 w hw
  refine ⟨by simp only [List.length_append, List.length_singleton]; omega, hR, hcfg, ?_⟩
  intro info hinfo
  have hinfo1 : (s.infos ++ [entry])[w.appDeployInfo]? = some info := hinfo
  rw [List.getElem?_append_left hlt] at hinfo1
  exact hphase info hinfo1

theorem seedEntry_wellFormed (maxRetry : Int) (client : ControllerClient) (cr : MetaObject)
    (cfg : AppFrameworkSpec) (appSrcName : String) (entry : AppDeploymentInfo)
    (s : State) (cl : List Nat)
    (hsts : ∀ sts, afwGetReleventStatefulsetByKind cr client = some sts →
      ∃ R, sts.Replicas = some R ∧ 0 ≤ R)
    (hwf : WellFormed s) :
    ∃ s1 cl1, seedEntry maxRetry client cr cfg appSrcName entry (s, cl) = some (s1, cl1)
      ∧ WellFormed s1 := by
  cases hsrc : getAppSrcSpec cfg.AppSources appSrcName with
  | none =>
    refine ⟨{ s with infos := s.infos ++ [entry] }, cl, ?_, wf_append_info s entry hwf⟩
    simp only [seedEntry, hsrc]
  | some appSrc =>
    by_cases hph : seedPhase maxRetry entry ≠ AppPhaseType.unset
    · obtain ⟨ppln1, hadd, hs, hq, hoq⟩ := addWorkers_queues s.ppln (seedPhase maxRetry entry)
        [s.workers.length]
        (seedPhase_ne_unset_present maxRetry entry s hwf.1 hwf.2.1 hwf.2.2.1 hph)
      let worker := createPipelineWorker s.infos.length appSrcName
        (getApplicablePodNameForWorker cr 0) (some cfg) cr
        (afwGetReleventStatefulsetByKind cr client)
      let cl1 := if appSrc.Scope = ScopeCluster ∧ entry.DeployStatus ≠ DeployStatusComplete then
        cl ++ [s.infos.length] else cl
      refine ⟨⟨s.workers ++ [worker], s.infos ++ [entry], ppln1⟩, cl1, ?_, ?_⟩
      · simp only [seedEntry, hsrc, if_pos hph, createAndAddPipelineWorker, hadd]
      · have hwf0 := wf_append_info s entry hwf
        refine ⟨by rw [hs]; exact hwf.1, by rw [hs]; exact hwf.2.1, by rw [hs]; exact hwf.2.2.1,
          ?_, ?_⟩
        · intro w hw
          have hw1 : w ∈ s.workers ++ [worker] := hw
          rw [List.mem_append, List.mem_singleton] at hw1
          rcases hw1 with h | h
          · exact hwf0.2.2.2.1 w h
          · subst h
            refine ⟨?_, ?_, rfl, ?_⟩
            · show s.infos.length < (s.infos ++ [entry]).length
              simp
            · show ∃ R, replicaCountOf worker = some R ∧ 0 ≤ R
              unfold replicaCountOf
              cases hst : afwGetReleventStatefulsetByKind cr client with
              | none =>
                have : worker.sts = none := hst
                rw [this]
                exact ⟨1, rfl, by decide⟩
              | some sts =>
                have : worker.sts = some sts := hst
                rw [this]
                exact hsts sts hst
            · intro info hinfo
              have hinfo1 : (s.infos ++ [entry])[s.infos.length]? = some info := hinfo
              rw [List.getElem?_append_right (Nat.le_refl _)] at hinfo1
              simp only [Nat.sub_self, List.getElem?_cons_zero, Option.some.injEq] at hinfo1
              subst hinfo1
              rw [← seedPhase_eq_phase maxRetry entry hph]
              exact hph
        · intro Q a ha
          show a < (s.workers ++ [worker]).length
          simp only [List.length_append, List.length_singleton]
          by_cases hQ : Q = seedPhase maxRetry entry
          · subst hQ
            have ha1 : a ∈ ppln1.queue (seedPhase maxRetry entry) := ha
            rw [hq, List.mem_append, List.mem_singleton] at ha1
            rcases ha1 with h | h
            · have := hwf.2.2.2.2 _ a h
              omega
            · omega
          · have ha1 : a ∈ ppln1.queue Q := ha
            rw [hoq Q hQ] at ha1
            have := hwf.2.2.2.2 _ a ha1
            omega
    · let cl1 := if appSrc.Scope = ScopeCluster ∧ entry.DeployStatus ≠ DeployStatusComplete then
        cl ++ [s.infos.length] else cl
      refine ⟨{ s with infos := s.infos ++ [entry] }, cl1, ?_, wf_append_info s entry hwf⟩
      simp only [seedEntry, hsrc, if_neg hph]

theorem seedAppSrc_wellFormed (maxRetry : Int) (client : ControllerClient) (cr : MetaObject)
    (cfg : AppFrameworkSpec) (appSrcName : String) (entries : List AppDeploymentInfo)
    (s : State) (cl : List Nat)
    (hsts : ∀ sts, afwGetReleventStatefulsetByKind cr client = some sts →
      ∃ R, sts.Replicas = some R ∧ 0 ≤ R)
    (hwf : WellFormed s) :
    ∃ s1 cl1, seedAppSrc maxRetry client cr cfg appSrcName entries (s, cl) = some (s1, cl1)
      ∧ WellFormed s1 := by
  induction entries generalizing s cl with
  | nil => exact ⟨s, cl, rfl, hwf⟩
  | cons entry rest ih =>
    obtain ⟨s1, cl1, h1, hwf1⟩ :=
      seedEntry_wellFormed maxRetry client cr cfg appSrcName entry s cl hsts hwf
    obtain ⟨s2, cl2, h2, hwf2⟩ := ih s1 cl1 hwf1
    exact ⟨s2, cl2, by simp only [seedAppSrc, h1, h2], hwf2⟩

theorem seedPipeline_wellFormed (maxRetry : Int) (client : ControllerClient) (cr : MetaObject)
    (cfg : AppFrameworkSpec) (srcs : List (String × AppSrcDeployInfo))
    (s : State) (cl : List Nat)
    (hsts : ∀ sts, afwGetReleventStatefulsetByKind cr client = some sts →
      ∃ R, sts.Replicas = some R ∧ 0 ≤ R)
    (hwf : WellFormed s) :
    ∃ s1 cl1, seedPipeline maxRetry client cr cfg srcs (s, cl) = some (s1, cl1)
      ∧ WellFormed s1 := by
  induction srcs generalizing s cl with
  | nil => exact ⟨s, cl, rfl, hwf⟩
  | cons src rest ih =>
    obtain ⟨s1, cl1, h1, hwf1⟩ := seedAppSrc_wellFormed maxRetry client cr cfg src.1
      src.2.AppDeploymentInfoList s cl hsts hwf
    obtain ⟨s2, cl2, h2, hwf2⟩ := ih s1 cl1 hwf1
    exact ⟨s2, cl2, by simp only [seedPipeline, h1, h2], hwf2⟩

theorem exSeededState_seeded :
    seedPipeline 3 exClient exCR exConfig exIdleContext (exFreshState, [])
      = some (exSeededState, []) := by
  rfl

theorem exSeededState_wellFormed : WellFormed exSeededState := by
  have hfresh : WellFormed exFreshState := by
    refine ⟨by decide, by decide, by decide, ?_, ?_⟩
    · intro w hw
      cases hw
    · intro P a ha
      cases P <;> revert ha <;> revert a <;> decide
  obtain ⟨s1, cl1, hseed, hwf⟩ := seedPipeline_wellFormed 3 exClient exCR exConfig exIdleContext
    exFreshState [] (fun sts hsts => ⟨1, by
      have : sts = { Replicas := some 1 } := by
        have h1 : afwGetReleventStatefulsetByKind exCR exClient = some { Replicas := some 1 } := by
          decide
        rw [h1] at hsts
        exact (Option.some.inj hsts).symm
      rw [this], by decide⟩) hfresh
  rw [exSeededState_seeded] at hseed
  cases hseed
  exact hwf

/-- C20 (as stated, refuted): a worker in the Download queue of a pipeline with the three
phases makes TransitionWorkerPhase and a pass of the download phase manager fail when its
statefulset has no replica count (nil dereference) or a negative one (allocation of a slice
of negative length); a worker with exhausted retries whose package has a Phase that is none
of the three makes the pass fail in deleteWorkerFromPipelinePhase; and a worker without an
app framework configuration whose Status is PodCopyComplete makes the pass of the pod-copy
phase manager fail (nil dereference of afwConfig). -/
theorem managers_fault_on_bad_app :
    (TransitionWorkerPhase (exDownloadState "Standalone" none []) 0 PhaseDownload
        PhasePodCopy).isSome = false
      ∧ (downloadPhaseManagerPass 3 (exDownloadState "Standalone" none [])).isSome = false
      ∧ (TransitionWorkerPhase (exDownloadState "Standalone" (some (-1)) []) 0 PhaseDownload
        PhasePodCopy).isSome = false
      ∧ (downloadPhaseManagerPass 3 (exDownloadState "Standalone" (some (-1)) [])).isSome
        = false
      ∧ (downloadPhaseManagerPass 3 exUnknownPhaseState).isSome = false
      ∧ (podCopyPhaseManagerPass 3 exNoConfigState 1).isSome = false := by
  refine ⟨by decide, by decide, by decide, by decide, by decide, by decide⟩

/-- C20 (amended): on a state in which the pipeline has the three phases, every queue holds
worker addresses, and every worker refers to a package whose PhaseInfo.Phase is one of the
three phases, has a replica count that is set and not negative (zero included) and carries
an app framework configuration: TransitionWorkerPhase between any two of the three phases
returns for every worker, and one pass of each of the three phase managers returns, whatever
the kind of the CR, the status and the retry count; the state they return is again such a
state.  The seeding step produces such a state (seedPipeline_wellFormed). -/
theorem managers_do_not_fault (maxRetry : Int) (s : State) (slots : Nat)
    (hwf : WellFormed s) :
    (∀ (worker : Nat) (cur next : AppPhaseType), worker < s.workers.length →
        cur ≠ AppPhaseType.unset → next ≠ AppPhaseType.unset →
        ∃ s1, TransitionWorkerPhase s worker cur next = some s1 ∧ WellFormed s1)
      ∧ (∃ r, downloadPhaseManagerPass maxRetry s = some r ∧ WellFormed r.1)
      ∧ (∃ r, podCopyPhaseManagerPass maxRetry s slots = some r ∧ WellFormed r.1)
      ∧ (∃ r, installPhaseManagerPass maxRetry s slots = some r ∧ WellFormed r.1) := by
  refine ⟨?_, pass_total maxRetry PhaseDownload s slots hwf (by decide),
    pass_total maxRetry PhasePodCopy s slots hwf (by decide),
    pass_total maxRetry PhaseInstall s slots hwf (by decide)⟩
  intro worker cur next hb hcur hnext
  obtain ⟨s1, htr⟩ := transition_total s worker cur next hwf hb hcur hnext
  exact ⟨s1, htr, wf_of_frame s s1 worker hwf (transition_writes s worker cur next s1 htr)
    (transition_queues s worker cur next s1 hnext htr)⟩

theorem managers_do_not_fault_witness :
    seedPipeline 3 exClient exCR exConfig exIdleContext (exFreshState, [])
        = some (exSeededState, [])
      ∧ WellFormed exSeededState
      ∧ (∃ s1, TransitionWorkerPhase exSeededState 0 PhaseDownload PhasePodCopy = some s1
          ∧ WellFormed s1)
      ∧ (∃ r, downloadPhaseManagerPass 3 exSeededState = some r ∧ WellFormed r.1)
      ∧ (∃ r, podCopyPhaseManagerPass 3 exSeededState 1 = some r ∧ WellFormed r.1)
      ∧ (∃ r, installPhaseManagerPass 3 exSeededState 1 = some r ∧ WellFormed r.1) :=
  have h := managers_do_not_fault 3 exSeededState 1 exSeededState_wellFormed
  ⟨exSeededState_seeded, exSeededState_wellFormed,
    h.1 0 PhaseDownload PhasePodCopy (by decide) (by decide) (by decide), h.2⟩

theorem installStep_report (maxRetry : Int) (b : Nat) (wk wk1 : Walk) (brk : Bool)
    (hstep : ManagerStep maxRetry PhaseInstall b wk wk1 brk) (i : Nat)
    (info0 info : AppDeploymentInfo)
    (hi : wk.s.infos[i]? = some info) (hrep : InstallReport info0 info) :
    ∃ info1, wk1.s.infos[i]? = some info1 ∧ InstallReport info0 info1 := by
  obtain ⟨⟨w0, hw0, _, _, _, hinfos0, _⟩, _⟩ :=
    managerStep_writes maxRetry PhaseInstall b wk wk1 brk hstep
  have hinfos : ∀ (w : PipelineWorker), wk.s.workers[b]? = some w →
      ∀ (j : Nat), j ≠ w.appDeployInfo → wk1.s.infos[j]? = wk.s.infos[j]? := by
    intro w hw
    rw [hw0] at hw
    cases hw
    exact hinfos0
  have hilt : i < wk.s.infos.length := (List.getElem?_eq_some_iff.mp hi).1
  obtain ⟨haux, hst0, hdep0, hph0⟩ := hrep
  cases hstep with
  | dispatch w info2 slots1 hw hinfo hr hidle hst hslots => exact ⟨info, hi, haux, hst0, hdep0, hph0⟩
  | blocked w info2 hw hinfo hr hidle hst hP hslots => exact ⟨info, hi, haux, hst0, hdep0, hph0⟩
  | transition w info2 next s1 hw hinfo hst hnext htr =>
    rcases hnext with ⟨h, _⟩ | ⟨h, _⟩ <;> cases h
  | installed w info2 r hw hinfo hP hst hdel =>
    by_cases hiw : i = w.appDeployInfo
    · subst hiw
      rw [hi] at hinfo
      cases hinfo
      have hs0 : info0.PhaseInfo.Status = AppPkgInstallComplete := by
        rcases hst0 with h | h
        · rw [← h]; exact hst
        · rw [hst] at h; cases h
      refine ⟨installedInfo w info, by simp [hilt], haux, ?_, Or.inr ⟨rfl, hs0⟩, ?_⟩
      · left
        rw [hs0]
        unfold installedInfo
        simp only []
        split
        · rfl
        · exact hst
      · unfold installedInfo
        simp only []
        split
        · rename_i hc
          right
          exact ⟨rfl, by rw [← haux]; exact hc.2, hs0⟩
        · exact hph0
    · exact ⟨info, by rw [hinfos w hw i hiw]; exact hi, haux, hst0, hdep0, hph0⟩
  | exhausted w info2 r hw hinfo hst hr hdel =>
    by_cases hiw : i = w.appDeployInfo
    · subst hiw
      rw [hi] at hinfo
      cases hinfo
      exact ⟨withStatus info (errorStatusOf PhaseInstall), by simp [hilt], haux, Or.inr rfl,
        hdep0, hph0⟩
    · exact ⟨info, by rw [hinfos w hw i hiw]; exact hi, haux, hst0, hdep0, hph0⟩
  | skip w info2 hw hinfo hskip => exact ⟨info, hi, haux, hst0, hdep0, hph0⟩

theorem installWalk_report (maxRetry : Int) (q : List Nat) (wk wk1 : Walk) (brk : Bool)
    (hwalk : ManagerWalk maxRetry PhaseInstall q wk wk1 brk) (i : Nat)
    (info0 info : AppDeploymentInfo)
    (hi : wk.s.infos[i]? = some info) (hrep : InstallReport info0 info) :
    ∃ info1, wk1.s.infos[i]? = some info1 ∧ InstallReport info0 info1 := by
  induction hwalk generalizing info with
  | done wk => exact ⟨info, hi, hrep⟩
  | stop b rest wk wk1 hstep =>
    exact installStep_report maxRetry b wk wk1 true hstep i info0 info hi hrep
  | next b rest wk wk1 wk2 brk hstep hrest ih =>
    obtain ⟨info1, hi1, hrep1⟩ :=
      installStep_report maxRetry b wk wk1 false hstep i info0 info hi hrep
    exact ih info1 hi1 hrep1

/-- C11 (amended): whatever the state, a pass of the install phase manager that returns
leaves, for every package, AuxPhaseInfo as it was, sets DeployStatus to complete only for a
package whose PhaseInfo.Status was InstallComplete (whatever the AuxPhaseInfo entries say),
and changes PhaseInfo.Phase only to Install and only when the Status was InstallComplete and
every AuxPhaseInfo entry has Phase Install and Status InstallComplete.  The pass returns on
every well-formed state. -/
theorem install_pass_report (maxRetry : Int) (s : State) (slots : Nat) (i : Nat)
    (info0 : AppDeploymentInfo) (hi : s.infos[i]? = some info0) :
    (∀ r, installPhaseManagerPass maxRetry s slots = some r →
        ∃ info1, r.1.infos[i]? = some info1
          ∧ info1.AuxPhaseInfo = info0.AuxPhaseInfo
          ∧ (info1.DeployStatus = info0.DeployStatus
            ∨ (info1.DeployStatus = DeployStatusComplete
              ∧ info0.PhaseInfo.Status = AppPkgInstallComplete))
          ∧ (info1.PhaseInfo.Phase = info0.PhaseInfo.Phase
            ∨ (info1.PhaseInfo.Phase = PhaseInstall
              ∧ isAppInstallationCompleteOnStandaloneReplicas info0.AuxPhaseInfo = true
              ∧ info0.PhaseInfo.Status = AppPkgInstallComplete)))
      ∧ (WellFormed s → ∃ r, installPhaseManagerPass maxRetry s slots = some r) := by
  constructor
  · intro r hr
    obtain ⟨wk1, brk, _, hwalk, hres⟩ := pass_sound maxRetry PhaseInstall s slots r hr
    obtain ⟨info1, hi1, haux, _, hdep, hph⟩ :=
      installWalk_report maxRetry (s.ppln.queue PhaseInstall) _ wk1 brk hwalk i info0 info0 hi
        ⟨rfl, Or.inl rfl, Or.inl rfl, Or.inl rfl⟩
    subst hres
    exact ⟨info1, hi1, haux, hdep, hph⟩
  · intro hwf
    obtain ⟨r, hr, _⟩ := pass_total maxRetry PhaseInstall s slots hwf (by decide)
    exact ⟨r, hr⟩

theorem install_pass_report_witness :
    exPartlyInstalledState.infos[0]?
        = some { exDownloadedApp
            [{ Phase := PhaseInstall, Status := AppPkgInstallComplete, RetryCount := 0 },
             { Phase := PhasePodCopy, Status := AppPkgPodCopyPending, RetryCount := 0 }] with
          PhaseInfo := { Phase := PhaseInstall, Status := AppPkgInstallComplete, RetryCount := 0 } }
      ∧ WellFormed exPartlyInstalledState
      ∧ ∃ r, installPhaseManagerPass 3 exPartlyInstalledState 1 = some r
        ∧ ∃ info1, r.1.infos[0]? = some info1
          ∧ info1.AuxPhaseInfo
            = [{ Phase := PhaseInstall, Status := AppPkgInstallComplete, RetryCount := 0 },
               { Phase := PhasePodCopy, Status := AppPkgPodCopyPending, RetryCount := 0 }]
          ∧ (info1.DeployStatus = DeployStatusPending
            ∨ (info1.DeployStatus = DeployStatusComplete
              ∧ AppPkgInstallComplete = AppPkgInstallComplete))
          ∧ (info1.PhaseInfo.Phase = PhaseInstall
            ∨ (info1.PhaseInfo.Phase = PhaseInstall
              ∧ isAppInstallationCompleteOnStandaloneReplicas
                  [{ Phase := PhaseInstall, Status := AppPkgInstallComplete, RetryCount := 0 },
                   { Phase := PhasePodCopy, Status := AppPkgPodCopyPending, RetryCount := 0 }]
                  = true
              ∧ AppPkgInstallComplete = AppPkgInstallComplete)) :=
  have hwf : WellFormed exPartlyInstalledState := by
    refine ⟨by decide, by decide, by decide, ?_, ?_⟩
    · intro w hw
      simp only [exPartlyInstalledState, List.mem_singleton] at hw
      subst hw
      refine ⟨by decide, ⟨2, by decide, by decide⟩, by decide, ?_⟩
      intro info hinfo
      cases hinfo
      decide
    · intro P a ha
      cases P <;> revert ha <;> revert a <;> decide
  have h := install_pass_report 3 exPartlyInstalledState 1 0
    { exDownloadedApp
        [{ Phase := PhaseInstall, Status := AppPkgInstallComplete, RetryCount := 0 },
         { Phase := PhasePodCopy, Status := AppPkgPodCopyPending, RetryCount := 0 }] with
      PhaseInfo := { Phase := PhaseInstall, Status := AppPkgInstallComplete, RetryCount := 0 } }
    rfl
  ⟨rfl, hwf, (h.2 hwf).elim (fun r hr => ⟨r, hr, h.1 r hr⟩)⟩

theorem managerBody_send (maxRetry : Int) (P : AppPhaseType) (b : Nat) (wk wk1 : Walk)
    (brk : Bool) (h : managerBody maxRetry P b wk = some (wk1, brk)) :
    wk1.sent = wk.sent
      ∨ (brk = false ∧ wk1.sent = wk.sent ++ [b]
        ∧ ∃ w, wk.s.workers[b]? = some w ∧ w.isActive = false) := by
  have hstep := managerBody_sound maxRetry P b wk wk1 brk h
  cases hstep with
  | dispatch w info slots1 hw hinfo hr hidle hst hslots =>
    exact Or.inr ⟨rfl, rfl, w, hw, hidle⟩
  | blocked w info hw hinfo hr hidle hst hP hslots => exact Or.inl rfl
  | transition w info next s1 hw hinfo hst hnext htr => exact Or.inl rfl
  | installed w info r hw hinfo hP hst hdel => exact Or.inl rfl
  | exhausted w info r hw hinfo hst hr hdel => exact Or.inl rfl
  | skip w info hw hinfo hskip => exact Or.inl rfl

theorem walkQueue_sent_origin (maxRetry : Int) (P : AppPhaseType) (q : List Nat)
    (wk wkf : Walk) (brkf : Bool)
    (h : walkQueue (managerBody maxRetry P) q wk = some (wkf, brkf)) :
    ∀ a ∈ wkf.sent, a ∈ wk.sent
      ∨ ∃ (pre post : List Nat) (wk0 wk1 : Walk) (w : PipelineWorker),
          q = pre ++ a :: post
          ∧ walkQueue (managerBody maxRetry P) pre wk = some (wk0, false)
          ∧ managerBody maxRetry P a wk0 = some (wk1, false)
          ∧ wk0.s.workers[a]? = some w ∧ w.isActive = false
          ∧ wk1.sent = wk0.sent ++ [a] := by
  induction q generalizing wk with
  | nil =>
    simp only [walkQueue, Option.some.injEq, Prod.mk.injEq] at h
    intro a ha
    rw [← h.1] at ha
    exact Or.inl ha
  | cons b rest ih =>
    rw [walkQueue] at h
    cases hb : managerBody maxRetry P b wk with
    | none => simp [hb] at h
    | some r =>
      obtain ⟨wk2, brk2⟩ := r
      simp only [hb] at h
      have hsend := managerBody_send maxRetry P b wk wk2 brk2 hb
      -- a worker in the list after this iteration was there before, or is `b`, sent now
      have hhere : ∀ a ∈ wk2.sent, a ∈ wk.sent
          ∨ ∃ (pre post : List Nat) (wk0 wk1 : Walk) (w : PipelineWorker),
              b :: rest = pre ++ a :: post
              ∧ walkQueue (managerBody maxRetry P) pre wk = some (wk0, false)
              ∧ managerBody maxRetry P a wk0 = some (wk1, false)
              ∧ wk0.s.workers[a]? = some w ∧ w.isActive = false
              ∧ wk1.sent = wk0.sent ++ [a] := by
        intro a ha
        rcases hsend with hs | ⟨hbrk, hs, w, hw, hidle⟩
        · rw [hs] at ha
          exact Or.inl ha
        · rw [hs, List.mem_append, List.mem_singleton] at ha
          rcases ha with ha | ha
          · exact Or.inl ha
          · subst ha
            subst hbrk
            exact Or.inr ⟨[], rest, wk, wk2, w, rfl, rfl, hb, hw, hidle, hs⟩
      cases brk2 with
      | true =>
        simp only [if_true, Option.some.injEq, Prod.mk.injEq] at h
        obtain ⟨rfl, _⟩ := h
        exact hhere
      | false =>
        simp only [Bool.false_eq_true, if_false] at h
        intro a ha
        rcases ih wk2 h a ha with h1 | ⟨pre, post, wk0, wk1, w, hq, hpre, hbody, hw, hidle, hs⟩
        · exact hhere a h1
        · refine Or.inr ⟨b :: pre, post, wk0, wk1, w, by rw [hq]; rfl, ?_, hbody, hw, hidle, hs⟩
          rw [walkQueue]
          simp only [hb, Bool.false_eq_true, if_false]
          exact hpre

/-- C25: no redispatch while active.  Whatever the state, in a pass of the manager of any
phase that returns: every worker sent on the dispatch channel was sent by the iteration that
visited it, reached after the walk over the workers before it, and had isActive false when
that iteration began; every worker sent has isActive set in the state the pass leaves; and
when the iteration for a worker leaves the loop because the non-blocking send found the
channel full (which the download manager never does), the pass ends there and leaves that
worker with isActive false and no waiter.  Moreover an iteration for a worker whose isActive
flag is set sends nothing, and the pass returns on every well-formed state. -/
theorem no_redispatch_while_active (maxRetry : Int) (P : AppPhaseType) (s : State)
    (slots : Nat) :
    (∀ r, phaseManagerPass maxRetry P s slots = some r →
        (∀ a ∈ r.2, ∃ (pre post : List Nat) (wk0 wk1 : Walk) (w : PipelineWorker),
            s.ppln.queue P = pre ++ a :: post
            ∧ walkQueue (managerBody maxRetry P) pre
                ⟨s, if P = PhaseDownload then 0 else slots, []⟩ = some (wk0, false)
            ∧ managerBody maxRetry P a wk0 = some (wk1, false)
            ∧ wk0.s.workers[a]? = some w ∧ w.isActive = false
            ∧ wk1.sent = wk0.sent ++ [a])
          ∧ (∀ a ∈ r.2, ∃ w1, r.1.workers[a]? = some w1 ∧ w1.isActive = true)
          ∧ (∀ (pre post : List Nat) (b : Nat) (wk0 wk1 : Walk),
              s.ppln.queue P = pre ++ b :: post →
              walkQueue (managerBody maxRetry P) pre
                ⟨s, if P = PhaseDownload then 0 else slots, []⟩ = some (wk0, false) →
              managerBody maxRetry P b wk0 = some (wk1, true) →
              P ≠ PhaseDownload ∧ wk0.slots = 0 ∧ r = (wk1.s, wk1.sent)
                ∧ ∃ w1, r.1.workers[b]? = some w1 ∧ w1.isActive = false ∧ w1.waiter = none))
      ∧ (∀ (b : Nat) (wk0 wk1 : Walk) (brk : Bool) (w : PipelineWorker),
          managerBody maxRetry P b wk0 = some (wk1, brk) →
          wk0.s.workers[b]? = some w → w.isActive = true → wk1.sent = wk0.sent)
      ∧ (WellFormed s → P ≠ AppPhaseType.unset →
          ∃ r, phaseManagerPass maxRetry P s slots = some r) := by
  refine ⟨?_, ?_, ?_⟩
  · intro r hpass
    obtain ⟨wkf, brkf, hwq, hwalk, hr⟩ := pass_sound maxRetry P s slots r hpass
    refine ⟨?_, ?_, ?_⟩
    · intro a ha
      rw [hr] at ha
      rcases walkQueue_sent_origin maxRetry P (s.ppln.queue P) _ wkf brkf hwq a ha with h | h
      · exact absurd h (List.not_mem_nil a)
      · exact h
    · intro a ha
      rw [hr] at ha ⊢
      have hinv := sentActive_walk maxRetry P (s.ppln.queue P) _ wkf brkf hwalk
        (fun a ha => absurd ha (List.not_mem_nil a))
      obtain ⟨w1, _, hw1, hact1, _⟩ := hinv a ha
      exact ⟨w1, hw1, hact1⟩
    · intro pre post b wk0 wk1 hq hpre hbody
      obtain ⟨hPd, hslots, _, w1, hw1, hidle, hwaiter⟩ :=
        managerBody_break maxRetry P b wk0 wk1 hbody
      have hend : walkQueue (managerBody maxRetry P) (s.ppln.queue P)
          ⟨s, if P = PhaseDownload then 0 else slots, []⟩ = some (wk1, true) := by
        rw [hq, walkQueue_append (managerBody maxRetry P) pre (b :: post) _ wk0 hpre, walkQueue]
        simp [hbody]
      rw [hwq] at hend
      simp only [Option.some.injEq, Prod.mk.injEq] at hend
      obtain ⟨rfl, rfl⟩ := hend
      exact ⟨hPd, hslots, hr, w1, by rw [hr]; exact hw1, hidle, hwaiter⟩
  · intro b wk0 wk1 brk w hbody hw hact
    rcases managerBody_send maxRetry P b wk0 wk1 brk hbody with h | ⟨_, _, w2, hw2, hidle⟩
    · exact h
    · rw [hw] at hw2
      cases hw2
      rw [hidle] at hact
      cases hact
  · intro hwf hP
    obtain ⟨r, hr, _⟩ := pass_total maxRetry P s slots hwf hP
    exact ⟨r, hr⟩

theorem no_redispatch_while_active_witness :
    phaseManagerPass 3 PhasePodCopy exBusyState 1 = some (exBusySentState, [1])
      ∧ (∀ a ∈ [1], ∃ (pre post : List Nat) (wk0 wk1 : Walk) (w : PipelineWorker),
          exBusyState.ppln.queue PhasePodCopy = pre ++ a :: post
          ∧ walkQueue (managerBody 3 PhasePodCopy) pre
              ⟨exBusyState, if PhasePodCopy = PhaseDownload then 0 else 1, []⟩
                = some (wk0, false)
          ∧ managerBody 3 PhasePodCopy a wk0 = some (wk1, false)
          ∧ wk0.s.workers[a]? = some w ∧ w.isActive = false
          ∧ wk1.sent = wk0.sent ++ [a])
      ∧ (∀ a ∈ [1], ∃ w1, exBusySentState.workers[a]? = some w1 ∧ w1.isActive = true)
      ∧ phaseManagerPass 3 PhasePodCopy exBusyState 0 = some (exBusyBlockedState, [])
      ∧ (managerBody 3 PhasePodCopy 1 ⟨exBusyState, 0, []⟩
          = some (⟨exBusyBlockedState, 0, []⟩, true))
      ∧ (PhasePodCopy ≠ PhaseDownload ∧ (⟨exBusyState, 0, []⟩ : Walk).slots = 0
          ∧ (exBusyBlockedState, ([] : List Nat)) = (exBusyBlockedState, [])
          ∧ ∃ w1, exBusyBlockedState.workers[1]? = some w1 ∧ w1.isActive = false
            ∧ w1.waiter = none)
      ∧ (exBusyState.workers[0]?).map (fun w => w.isActive) = some true
      ∧ (managerBody 3 PhasePodCopy 0 ⟨exBusyState, 1, []⟩ = some (⟨exBusyState, 1, []⟩, false))
      ∧ (⟨exBusyState, 1, []⟩ : Walk).sent = (⟨exBusyState, 1, []⟩ : Walk).sent :=
  have h1 := no_redispatch_while_active 3 PhasePodCopy exBusyState 1
  have h0 := no_redispatch_while_active 3 PhasePodCopy exBusyState 0
  have hp1 : phaseManagerPass 3 PhasePodCopy exBusyState 1 = some (exBusySentState, [1]) := rfl
  have hp0 : phaseManagerPass 3 PhasePodCopy exBusyState 0 = some (exBusyBlockedState, []) := rfl
  have hb1 : managerBody 3 PhasePodCopy 1 ⟨exBusyState, 0, []⟩
      = some (⟨exBusyBlockedState, 0, []⟩, true) := rfl
  have hb0 : managerBody 3 PhasePodCopy 0 ⟨exBusyState, 1, []⟩
      = some (⟨exBusyState, 1, []⟩, false) := rfl
  ⟨hp1, (h1.1 _ hp1).1, (h1.1 _ hp1).2.1, hp0, hb1,
    (h0.1 _ hp0).2.2 [0] [] 1 ⟨exBusyState, 0, []⟩ ⟨exBusyBlockedState, 0, []⟩ rfl rfl hb1,
    rfl, hb0,
    h1.2.1 0 ⟨exBusyState, 1, []⟩ ⟨exBusyState, 1, []⟩ false
      { exWorker "ClusterMaster" (some 1) with waiter := some PhasePodCopy } hb0 rfl rfl⟩

theorem managerStep_keeps_incomplete (maxRetry : Int) (P : AppPhaseType) (b : Nat)
    (wk wk1 : Walk) (brk : Bool)
    (hstep : ManagerStep maxRetry P b wk wk1 brk) (i : Nat) (ia : AppDeploymentInfo)
    (hia : wk.s.infos[i]? = some ia) (hstatus : ia.PhaseInfo.Status ≠ completeStatusOf P) :
    ∃ ia1, wk1.s.infos[i]? = some ia1
      ∧ ia1.PhaseInfo.RetryCount = ia.PhaseInfo.RetryCount
      ∧ ia1.PhaseInfo.Phase = ia.PhaseInfo.Phase
      ∧ (ia1.PhaseInfo.Status = ia.PhaseInfo.Status
        ∨ ia1.PhaseInfo.Status = errorStatusOf P) := by
  obtain ⟨⟨w0, hw0, _, _, _, hinfos0, _⟩, _⟩ := managerStep_writes maxRetry P b wk wk1 brk hstep
  have hinfos : ∀ (w : PipelineWorker), wk.s.workers[b]? = some w →
      ∀ (j : Nat), j ≠ w.appDeployInfo → wk1.s.infos[j]? = wk.s.infos[j]? := by
    intro w hw
    rw [hw0] at hw
    cases hw
    exact hinfos0
  have hilt : i < wk.s.infos.length := (List.getElem?_eq_some_iff.mp hia).1
  cases hstep with
  | dispatch w info slots1 hw hinfo hr hidle hst hslots =>
    exact ⟨ia, hia, rfl, rfl, Or.inl rfl⟩
  | blocked w info hw hinfo hr hidle hst hP hslots =>
    exact ⟨ia, hia, rfl, rfl, Or.inl rfl⟩
  | transition w info next s1 hw hinfo hst hnext htr =>
    by_cases hi : i = w.appDeployInfo
    · subst hi
      rw [hia] at hinfo
      cases hinfo
      exact absurd hst hstatus
    · exact ⟨ia, by rw [hinfos w hw i hi]; exact hia, rfl, rfl, Or.inl rfl⟩
  | installed w info r hw hinfo hP hst hdel =>
    by_cases hi : i = w.appDeployInfo
    · subst hi
      rw [hia] at hinfo
      cases hinfo
      subst hP
      exact absurd hst hstatus
    · exact ⟨ia, by rw [hinfos w hw i hi]; exact hia, rfl, rfl, Or.inl rfl⟩
  | exhausted w info r hw hinfo hst hr hdel =>
    by_cases hi : i = w.appDeployInfo
    · subst hi
      rw [hia] at hinfo
      cases hinfo
      exact ⟨withStatus ia (errorStatusOf P), by simp [hilt], rfl, rfl, Or.inr rfl⟩
    · exact ⟨ia, by rw [hinfos w hw i hi]; exact hia, rfl, rfl, Or.inl rfl⟩
  | skip w info hw hinfo hskip =>
    exact ⟨ia, hia, rfl, rfl, Or.inl rfl⟩

theorem exhausted_weaken (maxRetry : Int) (P ph : AppPhaseType) (a i : Nat) (v : Bool)
    (wk : Walk) (h : ExhaustedAt maxRetry P ph a i true wk) :
    ExhaustedAt maxRetry P ph a i v wk := by
  obtain ⟨w, info, h1, h2, h3, h4, h5, h6, h7, h8⟩ := h
  exact ⟨w, info, h1, h2, h3, h4, h5, h6, h7, fun _ => h8 rfl⟩

theorem exhausted_step_other (maxRetry : Int) (P ph : AppPhaseType) (a i b : Nat) (v : Bool)
    (wk wk1 : Walk) (brk : Bool) (hP : P ≠ AppPhaseType.unset) (hba : b ≠ a)
    (hex : ExhaustedAt maxRetry P ph a i v wk) (hstep : ManagerStep maxRetry P b wk wk1 brk) :
    ExhaustedAt maxRetry P ph a i v wk1
      ∧ ∀ Q, (wk1.s.ppln.queue Q).count a = (wk.s.ppln.queue Q).count a := by
  obtain ⟨⟨_, _, _, hother, _, _, _⟩, ⟨_, hcount, _, _⟩, hsent⟩ :=
    managerStep_frame maxRetry P b wk wk1 brk hstep
  obtain ⟨wa, ia, hwa, hwi, hia, hretry, hstatus, hphase, hns, hv⟩ := hex
  have halt : a < wk.s.workers.length := (List.getElem?_eq_some_iff.mp hwa).1
  obtain ⟨ia1, hia1, hr1, hp1, hs1⟩ := managerStep_keeps_incomplete maxRetry P b wk wk1 brk
    hstep i ia hia hstatus
  refine ⟨⟨wa, ia1, by rw [hother a (Ne.symm hba) halt]; exact hwa, hwi, hia1,
    by rw [hr1]; exact hretry, ?_, by rw [hp1]; exact hphase,
    fun h => hns ((hsent a (Ne.symm hba)).mp h), ?_⟩,
    fun Q => hcount Q a (Ne.symm hba) halt⟩
  · rcases hs1 with h | h
    · rw [h]; exact hstatus
    · rw [h]; exact errorStatus_ne_complete P hP
  · intro hvt
    rcases hs1 with h | h
    · rw [h]; exact hv hvt
    · exact h

theorem exhausted_step_self (maxRetry : Int) (P ph : AppPhaseType) (a i : Nat) (v : Bool)
    (wk wk1 : Walk) (brk : Bool) (hP : P ≠ AppPhaseType.unset)
    (hex : ExhaustedAt maxRetry P ph a i v wk) (hstep : ManagerStep maxRetry P a wk wk1 brk) :
    brk = false ∧ ExhaustedAt maxRetry P ph a i true wk1
      ∧ (wk1.s.ppln.queue ph).count a = (wk.s.ppln.queue ph).count a - 1
      ∧ ∀ Q, Q ≠ ph → wk1.s.ppln.queue Q = wk.s.ppln.queue Q := by
  obtain ⟨wa, ia, hwa, hwi, hia, hretry, hstatus, hphase, hns, hv⟩ := hex
  have hilt : i < wk.s.infos.length := (List.getElem?_eq_some_iff.mp hia).1
  subst hwi
  cases hstep with
  | dispatch w info slots1 hw hinfo hr hidle hst hslots =>
    rw [hwa] at hw; cases hw
    rw [hia] at hinfo; cases hinfo
    omega
  | blocked w info hw hinfo hr hidle hst hP2 hslots =>
    rw [hwa] at hw; cases hw
    rw [hia] at hinfo; cases hinfo
    omega
  | transition w info next s1 hw hinfo hst hnext htr =>
    rw [hwa] at hw; cases hw
    rw [hia] at hinfo; cases hinfo
    exact absurd hst hstatus
  | installed w info r hw hinfo hP2 hst hdel =>
    rw [hwa] at hw; cases hw
    rw [hia] at hinfo; cases hinfo
    subst hP2
    exact absurd hst hstatus
  | exhausted w info r hw hinfo hst hr hdel =>
    rw [hwa] at hw; cases hw
    rw [hia] at hinfo; cases hinfo
    rw [hphase] at hdel
    obtain ⟨_, _, _, hcb, hoq, _⟩ := deleteWorker_of_some wk.s.ppln ph a r hdel
    exact ⟨rfl, ⟨wa, withStatus ia (errorStatusOf P), hwa, rfl, by simp [hilt], hretry,
      errorStatus_ne_complete P hP, hphase, hns, fun _ => rfl⟩, hcb, hoq⟩
  | skip w info hw hinfo hskip =>
    rw [hwa] at hw; cases hw
    rw [hia] at hinfo; cases hinfo
    rcases hskip with ⟨h, _⟩ | ⟨h, _⟩
    · exact absurd h hstatus
    · omega

theorem exhausted_walk (maxRetry : Int) (P ph : AppPhaseType) (a i : Nat)
    (hP : P ≠ AppPhaseType.unset) (q : List Nat) (wk wk1 : Walk) (brk : Bool) (v : Bool)
    (hwalk : ManagerWalk maxRetry P q wk wk1 brk)
    (hex : ExhaustedAt maxRetry P ph a i v wk) :
    ExhaustedAt maxRetry P ph a i v wk1
      ∧ (wk1.s.ppln.queue ph).count a ≤ (wk.s.ppln.queue ph).count a
      ∧ (∀ Q, Q ≠ ph → (wk1.s.ppln.queue Q).count a = (wk.s.ppln.queue Q).count a)
      ∧ (brk = false →
          (wk1.s.ppln.queue ph).count a = (wk.s.ppln.queue ph).count a - q.count a
            ∧ (a ∈ q → ExhaustedAt maxRetry P ph a i true wk1)) := by
  induction hwalk generalizing v with
  | done wk =>
    refine ⟨hex, Nat.le_refl _, fun _ _ => rfl, fun _ => ⟨by simp, fun h => by cases h⟩⟩
  | stop b rest wk wk1 hstep =>
    by_cases hba : b = a
    · subst hba
      have := (exhausted_step_self maxRetry P ph b i v wk wk1 true hP hex hstep).1
      cases this
    · obtain ⟨hex1, hc1⟩ :=
        exhausted_step_other maxRetry P ph a i b v wk wk1 true hP hba hex hstep
      exact ⟨hex1, Nat.le_of_eq (hc1 ph), fun Q _ => hc1 Q, fun h => by cases h⟩
  | next b rest wk wk1 wk2 brk hstep hrest ih =>
    by_cases hba : b = a
    · subst hba
      obtain ⟨_, hex1, hc1, ho1⟩ :=
        exhausted_step_self maxRetry P ph b i v wk wk1 false hP hex hstep
      obtain ⟨hex2, hle2, ho2, hnb2⟩ := ih true hex1
      refine ⟨exhausted_weaken maxRetry P ph b i v wk2 hex2, by omega, ?_, ?_⟩
      · intro Q hQ
        rw [ho2 Q hQ, ho1 Q hQ]
      · intro hbrk
        obtain ⟨hc2, _⟩ := hnb2 hbrk
        refine ⟨?_, fun _ => hex2⟩
        rw [hc2, hc1, List.count_cons_self]
        omega
    · obtain ⟨hex1, hc1⟩ :=
        exhausted_step_other maxRetry P ph a i b v wk wk1 false hP hba hex hstep
      obtain ⟨hex2, hle2, ho2, hnb2⟩ := ih v hex1
      refine ⟨hex2, by rw [← hc1 ph]; exact hle2, ?_, ?_⟩
      · intro Q hQ
        rw [ho2 Q hQ, hc1 Q]
      · intro hbrk
        obtain ⟨hc2, hvis⟩ := hnb2 hbrk
        refine ⟨?_, ?_⟩
        · rw [hc2, hc1 ph, List.count_cons_of_ne (Ne.symm hba)]
        · intro hmem
          rcases List.mem_cons.mp hmem with h | h
          · exact absurd h.symm hba
          · exact hvis h

theorem walkQueue_break (maxRetry : Int) (P : AppPhaseType) (q : List Nat) (wk wk1 : Walk)
    (h : walkQueue (managerBody maxRetry P) q wk = some (wk1, true)) : P ≠ PhaseDownload := by
  induction q generalizing wk with
  | nil => simp [walkQueue] at h
  | cons b rest ih =>
    rw [walkQueue] at h
    cases hb : managerBody maxRetry P b wk with
    | none => simp [hb] at h
    | some r =>
      obtain ⟨wk2, brk2⟩ := r
      simp only [hb] at h
      cases brk2 with
      | true => exact (managerBody_break maxRetry P b wk wk2 hb).1
      | false =>
        simp only [Bool.false_eq_true, if_false] at h
        exact ih wk2 h

theorem walkQueue_prefix (body : Nat → Walk → Option (Walk × Bool)) (pre rest : List Nat)
    (wk wkf : Walk) (brkf : Bool) (h : walkQueue body (pre ++ rest) wk = some (wkf, brkf)) :
    ∃ wk0 brk0, walkQueue body pre wk = some (wk0, brk0) := by
  induction pre generalizing wk with
  | nil => exact ⟨wk, false, rfl⟩
  | cons b pre1 ih =>
    rw [List.cons_append, walkQueue] at h
    rw [walkQueue]
    cases hb : body b wk with
    | none => simp [hb] at h
    | some r =>
      obtain ⟨wk2, brk2⟩ := r
      simp only [hb] at h ⊢
      cases brk2 with
      | true => exact ⟨wk2, true, by simp⟩
      | false =>
        simp only [Bool.false_eq_true, if_false] at h ⊢
        exact ih wk2 h

/-- C12 (as stated, refuted), in two ways.  With a maximum of three retries and a dispatch
channel that takes no worker, one pass of the pod-copy phase manager over the queue [0, 1]
leaves the loop at worker 0; worker 1, whose retries are used up and whose Status is not
PodCopyComplete, keeps its Status and stays in the queue.  And a pass of the pod-copy phase
manager over the queue [0], whose worker is a fan-out copy with used-up retries for a package
whose PhaseInfo.Phase is still Download, sets the Status to PodCopyError but leaves the worker
in the PodCopy queue: the deletion is made from the queue PhaseInfo.Phase names. -/
theorem exhausted_worker_counterexample :
    1 ∈ exExhaustedState.ppln.queue PhasePodCopy
      ∧ (exExhaustedState.workers[1]?).map (fun w => w.appDeployInfo) = some 1
      ∧ (exExhaustedState.infos[1]?).map (fun d => d.PhaseInfo)
          = some { Phase := PhasePodCopy, Status := AppPkgPodCopyPending, RetryCount := 3 }
      ∧ (phaseManagerPass 3 PhasePodCopy exExhaustedState 0).map
          (fun r => (r.1.ppln.queue PhasePodCopy, r.1.infos.map (fun d => d.PhaseInfo.Status), r.2))
        = some ([0, 1], [AppPkgPodCopyPending, AppPkgPodCopyPending], [])
      ∧ 0 ∈ exStrayPhaseState.ppln.queue PhasePodCopy
      ∧ (exStrayPhaseState.workers[0]?).map (fun w => w.appDeployInfo) = some 0
      ∧ (exStrayPhaseState.infos[0]?).map (fun d => d.PhaseInfo)
          = some { Phase := PhaseDownload, Status := AppPkgDownloadComplete, RetryCount := 3 }
      ∧ (phaseManagerPass 3 PhasePodCopy exStrayPhaseState 1).map
          (fun r => (r.1.ppln.queue PhasePodCopy, r.1.infos.map (fun d => d.PhaseInfo.Status), r.2))
        = some ([0], [AppPkgPodCopyError], []) := by
  refine ⟨by decide, by decide, by decide, by decide, by decide, by decide, by decide,
    by decide⟩

/-- C12 (amended): whatever the state, for each of the three phase managers and every
worker whose package has RetryCount at or above the maximum and a Status that is not the
Complete status of the phase, a pass of the manager that returns never sends the worker on
the dispatch channel; and for every occurrence of the worker in the queue of the phase that
the loop reaches (the download manager reaches every one; the pod-copy and install managers
reach it when the walk over the workers before it is not left by break), the pass leaves
the package with the Error status of the phase, and: when PhaseInfo.Phase is the phase of
the manager, the occurrences of the worker up to this one are removed from the queue (the
worker is gone from the queue when this is its last occurrence); when PhaseInfo.Phase is
another phase, the worker stays in the queue.  The pass returns on every well-formed
state. -/
theorem exhausted_worker_removed (maxRetry : Int) (P : AppPhaseType) (s : State) (slots : Nat)
    (a : Nat) (w : PipelineWorker) (info : AppDeploymentInfo)
    (hw : s.workers[a]? = some w) (hinfo : s.infos[w.appDeployInfo]? = some info)
    (hretry : maxRetry ≤ info.PhaseInfo.RetryCount)
    (hstatus : info.PhaseInfo.Status ≠ completeStatusOf P) :
    (∀ r, phaseManagerPass maxRetry P s slots = some r →
        a ∉ r.2
          ∧ ∀ (pre post : List Nat), s.ppln.queue P = pre ++ a :: post →
              (P = PhaseDownload
                ∨ ∃ wk0, walkQueue (managerBody maxRetry P) pre ⟨s, slots, []⟩
                    = some (wk0, false)) →
              (∃ info1, r.1.infos[w.appDeployInfo]? = some info1
                  ∧ info1.PhaseInfo.Status = errorStatusOf P)
                ∧ (info.PhaseInfo.Phase = P →
                    (r.1.ppln.queue P).count a ≤ post.count a
                      ∧ (a ∉ post → a ∉ r.1.ppln.queue P))
                ∧ (info.PhaseInfo.Phase ≠ P →
                    (r.1.ppln.queue P).count a = (s.ppln.queue P).count a
                      ∧ a ∈ r.1.ppln.queue P))
      ∧ (WellFormed s → P ≠ AppPhaseType.unset →
          ∃ r, phaseManagerPass maxRetry P s slots = some r) := by
  refine ⟨?_, ?_⟩
  · intro r hpass
    have hP : P ≠ AppPhaseType.unset := by
      intro hu
      subst hu
      simp [phaseManagerPass] at hpass
    obtain ⟨wkf, brkf, hwq, hwalk, hr⟩ := pass_sound maxRetry P s slots r hpass
    subst hr
    have hex0 : ExhaustedAt maxRetry P info.PhaseInfo.Phase a w.appDeployInfo false
        ⟨s, if P = PhaseDownload then 0 else slots, []⟩ :=
      ⟨w, info, hw, rfl, hinfo, hretry, hstatus, rfl, List.not_mem_nil a,
        fun h => Bool.noConfusion h⟩
    refine ⟨?_, ?_⟩
    · obtain ⟨⟨_, _, _, _, _, _, _, _, hns, _⟩, _⟩ :=
        exhausted_walk maxRetry P info.PhaseInfo.Phase a w.appDeployInfo hP (s.ppln.queue P) _
          wkf brkf false hwalk hex0
      exact hns
    · intro pre post hq hreach
      -- the walk over the workers before this occurrence
      have hpre : ∃ wk0, walkQueue (managerBody maxRetry P) pre
          ⟨s, if P = PhaseDownload then 0 else slots, []⟩ = some (wk0, false) := by
        by_cases hPd : P = PhaseDownload
        · have hwq1 := hwq
          rw [hq] at hwq1
          obtain ⟨wk0, brk0, h0⟩ :=
            walkQueue_prefix (managerBody maxRetry P) pre (a :: post) _ wkf brkf hwq1
          cases brk0 with
          | true => exact absurd hPd (walkQueue_break maxRetry P pre _ wk0 h0)
          | false => exact ⟨wk0, h0⟩
        · rcases hreach with h | ⟨wk0, h0⟩
          · exact absurd h hPd
          · rw [if_neg hPd]
            exact ⟨wk0, h0⟩
      obtain ⟨wk0, hpre0⟩ := hpre
      have hrest : walkQueue (managerBody maxRetry P) (a :: post) wk0 = some (wkf, brkf) := by
        rw [← walkQueue_append (managerBody maxRetry P) pre (a :: post) _ wk0 hpre0, ← hq]
        exact hwq
      have hwalk1 := walkQueue_sound maxRetry P pre _ wk0 false hpre0
      have hwalk2 := walkQueue_sound maxRetry P (a :: post) wk0 wkf brkf hrest
      obtain ⟨hexA, _, hoA, hnbA⟩ :=
        exhausted_walk maxRetry P info.PhaseInfo.Phase a w.appDeployInfo hP pre _ wk0 false
          false hwalk1 hex0
      obtain ⟨hcA, _⟩ := hnbA rfl
      have hc0 : (s.ppln.queue P).count a = pre.count a + (post.count a + 1) := by
        rw [hq, List.count_append, List.count_cons_self]
      cases hwalk2 with
      | stop _ _ _ _ hstep =>
        have := (exhausted_step_self maxRetry P info.PhaseInfo.Phase a w.appDeployInfo false
          wk0 wkf true hP hexA hstep).1
        cases this
      | next _ _ _ wk1 _ _ hstep hrest2 =>
        obtain ⟨_, hex1, hc1, ho1⟩ :=
          exhausted_step_self maxRetry P info.PhaseInfo.Phase a w.appDeployInfo false
            wk0 wk1 false hP hexA hstep
        obtain ⟨hex2, hle2, ho2, _⟩ :=
          exhausted_walk maxRetry P info.PhaseInfo.Phase a w.appDeployInfo hP post wk1 wkf
            brkf true hrest2 hex1
        obtain ⟨_, info1, _, _, hi1, _, _, _, _, hv⟩ := hex2
        refine ⟨⟨info1, hi1, hv rfl⟩, ?_, ?_⟩
        · intro hph
          rw [hph] at hle2 hc1 hcA
          have e1 : (wkf.s.ppln.queue P).count a ≤ (wk1.s.ppln.queue P).count a := hle2
          have e2 : (wk1.s.ppln.queue P).count a = (wk0.s.ppln.queue P).count a - 1 := hc1
          have e3 : (wk0.s.ppln.queue P).count a = (s.ppln.queue P).count a - pre.count a :=
            hcA
          have hle : (wkf.s.ppln.queue P).count a ≤ post.count a := by
            omega
          refine ⟨hle, fun hnot => ?_⟩
          have h0 : post.count a = 0 := List.count_eq_zero.mpr hnot
          have h1 : (wkf.s.ppln.queue P).count a = 0 := by
            omega
          exact List.count_eq_zero.mp h1
        · intro hph
          have hph1 : P ≠ info.PhaseInfo.Phase := Ne.symm hph
          have e1 : (wkf.s.ppln.queue P).count a = (wk1.s.ppln.queue P).count a := ho2 P hph1
          have e2 : wk1.s.ppln.queue P = wk0.s.ppln.queue P := ho1 P hph1
          have e3 : (wk0.s.ppln.queue P).count a = (s.ppln.queue P).count a := hoA P hph1
          have hsame : (wkf.s.ppln.queue P).count a = (s.ppln.queue P).count a := by
            rw [e1, e2, e3]
          refine ⟨hsame, ?_⟩
          have hpos : 0 < (wkf.s.ppln.queue P).count a := by
            omega
          exact List.count_pos_iff.mp hpos
  · intro hwf hP
    obtain ⟨r, hr, _⟩ := pass_total maxRetry P s slots hwf hP
    exact ⟨r, hr⟩

theorem exhausted_worker_removed_witness :
    ((3 : Int) ≤ 3 ∧ AppPkgPodCopyPending ≠ completeStatusOf PhasePodCopy
        ∧ exExhaustedState.ppln.queue PhasePodCopy = [0] ++ 1 :: []
        ∧ walkQueue (managerBody 3 PhasePodCopy) [0] ⟨exExhaustedState, 1, []⟩
            = some (⟨exExhaustedSentState, 0, [0]⟩, false)
        ∧ ∃ r, phaseManagerPass 3 PhasePodCopy exExhaustedState 1 = some r
          ∧ 1 ∉ r.2
          ∧ (∃ info1, r.1.infos[1]? = some info1
              ∧ info1.PhaseInfo.Status = errorStatusOf PhasePodCopy)
          ∧ (PhasePodCopy = PhasePodCopy →
              (r.1.ppln.queue PhasePodCopy).count 1 ≤ ([] : List Nat).count 1
                ∧ (1 ∉ ([] : List Nat) → 1 ∉ r.1.ppln.queue PhasePodCopy))
          ∧ (PhasePodCopy ≠ PhasePodCopy →
              (r.1.ppln.queue PhasePodCopy).count 1
                  = (exExhaustedState.ppln.queue PhasePodCopy).count 1
                ∧ 1 ∈ r.1.ppln.queue PhasePodCopy))
      ∧ ((3 : Int) ≤ 3 ∧ AppPkgDownloadComplete ≠ completeStatusOf PhasePodCopy
        ∧ exStrayPhaseState.ppln.queue PhasePodCopy = [] ++ 0 :: []
        ∧ ∃ r, phaseManagerPass 3 PhasePodCopy exStrayPhaseState 1 = some r
          ∧ 0 ∉ r.2
          ∧ (∃ info1, r.1.infos[0]? = some info1
              ∧ info1.PhaseInfo.Status = errorStatusOf PhasePodCopy)
          ∧ (PhaseDownload = PhasePodCopy →
              (r.1.ppln.queue PhasePodCopy).count 0 ≤ ([] : List Nat).count 0
                ∧ (0 ∉ ([] : List Nat) → 0 ∉ r.1.ppln.queue PhasePodCopy))
          ∧ (PhaseDownload ≠ PhasePodCopy →
              (r.1.ppln.queue PhasePodCopy).count 0
                  = (exStrayPhaseState.ppln.queue PhasePodCopy).count 0
                ∧ 0 ∈ r.1.ppln.queue PhasePodCopy)) :=
  have hwf1 : WellFormed exExhaustedState := by
    refine ⟨by decide, by decide, by decide, ?_, ?_⟩
    · intro w hw
      simp only [exExhaustedState, List.mem_cons, List.mem_singleton, List.not_mem_nil,
        or_false] at hw
      rcases hw with h | h <;> subst h
      · refine ⟨by decide, ⟨1, by decide, by decide⟩, by decide, ?_⟩
        intro info hinfo
        cases hinfo
        decide
      · refine ⟨by decide, ⟨1, by decide, by decide⟩, by decide, ?_⟩
        intro info hinfo
        cases hinfo
        decide
    · intro P a ha
      cases P <;> revert ha <;> revert a <;> decide
  have hwf2 : WellFormed exStrayPhaseState := by
    refine ⟨by decide, by decide, by decide, ?_, ?_⟩
    · intro w hw
      simp only [exStrayPhaseState, List.mem_singleton] at hw
      subst hw
      refine ⟨by decide, ⟨2, by decide, by decide⟩, by decide, ?_⟩
      intro info hinfo
      cases hinfo
      decide
    · intro P a ha
      cases P <;> revert ha <;> revert a <;> decide
  have h1 := exhausted_worker_removed 3 PhasePodCopy exExhaustedState 1 1
    { exWorker "ClusterMaster" (some 1) with
      appDeployInfo := 1, isActive := false, waiter := none }
    { exDownloadedApp [] with
      PhaseInfo := { Phase := PhasePodCopy, Status := AppPkgPodCopyPending, RetryCount := 3 } }
    rfl rfl (by decide) (by decide)
  have h2 := exhausted_worker_removed 3 PhasePodCopy exStrayPhaseState 1 0
    { exWorker "Standalone" (some 2) with
      targetPodName := "splunk-stack1-standalone-0", isActive := false, waiter := none }
    { exDownloadedApp
        [{ Phase := PhasePodCopy, Status := AppPkgPodCopyPending, RetryCount := 0 },
         { Phase := PhasePodCopy, Status := AppPkgPodCopyPending, RetryCount := 0 }] with
      PhaseInfo := { Phase := PhaseDownload, Status := AppPkgDownloadComplete, RetryCount := 3 } }
    rfl rfl (by decide) (by decide)
  have hreach1 : walkQueue (managerBody 3 PhasePodCopy) [0] ⟨exExhaustedState, 1, []⟩
      = some (⟨exExhaustedSentState, 0, [0]⟩, false) := rfl
  ⟨⟨by decide, by decide, rfl, hreach1,
      (h1.2 hwf1 (by decide)).elim (fun r hr =>
        ⟨r, hr, (h1.1 r hr).1, (h1.1 r hr).2 [0] [] rfl (Or.inr ⟨_, hreach1⟩)⟩)⟩,
    ⟨by decide, by decide, rfl,
      (h2.2 hwf2 (by decide)).elim (fun r hr =>
        ⟨r, hr, (h2.1 r hr).1, (h2.1 r hr).2 [] [] rfl (Or.inr ⟨_, rfl⟩)⟩)⟩⟩

theorem splitSlash_ne_nil (x : List Char) : splitSlash x ≠ [] := by
  induction x with
  | nil => simp [splitSlash]
  | cons c cs ih =>
    rw [splitSlash]
    split
    · simp
    · cases h : splitSlash cs with
      | nil => simp
      | cons seg segs => simp

theorem splitSlash_append_slash (x y : List Char) :
    splitSlash (x ++ '/' :: y) = splitSlash x ++ splitSlash y := by
  induction x with
  | nil => simp [splitSlash]
  | cons c cs ih =>
    by_cases hc : c = '/'
    · subst hc
      simp [splitSlash, ih]
    · cases h : splitSlash cs with
      | nil => exact absurd h (splitSlash_ne_nil cs)
      | cons seg segs =>
        simp [splitSlash, hc, ih, h]

theorem cleanElems_append (rooted : Bool) (A B stack : List (List Char)) :
    cleanElems rooted (A ++ B) stack = cleanElems rooted B (cleanElems rooted A stack).reverse := by
  induction A generalizing stack with
  | nil => simp [cleanElems]
  | cons e es ih =>
    simp only [List.cons_append, cleanElems]
    split
    · exact ih stack
    · split
      · cases stack with
        | nil =>
          simp only []
          split
          · exact ih []
          · exact ih [e]
        | cons top below =>
          simp only []
          split
          · exact ih (e :: top :: below)
          · exact ih below
      · exact ih (e :: stack)

theorem intercalate_components_ne_nil (elems : List (List Char)) (hne : elems ≠ [])
    (h : ∀ e ∈ elems, PathComponent e) : List.intercalate ['/'] elems ≠ [] := by
  cases elems with
  | nil => exact absurd rfl hne
  | cons e es =>
    have he := (h e (by simp)).1
    cases es with
    | nil => rw [intercalate_singleton]; exact he
    | cons e2 es2 =>
      rw [intercalate_cons_cons]
      simp [he]

/-- The cleaned form of a path `root/rest`, where `root` is not empty and `rest` is made of
path components: the elements kept of `root`, followed by the components. -/
theorem filepathClean_extend (root : List Char) (rest : List (List Char)) (hroot : root ≠ [])
    (hne : rest ≠ []) (hrest : ∀ e ∈ rest, PathComponent e) :
    filepathClean (root ++ '/' :: List.intercalate ['/'] rest)
      = (if root.head? = some '/' then ['/'] else [])
          ++ List.intercalate ['/']
            (cleanElems (decide (root.head? = some '/')) (splitSlash root) [] ++ rest) := by
  have hhead : (root ++ '/' :: List.intercalate ['/'] rest).head? = root.head? := by
    cases root with
    | nil => exact absurd rfl hroot
    | cons c cs => rfl
  have hsplit : splitSlash (root ++ '/' :: List.intercalate ['/'] rest)
      = splitSlash root ++ rest := by
    rw [splitSlash_append_slash, splitSlash_intercalate rest hne (fun e he => (hrest e he).2.1)]
  unfold filepathClean
  simp only [hhead, hsplit]
  rw [cleanElems_append, cleanElems_components _ rest _ hrest, List.reverse_reverse]
  have hout : (if decide (root.head? = some '/') = true then ['/'] else [])
      ++ List.intercalate ['/']
        (cleanElems (decide (root.head? = some '/')) (splitSlash root) [] ++ rest) ≠ [] := by
    intro h
    have h2 := (List.append_eq_nil.mp h).2
    cases hc : cleanElems (decide (root.head? = some '/')) (splitSlash root) [] with
    | nil =>
      rw [hc, List.nil_append] at h2
      exact intercalate_components_ne_nil rest hne hrest h2
    | cons c cs =>
      rw [hc, intercalate_append ['/'] (c :: cs) rest (by simp) hne] at h2
      simp at h2
  rw [if_neg hout]
  simp

theorem filepathJoin_scheme_iff (root : List Char) (rest : List (List Char))
    (hne : rest ≠ []) (hrest : ∀ e ∈ rest, PathComponent e) :
    filepathJoin (root :: rest) = root ++ '/' :: List.intercalate ['/'] rest
      ↔ (filepathClean root = root ∧ root ≠ ['/'] ∧ root ≠ ['.']) := by
  by_cases hroot : root = []
  · subst hroot
    constructor
    · intro h
      exfalso
      cases rest with
      | nil => exact hne rfl
      | cons e es =>
        have he := hrest e (by simp)
        have hhead : (List.intercalate ['/'] (e :: es)).head? ≠ some '/' := by
          cases e with
          | nil => exact absurd rfl he.1
          | cons c cs =>
            have hc : c ≠ '/' := fun hc => he.2.1 (by simp [hc])
            cases es with
            | nil => rw [intercalate_singleton]; simpa using hc
            | cons e2 es2 => rw [intercalate_cons_cons]; simpa using hc
        have hsplit := splitSlash_intercalate (e :: es) (by simp) (fun x hx => (hrest x hx).2.1)
        have hjoin : filepathJoin ([] :: e :: es) = List.intercalate ['/'] (e :: es) := by
          rw [filepathJoin]
          simp only [if_true]
          rw [filepathJoin]
          simp only [he.1, if_false]
          unfold filepathClean
          simp only [hsplit, hhead, decide_False, Bool.false_eq_true, if_false, List.nil_append]
          rw [cleanElems_components false (e :: es) [] hrest]
          simp only [List.reverse_nil, List.nil_append]
          rw [if_neg (intercalate_components_ne_nil (e :: es) (by simp) hrest)]
        rw [hjoin] at h
        have hlen := congrArg List.length h
        simp at hlen
    · intro h
      exfalso
      have hc : filepathClean ([] : List Char) = ['.'] := by decide
      have h1 := h.1
      rw [hc] at h1
      exact absurd h1 (by decide)
  · have hjoin : filepathJoin (root :: rest)
        = filepathClean (root ++ '/' :: List.intercalate ['/'] rest) := by
      rw [filepathJoin]
      simp only [hroot, if_false]
      cases rest with
      | nil => exact absurd rfl hne
      | cons e es =>
        rw [intercalate_cons_cons]
        simp
    rw [hjoin, filepathClean_extend root rest hroot hne hrest]
    have hcleanroot : filepathClean root
        = (if (if root.head? = some '/' then ['/'] else [])
              ++ List.intercalate ['/']
                (cleanElems (decide (root.head? = some '/')) (splitSlash root) []) = []
            then ['.']
            else (if root.head? = some '/' then ['/'] else [])
              ++ List.intercalate ['/']
                (cleanElems (decide (root.head? = some '/')) (splitSlash root) [])) := by
      unfold filepathClean
      simp
    generalize hC : cleanElems (decide (root.head? = some '/')) (splitSlash root) [] = C
      at hcleanroot
    generalize hpre : (if root.head? = some '/' then ['/'] else []) = pre at hcleanroot
    have hprelen : pre.length ≤ 1 := by
      rw [← hpre]
      split <;> simp
    cases C with
    | nil =>
      simp only [List.nil_append]
      constructor
      · intro h
        exfalso
        have hlen := congrArg List.length h
        simp only [List.length_append, List.length_cons] at hlen
        have : 0 < root.length := List.length_pos.mpr hroot
        omega
      · intro ⟨h1, h2, h3⟩
        exfalso
        rw [hcleanroot] at h1
        simp only [List.intercalate, List.intersperse, List.flatten, List.append_nil] at h1
        by_cases hp : pre = []
        · rw [if_pos hp] at h1
          exact h3 h1.symm
        · rw [if_neg hp] at h1
          rw [← hpre] at h1
          split at h1
          · exact h2 h1.symm
          · exact hroot h1.symm
    | cons c cs =>
      rw [intercalate_append ['/'] (c :: cs) rest (by simp) hne]
      constructor
      · intro h
        have h1 : pre ++ List.intercalate ['/'] (c :: cs) = root := by
          have h' : (pre ++ List.intercalate ['/'] (c :: cs))
              ++ ('/' :: List.intercalate ['/'] rest)
              = root ++ ('/' :: List.intercalate ['/'] rest) := by
            rw [← h]
            simp
          exact List.append_cancel_right h'
        have hnonempty : pre ++ List.intercalate ['/'] (c :: cs) ≠ [] := by
          rw [h1]; exact hroot
        refine ⟨by rw [hcleanroot, if_neg hnonempty]; exact h1, ?_, ?_⟩
        · intro hr
          subst hr
          simp [splitSlash, cleanElems] at hC
        · intro hr
          subst hr
          simp [splitSlash, cleanElems] at hC
      · intro ⟨h1, h2, h3⟩
        rw [hcleanroot] at h1
        by_cases hnil : pre ++ List.intercalate ['/'] (c :: cs) = []
        · rw [if_pos hnil] at h1
          exact absurd h1.symm h3
        · rw [if_neg hnil] at h1
          rw [← h1]
          simp

theorem cleanAbsolutePath_clean (root : List Char) (h : CleanAbsolutePath root) :
    filepathClean root = root ∧ root ≠ ['/'] ∧ root ≠ ['.'] := by
  obtain ⟨elems, hne, helems, rfl⟩ := h
  refine ⟨filepathClean_absolute elems hne helems, ?_, by simp⟩
  intro h1
  have h2 : List.intercalate ['/'] elems = [] := by simpa using h1
  exact intercalate_components_ne_nil elems hne helems h2

/-- C17 (as stated, refuted): with the staging root `/` (the value the tests of the package
assign to AppDownloadVolume) and a namespace, Kind, CR name, scope and app source name that
are path components, the directory computed by scheduleDownloads is
/downloadedApps/test/ClusterMaster/stack1/local/appSrc1/, which is not the staging root
followed by /downloadedApps/test/ClusterMaster/stack1/local/appSrc1/ (that path begins with
two separators): filepath.Join cleans the joined path. -/
theorem downloadDirOf_root_counterexample :
    PathComponent "test".data ∧ PathComponent "ClusterMaster".data
      ∧ PathComponent "stack1".data ∧ PathComponent "local".data
      ∧ PathComponent "appSrc1".data
      ∧ downloadDirOf "/" { Kind := "ClusterMaster", Name := "stack1", Namespace := "test" }
          "local" "appSrc1"
        = "/downloadedApps/test/ClusterMaster/stack1/local/appSrc1/"
      ∧ downloadDirOf "/" { Kind := "ClusterMaster", Name := "stack1", Namespace := "test" }
          "local" "appSrc1"
        ≠ "/" ++ "/downloadedApps/" ++ "test" ++ "/" ++ "ClusterMaster" ++ "/" ++ "stack1"
            ++ "/" ++ "local" ++ "/" ++ "appSrc1" ++ "/" := by
  refine ⟨by decide, by decide, by decide, by decide, by decide, by decide, by decide⟩

/-- C17 (amended): for a namespace, Kind, CR name, scope and app source name that are path
components (not empty, without a separator, neither `.` nor `..`), the directory computed by
scheduleDownloads is, byte for byte, the staging root followed by /downloadedApps/, the
namespace, the Kind, the CR name, the scope and the app source name, separated by single
separators and ended by one separator, if and only if the staging root is a path that
filepath.Clean leaves unchanged and is neither `/` nor `.`; for the CR of the test of the
local path and the staging root /opt/splunk/appframework, appending the app name, an
underscore and the object hash gives the path the test expects. -/
theorem downloadDirOf_scheme (stagingRoot : String) (cr : MetaObject)
    (scope appSrcName : String)
    (hns : PathComponent cr.Namespace.data) (hkind : PathComponent cr.Kind.data)
    (hname : PathComponent cr.Name.data) (hscope : PathComponent scope.data)
    (hsrc : PathComponent appSrcName.data) :
    (downloadDirOf stagingRoot cr scope appSrcName
        = stagingRoot ++ "/downloadedApps/" ++ cr.Namespace ++ "/" ++ cr.Kind ++ "/" ++ cr.Name
            ++ "/" ++ scope ++ "/" ++ appSrcName ++ "/"
        ↔ (filepathClean stagingRoot.data = stagingRoot.data
          ∧ stagingRoot ≠ "/" ∧ stagingRoot ≠ "."))
      ∧ downloadDirOf "/opt/splunk/appframework"
            { Kind := "ClusterMaster", Name := "stack1", Namespace := "test" } "local" "appSrc1"
          ++ "testApp.spl" ++ "_" ++ "bcda23232a89"
        = "/opt/splunk/appframework/downloadedApps/test/ClusterMaster/stack1/local/appSrc1/testApp.spl_bcda23232a89" := by
  refine ⟨?_, by decide⟩
  have hrest : ∀ e ∈ ["downloadedApps".data, cr.Namespace.data, cr.Kind.data, cr.Name.data,
      scope.data, appSrcName.data], PathComponent e := by
    intro e he
    simp only [List.mem_cons, List.mem_singleton, List.not_mem_nil, or_false] at he
    rcases he with h | h | h | h | h | h <;> subst h
    · exact ⟨by decide, by decide, by decide, by decide⟩
    · exact hns
    · exact hkind
    · exact hname
    · exact hscope
    · exact hsrc
  have hiff := filepathJoin_scheme_iff stagingRoot.data
    ["downloadedApps".data, cr.Namespace.data, cr.Kind.data, cr.Name.data, scope.data,
      appSrcName.data] (by simp) hrest
  have hroot1 : stagingRoot ≠ "/" ↔ stagingRoot.data ≠ ['/'] := by
    rw [Ne, Ne, String.ext_iff]
  have hroot2 : stagingRoot ≠ "." ↔ stagingRoot.data ≠ ['.'] := by
    rw [Ne, Ne, String.ext_iff]
  rw [hroot1, hroot2, ← hiff]
  unfold downloadDirOf
  rw [String.ext_iff]
  simp only [String.data_append]
  have hform : stagingRoot.data ++ "/downloadedApps/".data ++ cr.Namespace.data ++ "/".data
        ++ cr.Kind.data ++ "/".data ++ cr.Name.data ++ "/".data ++ scope.data ++ "/".data
        ++ appSrcName.data ++ "/".data
      = (stagingRoot.data ++ '/' :: List.intercalate ['/']
          ["downloadedApps".data, cr.Namespace.data, cr.Kind.data, cr.Name.data, scope.data,
            appSrcName.data]) ++ "/".data := by
    simp [intercalate_cons_cons, intercalate_singleton]
  rw [hform]
  exact List.append_left_inj _

theorem downloadDirOf_scheme_witness :
    PathComponent "test".data ∧ PathComponent "ClusterMaster".data
      ∧ PathComponent "stack1".data ∧ PathComponent "local".data
      ∧ PathComponent "appSrc1".data
      ∧ filepathClean "/opt/splunk/appframework".data = "/opt/splunk/appframework".data
      ∧ "/opt/splunk/appframework" ≠ "/" ∧ "/opt/splunk/appframework" ≠ "."
      ∧ downloadDirOf "/opt/splunk/appframework"
          { Kind := "ClusterMaster", Name := "stack1", Namespace := "test" } "local" "appSrc1"
        = "/opt/splunk/appframework" ++ "/downloadedApps/" ++ "test" ++ "/" ++ "ClusterMaster"
            ++ "/" ++ "stack1" ++ "/" ++ "local" ++ "/" ++ "appSrc1" ++ "/"
      ∧ downloadDirOf "/opt/splunk/appframework"
            { Kind := "ClusterMaster", Name := "stack1", Namespace := "test" } "local" "appSrc1"
          ++ "testApp.spl" ++ "_" ++ "bcda23232a89"
        = "/opt/splunk/appframework/downloadedApps/test/ClusterMaster/stack1/local/appSrc1/testApp.spl_bcda23232a89" :=
  have h := downloadDirOf_scheme "/opt/splunk/appframework"
    { Kind := "ClusterMaster", Name := "stack1", Namespace := "test" } "local" "appSrc1"
    (by decide) (by decide) (by decide) (by decide) (by decide)
  ⟨by decide, by decide, by decide, by decide, by decide, by decide, by decide, by decide,
    h.1.mpr ⟨by decide, by decide, by decide⟩, h.2⟩

end enterprise
